import Mathlib

/-!
# Cloth solver and rigid-body collision: a shallow embedding

The definitions below follow `physics.js` (classes `Particle`, `Spring`, `Cloth`),
`collisionObjects.js` (classes `Sphere`, `Cube`, `ObjectManager`) and the function
`deformCloth` of `main.js`.

* Numbers are elements of a linearly ordered field `K`; `Math.sqrt` and `Math.hypot`
  are the function `sqrt : K → K` that every operation using them takes as its first
  argument. The theorems about distances instantiate `K` with `ℝ` and `sqrt` with
  `Real.sqrt` (exact real arithmetic).
* A JavaScript array of three numbers is a `Vec3`; the particle array is a `List`, and
  a spring holds two indices into it.
* A call that raises a `TypeError` (the lookup `particles[i]` gave `undefined` and a
  field of it was read) returns `Except.error s`, where `s` is the state the call
  leaves behind; a call that completes returns `Except.ok s`.
* The audio notifications (`audioManager.play…Sound`) and the render-only fields
  (`color`, `type`) do not touch the simulation state and are left out.
-/

namespace ClothSim

/-- A three-element number array `[x, y, z]`. -/
structure Vec3 (K : Type) where
  x : K
  y : K
  z : K

/-- Class `Particle` of `physics.js`. -/
structure Particle (K : Type) where
  pos : Vec3 K
  prev : Vec3 K
  acc : Vec3 K
  pinned : Bool
  originalPos : Vec3 K

/-- Constructor `new Particle(x, y, z, pinned)`. -/
def Particle.new {K : Type} [LinearOrderedField K] (x y z : K) (pinned : Bool) : Particle K :=
  { pos := ⟨x, y, z⟩, prev := ⟨x, y, z⟩, acc := ⟨0, 0, 0⟩, pinned := pinned,
    originalPos := ⟨x, y, z⟩ }

/-- Class `Spring` of `physics.js`: endpoints `a`, `b` index the particle array. -/
structure Spring (K : Type) where
  a : Nat
  b : Nat
  rest : K

/-- Class `Sphere` of `collisionObjects.js` (with the fields of `GeometricObject`). -/
structure Sphere (K : Type) where
  position : Vec3 K
  velocity : Vec3 K
  visible : Bool
  radius : K

/-- Class `Cube` of `collisionObjects.js` (with the fields of `GeometricObject`). -/
structure Cube (K : Type) where
  position : Vec3 K
  velocity : Vec3 K
  visible : Bool
  size : K
  halfSize : K

/-- Constructor `new Sphere(position, radius)`. -/
def Sphere.new {K : Type} [LinearOrderedField K] (position : Vec3 K) (radius : K) : Sphere K :=
  { position := position, velocity := ⟨0, 0, 0⟩, visible := true, radius := radius }

/-- Constructor `new Cube(position, size)`: `halfSize = size / 2`. -/
def Cube.new {K : Type} [LinearOrderedField K] (position : Vec3 K) (size : K) : Cube K :=
  { position := position, velocity := ⟨0, 0, 0⟩, visible := true, size := size,
    halfSize := size / 2 }

/-- The two subclasses of `GeometricObject`. -/
inductive GeometricObject (K : Type) where
  | sphere (s : Sphere K)
  | cube (c : Cube K)

/-- Class `ObjectManager`: the ordered collection of bodies. -/
structure ObjectManager (K : Type) where
  objects : List (GeometricObject K)

/-- Class `Cloth` of `physics.js`. `objectManager = none` is the JavaScript `null`. -/
structure Cloth (K : Type) where
  cols : Nat
  rows : Nat
  width : K
  height : K
  particles : List (Particle K)
  springs : List (Spring K)
  windForce : Vec3 K
  objectManager : Option (ObjectManager K)

section Operations

variable {K : Type} [LinearOrderedField K]

/-- The value `Math.sqrt(dx*dx + dy*dy + dz*dz)` (also `Math.hypot(dx, dy, dz)`). -/
def hypot3 (sqrt : K → K) (dx dy dz : K) : K :=
  sqrt (dx * dx + dy * dy + dz * dz)

/-- Method `Sphere.checkCollision(particlePos)`. -/
def Sphere.checkCollision (sqrt : K → K) (s : Sphere K) (particlePos : Vec3 K) : Bool :=
  let dx := particlePos.x - s.position.x
  let dy := particlePos.y - s.position.y
  let dz := particlePos.z - s.position.z
  let distance := sqrt (dx * dx + dy * dy + dz * dz)
  decide (distance < s.radius)

/-- Method `Sphere.resolveCollision(particlePos, particlePrev)`: the two arrays are
mutated in place, so the result is the pair of their new contents. -/
def Sphere.resolveCollision (sqrt : K → K) (s : Sphere K) (particlePos particlePrev : Vec3 K) :
    Vec3 K × Vec3 K :=
  let dx := particlePos.x - s.position.x
  let dy := particlePos.y - s.position.y
  let dz := particlePos.z - s.position.z
  let distance := sqrt (dx * dx + dy * dy + dz * dz)
  if distance < s.radius ∧ distance > 0 then
    let normalX := dx / distance
    let normalY := dy / distance
    let normalZ := dz / distance
    let pos1 : Vec3 K :=
      ⟨s.position.x + normalX * s.radius, s.position.y + normalY * s.radius,
        s.position.z + normalZ * s.radius⟩
    let velX := pos1.x - particlePrev.x
    let velY := pos1.y - particlePrev.y
    let velZ := pos1.z - particlePrev.z
    let normalVel := velX * normalX + velY * normalY + velZ * normalZ
    let bounce : K := 0.3
    if normalVel < 0 then
      (pos1, ⟨pos1.x - (velX - normalX * normalVel * (1 + bounce)),
              pos1.y - (velY - normalY * normalVel * (1 + bounce)),
              pos1.z - (velZ - normalZ * normalVel * (1 + bounce))⟩)
    else (pos1, particlePrev)
  else (particlePos, particlePrev)

/-- Method `Cube.checkCollision(particlePos)`: inclusive containment on the three axes. -/
def Cube.checkCollision (c : Cube K) (particlePos : Vec3 K) : Bool :=
  decide (particlePos.x ≥ c.position.x - c.halfSize) &&
  decide (particlePos.x ≤ c.position.x + c.halfSize) &&
  decide (particlePos.y ≥ c.position.y - c.halfSize) &&
  decide (particlePos.y ≤ c.position.y + c.halfSize) &&
  decide (particlePos.z ≥ c.position.z - c.halfSize) &&
  decide (particlePos.z ≤ c.position.z + c.halfSize)

/-- Method `Cube.resolveCollision(particlePos, particlePrev)`. -/
def Cube.resolveCollision (c : Cube K) (particlePos particlePrev : Vec3 K) : Vec3 K × Vec3 K :=
  if !c.checkCollision particlePos then (particlePos, particlePrev)
  else
    let dx := particlePos.x - c.position.x
    let dy := particlePos.y - c.position.y
    let dz := particlePos.z - c.position.z
    let distX := c.halfSize - |dx|
    let distY := c.halfSize - |dy|
    let distZ := c.halfSize - |dz|
    let bounce : K := 0.3
    if distX < distY ∧ distX < distZ then
      let px := c.position.x + (if dx > 0 then c.halfSize else -c.halfSize)
      let velX := px - particlePrev.x
      ({ particlePos with x := px }, { particlePrev with x := px - velX * bounce })
    else if distY < distZ then
      let py := c.position.y + (if dy > 0 then c.halfSize else -c.halfSize)
      let velY := py - particlePrev.y
      ({ particlePos with y := py }, { particlePrev with y := py - velY * bounce })
    else
      let pz := c.position.z + (if dz > 0 then c.halfSize else -c.halfSize)
      let velZ := pz - particlePrev.z
      ({ particlePos with z := pz }, { particlePrev with z := pz - velZ * bounce })

/-- Field `obj.visible`. -/
def GeometricObject.visible : GeometricObject K → Bool
  | .sphere s => s.visible
  | .cube c => c.visible

/-- Dynamic dispatch of `obj.checkCollision(particlePos)`. -/
def GeometricObject.checkCollision (sqrt : K → K) : GeometricObject K → Vec3 K → Bool
  | .sphere s, p => s.checkCollision sqrt p
  | .cube c, p => c.checkCollision p

/-- Dynamic dispatch of `obj.resolveCollision(particlePos, particlePrev)`. -/
def GeometricObject.resolveCollision (sqrt : K → K) :
    GeometricObject K → Vec3 K → Vec3 K → Vec3 K × Vec3 K
  | .sphere s, p, q => s.resolveCollision sqrt p q
  | .cube c, p, q => c.resolveCollision p q

/-- One turn of the loop of `ObjectManager.checkCollisions`. -/
def collideWith (sqrt : K → K) (p : Particle K) (obj : GeometricObject K) : Particle K :=
  if obj.visible && obj.checkCollision sqrt p.pos then
    let r := obj.resolveCollision sqrt p.pos p.prev
    { p with pos := r.1, prev := r.2 }
  else p

/-- Method `ObjectManager.checkCollisions(particle)`. -/
def ObjectManager.checkCollisions (sqrt : K → K) (om : ObjectManager K) (particle : Particle K) :
    Particle K :=
  om.objects.foldl (collideWith sqrt) particle

/-- The state a call leaves behind, whether it completed or raised. -/
def stateOf {σ : Type} : Except σ σ → σ
  | .ok s => s
  | .error s => s

/-- Body of the first loop of `Cloth.applyForces`: acceleration of one particle. -/
def accumulateForce (windForce : Vec3 K) (p : Particle K) : Particle K :=
  let g : Vec3 K := ⟨0, -9.81, 0⟩
  if p.pinned then p
  else { p with acc := ⟨g.x + windForce.x, g.y + windForce.y, g.z + windForce.z⟩ }

/-- Body of the second loop of `Cloth.applyForces`: Verlet integration, ground
collision and rigid-body collisions of one particle. -/
def integrateParticle (sqrt : K → K) (objectManager : Option (ObjectManager K)) (dt2 : K)
    (p : Particle K) : Particle K :=
  let damping : K := 0.01
  if p.pinned then p
  else
    let px := p.pos.x
    let py := p.pos.y
    let pz := p.pos.z
    let vx := (px - p.prev.x) * (1 - damping)
    let vy := (py - p.prev.y) * (1 - damping)
    let vz := (pz - p.prev.z) * (1 - damping)
    let prev1 : Vec3 K := ⟨px, py, pz⟩
    let pos1 : Vec3 K :=
      ⟨p.pos.x + (vx + p.acc.x * dt2), p.pos.y + (vy + p.acc.y * dt2),
        p.pos.z + (vz + p.acc.z * dt2)⟩
    let p1 : Particle K :=
      if pos1.y < -2 then
        { p with pos := { pos1 with y := -2 },
                 prev := { prev1 with y := -2 + (-2 - prev1.y) * 0.3 } }
      else { p with pos := pos1, prev := prev1 }
    match objectManager with
    | some om => om.checkCollisions sqrt p1
    | none => p1

/-- Method `Cloth.applyForces(dt)`. -/
def Cloth.applyForces (sqrt : K → K) (dt : K) (c : Cloth K) : Cloth K :=
  let ps1 := c.particles.map (accumulateForce c.windForce)
  let dt2 := dt * dt
  let ps2 := ps1.map (integrateParticle sqrt c.objectManager dt2)
  { c with
    particles := ps2
    windForce := ⟨c.windForce.x * 0.95, c.windForce.y * 0.95, c.windForce.z * 0.95⟩ }

/-- Body of the spring loop of `Cloth.satisfyConstraints` for one spring; `none` when
`particles[s.a]` or `particles[s.b]` is `undefined` (reading `.pos` raises, before any
write). The second endpoint is read again after the first one is written, as the
in-place updates of the source do. -/
def springStep (sqrt : K → K) (ps : List (Particle K)) (s : Spring K) :
    Option (List (Particle K)) :=
  match ps[s.a]?, ps[s.b]? with
  | some A, some B =>
    let dx := B.pos.x - A.pos.x
    let dy := B.pos.y - A.pos.y
    let dz := B.pos.z - A.pos.z
    let dist := hypot3 sqrt dx dy dz
    if dist = 0 then some ps
    else
      let diff := (dist - s.rest) / dist
      let stiffness : K := 0.8
      if !A.pinned && !B.pinned then
        let ps1 := ps.modify (fun q => { q with pos :=
          ⟨q.pos.x + dx * 0.5 * stiffness * diff, q.pos.y + dy * 0.5 * stiffness * diff,
            q.pos.z + dz * 0.5 * stiffness * diff⟩ }) s.a
        some (ps1.modify (fun q => { q with pos :=
          ⟨q.pos.x - dx * 0.5 * stiffness * diff, q.pos.y - dy * 0.5 * stiffness * diff,
            q.pos.z - dz * 0.5 * stiffness * diff⟩ }) s.b)
      else if !A.pinned then
        some (ps.modify (fun q => { q with pos :=
          ⟨q.pos.x + dx * stiffness * diff, q.pos.y + dy * stiffness * diff,
            q.pos.z + dz * stiffness * diff⟩ }) s.a)
      else if !B.pinned then
        some (ps.modify (fun q => { q with pos :=
          ⟨q.pos.x - dx * stiffness * diff, q.pos.y - dy * stiffness * diff,
            q.pos.z - dz * stiffness * diff⟩ }) s.b)
      else some ps
  | _, _ => none

/-- The loop `for (const s of this.springs)` of `Cloth.satisfyConstraints`; an error
carries the particles as they are when the lookup fails. -/
def relaxSprings (sqrt : K → K) :
    List (Spring K) → List (Particle K) → Except (List (Particle K)) (List (Particle K))
  | [], ps => .ok ps
  | s :: ss, ps =>
    match springStep sqrt ps s with
    | none => .error ps
    | some ps1 => relaxSprings sqrt ss ps1

/-- The block `if (this.objectManager) { for (const p of this.particles) … }` that ends
every iteration of `Cloth.satisfyConstraints`. -/
def collisionPass (sqrt : K → K) (objectManager : Option (ObjectManager K))
    (ps : List (Particle K)) : List (Particle K) :=
  match objectManager with
  | some om => ps.map (fun p => if !p.pinned then om.checkCollisions sqrt p else p)
  | none => ps

/-- One turn of the loop `for (let k = 0; k < iterations; k++)`. -/
def relaxOnce (sqrt : K → K) (c : Cloth K) : Except (Cloth K) (Cloth K) :=
  match relaxSprings sqrt c.springs c.particles with
  | .error ps => .error { c with particles := ps }
  | .ok ps => .ok { c with particles := collisionPass sqrt c.objectManager ps }

/-- Method `Cloth.satisfyConstraints(iterations)`. -/
def Cloth.satisfyConstraints (sqrt : K → K) : Nat → Cloth K → Except (Cloth K) (Cloth K)
  | 0, c => .ok c
  | k + 1, c =>
    match relaxOnce sqrt c with
    | .error c1 => .error c1
    | .ok c1 => Cloth.satisfyConstraints sqrt k c1

/-- Body of the loop of `Cloth.reset`. -/
def resetParticle (p : Particle K) : Particle K :=
  { p with pos := p.originalPos, prev := p.originalPos, acc := ⟨0, 0, 0⟩ }

/-- Method `Cloth.reset()`. -/
def Cloth.reset (c : Cloth K) : Cloth K :=
  { c with
    particles := c.particles.map resetParticle
    windForce := ⟨0, 0, 0⟩ }

/-- Method `Cloth.addWind(force)`. -/
def Cloth.addWind (force : Vec3 K) (c : Cloth K) : Cloth K :=
  { c with windForce :=
      ⟨c.windForce.x + force.x, c.windForce.y + force.y, c.windForce.z + force.z⟩ }

/-- Body of the loop of `deformCloth` over the other particles: `target` is the already
displaced position of the dragged particle, `particleIndex` its index, `i` the index of
`other`. -/
def deformOther (sqrt : K → K) (particleIndex : Nat) (target force : Vec3 K) (i : Nat)
    (other : Particle K) : Particle K :=
  let influence : K := 0.3
  let maxDistance : K := 0.3
  if i = particleIndex then other
  else if other.pinned then other
  else
    let dx := other.pos.x - target.x
    let dy := other.pos.y - target.y
    let dz := other.pos.z - target.z
    let distance := hypot3 sqrt dx dy dz
    if distance < maxDistance then
      let factor := influence * (1 - distance / maxDistance)
      { other with pos :=
          ⟨other.pos.x + force.x * factor, other.pos.y + force.y * factor,
            other.pos.z + force.z * factor⟩ }
    else other

/-- Function `deformCloth(particleIndex, force)` of `main.js`, acting on the global
`cloth`; `particleIndex = none` is the JavaScript `null`. -/
def deformCloth (sqrt : K → K) (particleIndex : Option Nat) (force : Vec3 K) (cloth : Cloth K) :
    Except (Cloth K) (Cloth K) :=
  match particleIndex with
  | none => .ok cloth
  | some i =>
    match cloth.particles[i]? with
    | none => .error cloth
    | some particle =>
      if particle.pinned then .ok cloth
      else
        let target : Vec3 K :=
          ⟨particle.pos.x + force.x, particle.pos.y + force.y, particle.pos.z + force.z⟩
        let ps1 := cloth.particles.modify (fun q => { q with pos := target }) i
        .ok { cloth with particles := ps1.mapIdx (deformOther sqrt i target force) }

/-- The calls that the page makes on the cloth. -/
inductive Call (K : Type) where
  | applyForces (dt : K)
  | satisfyConstraints (iterations : Nat)
  | addWind (force : Vec3 K)
  | deformCloth (particleIndex : Option Nat) (force : Vec3 K)
  | reset

/-- Effect of one call on the cloth; a call that raises leaves its state behind and the
page goes on with that state. -/
def Call.run (sqrt : K → K) : Call K → Cloth K → Cloth K
  | .applyForces dt, c => c.applyForces sqrt dt
  | .satisfyConstraints n, c => stateOf (c.satisfyConstraints sqrt n)
  | .addWind f, c => c.addWind f
  | .deformCloth i f, c => stateOf (ClothSim.deformCloth sqrt i f c)
  | .reset, c => c.reset

/-- Effect of a finite sequence of calls, in order. -/
def runCalls (sqrt : K → K) (calls : List (Call K)) (c : Cloth K) : Cloth K :=
  calls.foldl (fun s call => call.run sqrt s) c

end Operations

section Views

variable {K : Type}

/-- What no solver or interaction call may change in a particle: its pinned flag, its
original position and, when it is pinned, its position, previous position and
acceleration. -/
def pinnedView (p : Particle K) : Bool × Vec3 K × Option (Vec3 K × Vec3 K × Vec3 K) :=
  (p.pinned, p.originalPos, if p.pinned then some (p.pos, p.prev, p.acc) else none)

/-- What `reset` reads of a particle: its pinned flag and its original position. -/
def restView (p : Particle K) : Bool × Vec3 K :=
  (p.pinned, p.originalPos)

/-- The three coordinate axes. -/
inductive Axis where
  | X
  | Y
  | Z
deriving DecidableEq

/-- Component of a vector along an axis. -/
def Vec3.get (v : Vec3 K) : Axis → K
  | .X => v.x
  | .Y => v.y
  | .Z => v.z

/-- A vector with the component along one axis replaced. -/
def Vec3.set (v : Vec3 K) : Axis → K → Vec3 K
  | .X, a => { v with x := a }
  | .Y, a => { v with y := a }
  | .Z, a => { v with z := a }

end Views

section SpecNotions

variable {K : Type} [LinearOrderedField K]

/-- Euclidean distance between two points, with the square root of the source. -/
def dist3 (sqrt : K → K) (p q : Vec3 K) : K :=
  hypot3 sqrt (p.x - q.x) (p.y - q.y) (p.z - q.z)

/-- Penetration depth of a position into a cube along an axis: `halfSize − |offset|`
(the values `distX`, `distY`, `distZ` of `Cube.resolveCollision`). -/
def Cube.depth (c : Cube K) (p : Vec3 K) (k : Axis) : K :=
  c.halfSize - |p.get k - c.position.get k|

/-- Clamping a particle to the face of a cube along axis `k`, in the words of the
specification: the position component on `k` becomes `center ± halfSize` (plus when the
offset is positive) and the previous position is rewritten on that axis only, the
implicit velocity being scaled by the bounce coefficient 0.3. -/
def Cube.clampAxis (c : Cube K) (k : Axis) (pos prev : Vec3 K) : Vec3 K × Vec3 K :=
  let face := c.position.get k +
    (if pos.get k - c.position.get k > 0 then c.halfSize else -c.halfSize)
  (pos.set k face, prev.set k (face - (face - prev.get k) * 0.3))

/-- Length error `|distance − rest|` of a spring in a particle array (`0` when an
endpoint index is dangling). -/
def springError (sqrt : K → K) (ps : List (Particle K)) (s : Spring K) : K :=
  match ps[s.a]?, ps[s.b]? with
  | some A, some B => |dist3 sqrt B.pos A.pos - s.rest|
  | _, _ => 0

/-- `checkCollisions` in the words of the specification: the left fold over the
collection, in collection order, of "if the body is visible and its containment test
holds for the particle's current position, apply its resolution, else leave the particle
unchanged". -/
def ObjectManager.checkCollisionsSpec (sqrt : K → K) (om : ObjectManager K)
    (particle : Particle K) : Particle K :=
  om.objects.foldl (fun q obj =>
    if obj.visible = true ∧ obj.checkCollision sqrt q.pos = true then
      { q with pos := (obj.resolveCollision sqrt q.pos q.prev).1,
               prev := (obj.resolveCollision sqrt q.pos q.prev).2 }
    else q) particle

/-- Motion of a body with position `p` and velocity `v` over one `updatePhysics(dt)`, in
the words of the specification: `v1 = v + (0, −9.81·dt, 0)`, `p1 = p + v1·dt`, and on
crossing the plane `y = −1.8` clamp, bounce with coefficient 0.3 and damp the two
horizontal velocity components by 0.99. The result is the new position and velocity. -/
def bodyMotionSpec (dt : K) (p v : Vec3 K) : Vec3 K × Vec3 K :=
  let v1 : Vec3 K := ⟨v.x, v.y - 9.81 * dt, v.z⟩
  let p1 : Vec3 K := ⟨p.x + v1.x * dt, p.y + v1.y * dt, p.z + v1.z * dt⟩
  if p1.y < -1.8 then (⟨p1.x, -1.8, p1.z⟩, ⟨0.99 * v1.x, -0.3 * v1.y, 0.99 * v1.z⟩)
  else (p1, v1)

/-- The axis chosen by the comparison chain of `Cube.resolveCollision`
(`if (distX < distY && distX < distZ) … else if (distY < distZ) … else …`). -/
def Cube.selectedAxis (c : Cube K) (p : Vec3 K) : Axis :=
  if c.depth p .X < c.depth p .Y ∧ c.depth p .X < c.depth p .Z then .X
  else if c.depth p .Y < c.depth p .Z then .Y
  else .Z

/-- Dot product of two vectors. -/
def Vec3.dot (u v : Vec3 K) : K :=
  u.x * v.x + u.y * v.y + u.z * v.z

/-- Difference of two vectors. -/
def Vec3.sub (u v : Vec3 K) : Vec3 K :=
  ⟨u.x - v.x, u.y - v.y, u.z - v.z⟩

/-- A vector scaled by a number. -/
def Vec3.smul (a : K) (v : Vec3 K) : Vec3 K :=
  ⟨a * v.x, a * v.y, a * v.z⟩

/-- Sum of two vectors. -/
def Vec3.add (u v : Vec3 K) : Vec3 K :=
  ⟨u.x + v.x, u.y + v.y, u.z + v.z⟩

/-- Everything of a particle but its position. -/
def nonPosView (p : Particle K) : Vec3 K × Vec3 K × Bool × Vec3 K :=
  (p.prev, p.acc, p.pinned, p.originalPos)

/-- The factor `diff = (dist − rest) / dist` of `Cloth.satisfyConstraints` for a spring
of rest length `rest` between the particles `A` and `B`. -/
def springDiff (sqrt : K → K) (A B : Particle K) (rest : K) : K :=
  (dist3 sqrt B.pos A.pos - rest) / dist3 sqrt B.pos A.pos

/-- The normal of `Sphere.resolveCollision`: the offset from the centre of the sphere to
the position, divided by its length (`normalX`, `normalY`, `normalZ`). -/
def Sphere.normal (sqrt : K → K) (s : Sphere K) (p : Vec3 K) : Vec3 K :=
  ⟨(p.x - s.position.x) / dist3 sqrt p s.position, (p.y - s.position.y) / dist3 sqrt p s.position,
    (p.z - s.position.z) / dist3 sqrt p s.position⟩

/-- The two endpoints of a spring differ and index a grid of `(cols+1)·(rows+1)`
particles. -/
def GridSpring (cols rows : Nat) (s : Spring K) : Prop :=
  s.a ≠ s.b ∧ s.a < (cols + 1) * (rows + 1) ∧ s.b < (cols + 1) * (rows + 1)

end SpecNotions

/-! ## Construction, body motion and the render loop -/

section Construction

variable {K : Type} [LinearOrderedField K]

/-- The arrow function `idx = (x, y) => y * (cols + 1) + x` of the `Cloth` constructor. -/
def gridIdx (cols x y : Nat) : Nat :=
  y * (cols + 1) + x

/-- Body of the particle loops of the `Cloth` constructor: the particle of column `x`
and row `y`. -/
def gridParticle (width height : K) (cols rows x y : Nat) : Particle K :=
  let u : K := (x : K) / (cols : K)
  let v : K := (y : K) / (rows : K)
  let px := (u - 0.5) * width
  let py := (0.5 - v) * height
  let pz : K := 0
  let pinned := decide (y = 0 ∧ x % 5 = 0)
  Particle.new px py pz pinned

/-- The particle loops of the `Cloth` constructor (rows outside, columns inside). -/
def gridParticles (width height : K) (cols rows : Nat) : List (Particle K) :=
  (List.range (rows + 1)).flatMap fun y =>
    (List.range (cols + 1)).map fun x => gridParticle width height cols rows x y

/-- Passes of a loop `for (let i = 0; i <= n; i++)` whose bound `n` is any number: the
body runs for `i = 0, 1, 2, …` as long as `i <= n`, that is `⌊n⌋ + 1` times when `n ≥ 0`
and not at all when `n < 0` (see `mem_range_loopCount`). -/
def loopCount [FloorRing K] (n : K) : Nat :=
  (Int.floor n + 1).toNat

/-- Body of the particle loops of the `Cloth` constructor when `cols` and `rows` are
numbers of any sign, whole or not; `x` and `y` are the loop counters. -/
def gridParticleNum (width height cols rows : K) (x y : Nat) : Particle K :=
  let u : K := (x : K) / cols
  let v : K := (y : K) / rows
  let px := (u - 0.5) * width
  let py := (0.5 - v) * height
  let pz : K := 0
  let pinned := decide (y = 0 ∧ x % 5 = 0)
  Particle.new px py pz pinned

/-- The particle loops of the `Cloth` constructor when `cols` and `rows` are numbers of
any sign, whole or not: `for (let y = 0; y <= rows; y++)` outside and
`for (let x = 0; x <= cols; x++)` inside. For `cols = 0` or `rows = 0` the source
computes `0 / 0 = NaN` coordinates, which a field does not have: there only the number
of particles and their `pinned` flags are those of the source. -/
def gridParticlesNum [FloorRing K] (width height cols rows : K) : List (Particle K) :=
  (List.range (loopCount rows)).flatMap fun y =>
    (List.range (loopCount cols)).map fun x => gridParticleNum width height cols rows x y

/-- Structural springs (horizontal and vertical) of the `Cloth` constructor. -/
def structuralSprings (width height : K) (cols rows : Nat) : List (Spring K) :=
  (List.range (rows + 1)).flatMap fun y =>
    (List.range (cols + 1)).flatMap fun x =>
      (if x < cols then
          [(⟨gridIdx cols x y, gridIdx cols (x + 1) y, width / (cols : K)⟩ : Spring K)]
        else []) ++
      (if y < rows then
          [(⟨gridIdx cols x y, gridIdx cols x (y + 1), height / (rows : K)⟩ : Spring K)]
        else [])

/-- Shear springs (diagonal) of the `Cloth` constructor; `Math.hypot` of two numbers is
the square root of the sum of their squares. -/
def shearSprings (sqrt : K → K) (width height : K) (cols rows : Nat) : List (Spring K) :=
  (List.range rows).flatMap fun y =>
    (List.range cols).flatMap fun x =>
      let diagonalLength :=
        sqrt (width / (cols : K) * (width / (cols : K)) + height / (rows : K) * (height / (rows : K)))
      [⟨gridIdx cols x y, gridIdx cols (x + 1) (y + 1), diagonalLength⟩,
        ⟨gridIdx cols (x + 1) y, gridIdx cols x (y + 1), diagonalLength⟩]

/-- Bending springs along the rows: `for (x = 0; x <= cols - 2; x++)`. -/
def bendingSpringsX (width : K) (cols rows : Nat) : List (Spring K) :=
  (List.range (rows + 1)).flatMap fun y =>
    (List.range (cols - 1)).map fun x =>
      (⟨gridIdx cols x y, gridIdx cols (x + 2) y, 2 * width / (cols : K)⟩ : Spring K)

/-- Bending springs along the columns: `for (y = 0; y <= rows - 2; y++)`. -/
def bendingSpringsY (height : K) (cols rows : Nat) : List (Spring K) :=
  (List.range (rows - 1)).flatMap fun y =>
    (List.range (cols + 1)).map fun x =>
      (⟨gridIdx cols x y, gridIdx cols x (y + 2), 2 * height / (rows : K)⟩ : Spring K)

/-- Constructor `new Cloth(width, height, cols, rows)` for whole-number counts
`cols, rows ≥ 0`. Counts that are negative or not whole cannot be passed here; the
particle loops for such counts are `gridParticlesNum`. The coordinates and rest lengths
divide by `cols` and `rows`, so they are those of the source for `cols, rows ≥ 1`; for a
count of `0` the source has `NaN` coordinates where this model has numbers. -/
def Cloth.new (sqrt : K → K) (width height : K) (cols rows : Nat) : Cloth K :=
  { cols := cols, rows := rows, width := width, height := height,
    particles := gridParticles width height cols rows,
    springs := structuralSprings width height cols rows ++ shearSprings sqrt width height cols rows
      ++ bendingSpringsX width cols rows ++ bendingSpringsY height cols rows,
    windForce := ⟨0, 0, 0⟩, objectManager := none }

/-- Method `Cloth.setObjectManager(objectManager)`. -/
def Cloth.setObjectManager (objectManager : ObjectManager K) (c : Cloth K) : Cloth K :=
  { c with objectManager := some objectManager }

/-- Field `obj.position`. -/
def GeometricObject.position : GeometricObject K → Vec3 K
  | .sphere s => s.position
  | .cube c => c.position

/-- Field `obj.velocity`. -/
def GeometricObject.velocity : GeometricObject K → Vec3 K
  | .sphere s => s.velocity
  | .cube c => c.velocity

/-- Writing the fields `position` and `velocity` of a body. -/
def GeometricObject.setMotion (position velocity : Vec3 K) :
    GeometricObject K → GeometricObject K
  | .sphere s => .sphere { s with position := position, velocity := velocity }
  | .cube c => .cube { c with position := position, velocity := velocity }

/-- Body of the loop of `ObjectManager.updatePhysics(dt)` for one body. -/
def updateBody (dt : K) (obj : GeometricObject K) : GeometricObject K :=
  let gravity : Vec3 K := ⟨0, -9.81, 0⟩
  let damping : K := 0.99
  let v1 : Vec3 K :=
    ⟨obj.velocity.x + gravity.x * dt, obj.velocity.y + gravity.y * dt,
      obj.velocity.z + gravity.z * dt⟩
  let p1 : Vec3 K :=
    ⟨obj.position.x + v1.x * dt, obj.position.y + v1.y * dt, obj.position.z + v1.z * dt⟩
  if p1.y < -1.8 then
    obj.setMotion { p1 with y := -1.8 } ⟨v1.x * damping, -v1.y * 0.3, v1.z * damping⟩
  else obj.setMotion p1 v1

/-- Method `ObjectManager.updatePhysics(dt)`. -/
def ObjectManager.updatePhysics (dt : K) (om : ObjectManager K) : ObjectManager K :=
  { objects := om.objects.map (updateBody dt) }

/-- One unpaused frame of the render loop of `main.js`: `cloth.applyForces(dt)`,
`cloth.satisfyConstraints(5)`, `objectManager.updatePhysics(dt)`; the cloth holds the
reference to the manager, so the bodies it sees move too. A frame in which
`satisfyConstraints` raises stops there. -/
def renderStep (sqrt : K → K) (dt : K) (c : Cloth K) : Cloth K :=
  match (c.applyForces sqrt dt).satisfyConstraints sqrt 5 with
  | .ok c1 => { c1 with objectManager := c1.objectManager.map (ObjectManager.updatePhysics dt) }
  | .error c1 => c1

/-- A finite run of frames with time deltas `dts`, in order. -/
def runSteps (sqrt : K → K) (dts : List K) (c : Cloth K) : Cloth K :=
  dts.foldl (fun s dt => renderStep sqrt dt s) c

/-- Method `Cloth.getParticleIndex(x, y)` on integer grid coordinates; `none` is the
JavaScript `null`. -/
def Cloth.getParticleIndex (c : Cloth K) (x y : Int) : Option Int :=
  if x < 0 ∨ x > (c.cols : Int) ∨ y < 0 ∨ y > (c.rows : Int) then none
  else some (y * ((c.cols : Int) + 1) + x)

/-- The object `{ x, y }` returned by `Cloth.getGridCoords`. -/
structure GridCoords where
  x : Int
  y : Int
deriving DecidableEq

/-- Method `Cloth.getGridCoords(index)` on an integer index. The JavaScript `%` is the
remainder with the sign of the dividend (`Int.tmod`) and `Math.floor(index / (cols + 1))`
is the floor quotient (`Int.fdiv`). The source has no path that returns anything but the
pair, so the result is always `some`; `none` would be a not-found result. -/
def Cloth.getGridCoords (c : Cloth K) (index : Int) : Option GridCoords :=
  let x := Int.tmod index ((c.cols : Int) + 1)
  let y := Int.fdiv index ((c.cols : Int) + 1)
  some { x := x, y := y }

end Construction

/-! ## Sample states -/

section Samples

variable (K : Type) [LinearOrderedField K]

/-- A sphere of radius 2 centred at the origin, as built by `new Sphere([0,0,0], 2)`. -/
def sampleSphere : Sphere K := Sphere.new ⟨0, 0, 0⟩ 2

/-- A cube of size 8 (half size 4) centred at the origin, as built by
`new Cube([0,0,0], 8)`. -/
def sampleCube : Cube K := Cube.new ⟨0, 0, 0⟩ 8

/-- A cube of size 2 (half size 1) centred at the origin. -/
def unitCube : Cube K := Cube.new ⟨0, 0, 0⟩ 2

/-- A pinned particle at the origin and a free particle two units below it, joined by
one spring of rest length 1; no wind, no `ObjectManager`. -/
def sampleSpringCloth : Cloth K :=
  { cols := 1, rows := 1, width := 1, height := 1,
    particles := [Particle.new 0 0 0 true, Particle.new 0 (-2) 0 false],
    springs := [⟨0, 1, 1⟩], windForce := ⟨0, 0, 0⟩, objectManager := none }

/-- The same two particles and spring, with an `ObjectManager` holding `sampleSphere`. -/
def sampleSphereCloth : Cloth K :=
  { sampleSpringCloth K with objectManager := some ⟨[.sphere (sampleSphere K)]⟩ }

/-- A pinned particle at the origin and a free particle `0.1` below it (inside the
influence radius `0.3` of `deformCloth`); no springs, no wind, no `ObjectManager`. -/
def samplePinnedDragCloth : Cloth K :=
  { cols := 1, rows := 1, width := 1, height := 1,
    particles := [Particle.new 0 0 0 true, Particle.new 0 (-0.1) 0 false],
    springs := [], windForce := ⟨0, 0, 0⟩, objectManager := none }

end Samples

/-! ## Frame lemmas on lists -/

section ListLemmas

variable {α β : Type}

theorem map_modify_of_fixed (key : α → β) (f : α → α) (n : Nat) (l : List α)
    (h : ∀ a, l[n]? = some a → key (f a) = key a) :
    (l.modify f n).map key = l.map key := by
  apply List.ext_getElem?
  intro m
  rw [List.getElem?_map, List.getElem?_map, List.getElem?_modify]
  cases hm : l[m]? with
  | none => rfl
  | some a =>
    by_cases hnm : n = m
    · subst hnm
      simp [h a hm]
    · simp [hnm]

theorem map_map_of_fixed (key : α → β) (f : α → α) (l : List α)
    (h : ∀ a, key (f a) = key a) : (l.map f).map key = l.map key := by
  rw [List.map_map]
  apply List.map_congr_left
  intro a _
  exact h a

theorem map_mapIdx_of_fixed (key : α → β) (f : Nat → α → α) (l : List α)
    (h : ∀ i a, key (f i a) = key a) : (l.mapIdx f).map key = l.map key := by
  apply List.ext_getElem?
  intro m
  rw [List.getElem?_map, List.getElem?_map, List.getElem?_mapIdx]
  cases l[m]? with
  | none => rfl
  | some a => simp [h m a]

theorem getElem?_of_map_eq (key : α → β) {l l1 : List α} (h : l1.map key = l.map key)
    {i : Nat} {a : α} (ha : l[i]? = some a) : ∃ a1, l1[i]? = some a1 ∧ key a1 = key a := by
  have h1 : (l1.map key)[i]? = (l.map key)[i]? := by rw [h]
  rw [List.getElem?_map, List.getElem?_map, ha] at h1
  cases h2 : l1[i]? with
  | none => rw [h2] at h1; simp at h1
  | some a1 =>
    rw [h2] at h1
    simp at h1
    exact ⟨a1, rfl, h1⟩

end ListLemmas

/-! ## Pinned particles are never written -/

theorem pinnedView_eq_of_not_pinned {K : Type} {p q : Particle K} (hp : p.pinned = false)
    (hq : q.pinned = false) (ho : q.originalPos = p.originalPos) :
    pinnedView q = pinnedView p := by
  simp [pinnedView, hp, hq, ho]

theorem pinned_eq_of_pinnedView {K : Type} {p q : Particle K} (h : pinnedView q = pinnedView p) :
    q.pinned = p.pinned := by
  simp only [pinnedView, Prod.mk.injEq] at h
  exact h.1

theorem originalPos_eq_of_pinnedView {K : Type} {p q : Particle K}
    (h : pinnedView q = pinnedView p) : q.originalPos = p.originalPos := by
  simp only [pinnedView, Prod.mk.injEq] at h
  exact h.2.1

theorem modify_pos_pinnedView {K : Type} (g : Vec3 K → Vec3 K) (n : Nat) (l : List (Particle K))
    (h : ∀ q, l[n]? = some q → q.pinned = false) :
    (l.modify (fun q => { q with pos := g q.pos }) n).map pinnedView = l.map pinnedView := by
  apply map_modify_of_fixed
  intro q hq
  exact pinnedView_eq_of_not_pinned (h q hq) (h q hq) rfl

section PinnedFrame

variable {K : Type} [LinearOrderedField K]

theorem collideWith_pinned (sqrt : K → K) (p : Particle K) (obj : GeometricObject K) :
    (collideWith sqrt p obj).pinned = p.pinned := by
  unfold collideWith
  split <;> rfl

theorem collideWith_originalPos (sqrt : K → K) (p : Particle K) (obj : GeometricObject K) :
    (collideWith sqrt p obj).originalPos = p.originalPos := by
  unfold collideWith
  split <;> rfl

theorem collideWith_acc (sqrt : K → K) (p : Particle K) (obj : GeometricObject K) :
    (collideWith sqrt p obj).acc = p.acc := by
  unfold collideWith
  split <;> rfl

theorem checkCollisions_originalPos (sqrt : K → K) (om : ObjectManager K) (p : Particle K) :
    (om.checkCollisions sqrt p).originalPos = p.originalPos := by
  unfold ObjectManager.checkCollisions
  generalize om.objects = objs
  induction objs generalizing p with
  | nil => rfl
  | cons o os ih => rw [List.foldl_cons, ih, collideWith_originalPos]

theorem checkCollisions_acc (sqrt : K → K) (om : ObjectManager K) (p : Particle K) :
    (om.checkCollisions sqrt p).acc = p.acc := by
  unfold ObjectManager.checkCollisions
  generalize om.objects = objs
  induction objs generalizing p with
  | nil => rfl
  | cons o os ih => rw [List.foldl_cons, ih, collideWith_acc]

theorem checkCollisions_pinned (sqrt : K → K) (om : ObjectManager K) (p : Particle K) :
    (om.checkCollisions sqrt p).pinned = p.pinned := by
  unfold ObjectManager.checkCollisions
  generalize om.objects = objs
  induction objs generalizing p with
  | nil => rfl
  | cons o os ih => rw [List.foldl_cons, ih, collideWith_pinned]

theorem accumulateForce_pinnedView (w : Vec3 K) (p : Particle K) :
    pinnedView (accumulateForce w p) = pinnedView p := by
  unfold accumulateForce
  cases hp : p.pinned <;> simp [pinnedView, hp]

theorem integrateParticle_pinnedView (sqrt : K → K) (om : Option (ObjectManager K)) (dt2 : K)
    (p : Particle K) : pinnedView (integrateParticle sqrt om dt2 p) = pinnedView p := by
  cases hp : p.pinned with
  | true => simp [integrateParticle, hp]
  | false =>
    unfold integrateParticle
    simp only [hp, Bool.false_eq_true, if_false]
    cases om with
    | none =>
      dsimp only
      split
      · exact pinnedView_eq_of_not_pinned hp rfl rfl
      · exact pinnedView_eq_of_not_pinned hp rfl rfl
    | some om =>
      dsimp only
      apply pinnedView_eq_of_not_pinned hp
      · rw [checkCollisions_pinned]
        split <;> rfl
      · rw [checkCollisions_originalPos]
        split <;> rfl

theorem applyForces_pinnedView (sqrt : K → K) (dt : K) (c : Cloth K) :
    (c.applyForces sqrt dt).particles.map pinnedView = c.particles.map pinnedView := by
  unfold Cloth.applyForces
  dsimp only
  rw [map_map_of_fixed pinnedView _ _ (integrateParticle_pinnedView sqrt _ _),
    map_map_of_fixed pinnedView _ _ (accumulateForce_pinnedView _)]

theorem springStep_pinnedView (sqrt : K → K) (ps ps1 : List (Particle K)) (s : Spring K)
    (h : springStep sqrt ps s = some ps1) : ps1.map pinnedView = ps.map pinnedView := by
  unfold springStep at h
  split at h
  · rename_i A B hA hB
    dsimp only at h
    split at h
    · cases h; rfl
    · split at h
      · rename_i hAB
        simp only [Bool.and_eq_true, Bool.not_eq_true'] at hAB
        cases h
        have h1 := modify_pos_pinnedView
          (fun v => (⟨v.x + (B.pos.x - A.pos.x) * 0.5 * 0.8 *
              ((hypot3 sqrt (B.pos.x - A.pos.x) (B.pos.y - A.pos.y) (B.pos.z - A.pos.z) - s.rest) /
                hypot3 sqrt (B.pos.x - A.pos.x) (B.pos.y - A.pos.y) (B.pos.z - A.pos.z)),
            v.y + (B.pos.y - A.pos.y) * 0.5 * 0.8 *
              ((hypot3 sqrt (B.pos.x - A.pos.x) (B.pos.y - A.pos.y) (B.pos.z - A.pos.z) - s.rest) /
                hypot3 sqrt (B.pos.x - A.pos.x) (B.pos.y - A.pos.y) (B.pos.z - A.pos.z)),
            v.z + (B.pos.z - A.pos.z) * 0.5 * 0.8 *
              ((hypot3 sqrt (B.pos.x - A.pos.x) (B.pos.y - A.pos.y) (B.pos.z - A.pos.z) - s.rest) /
                hypot3 sqrt (B.pos.x - A.pos.x) (B.pos.y - A.pos.y) (B.pos.z - A.pos.z))⟩ : Vec3 K))
          s.a ps (fun q hq => by rw [hA] at hq; cases hq; exact hAB.1)
        rw [← h1]
        apply map_modify_of_fixed
        intro q hq
        obtain ⟨q1, hq1, hk⟩ := getElem?_of_map_eq pinnedView h1.symm hq
        rw [hB] at hq1
        cases hq1
        have hqp : q.pinned = false := by
          have := pinned_eq_of_pinnedView hk
          rw [hAB.2] at this
          exact this.symm
        exact pinnedView_eq_of_not_pinned hqp hqp rfl
      · split at h
        · rename_i hA1
          simp only [Bool.not_eq_true'] at hA1
          cases h
          apply map_modify_of_fixed
          intro q hq
          rw [hA] at hq
          cases hq
          exact pinnedView_eq_of_not_pinned hA1 hA1 rfl
        · split at h
          · rename_i hB1
            simp only [Bool.not_eq_true'] at hB1
            cases h
            apply map_modify_of_fixed
            intro q hq
            rw [hB] at hq
            cases hq
            exact pinnedView_eq_of_not_pinned hB1 hB1 rfl
          · cases h; rfl
  · cases h

theorem relaxSprings_pinnedView (sqrt : K → K) (ss : List (Spring K)) (ps : List (Particle K)) :
    (stateOf (relaxSprings sqrt ss ps)).map pinnedView = ps.map pinnedView := by
  induction ss generalizing ps with
  | nil => rfl
  | cons s ss ih =>
    unfold relaxSprings
    cases h : springStep sqrt ps s with
    | none => rfl
    | some ps1 =>
      dsimp only
      rw [ih, springStep_pinnedView sqrt ps ps1 s h]

theorem collisionPass_pinnedView (sqrt : K → K) (om : Option (ObjectManager K))
    (ps : List (Particle K)) :
    (collisionPass sqrt om ps).map pinnedView = ps.map pinnedView := by
  cases om with
  | none => rfl
  | some om =>
    unfold collisionPass
    dsimp only
    apply map_map_of_fixed
    intro p
    cases hp : p.pinned with
    | true => simp
    | false =>
      simp only [Bool.not_false, if_true]
      exact pinnedView_eq_of_not_pinned hp (by rw [checkCollisions_pinned, hp])
        (checkCollisions_originalPos sqrt om p)

theorem relaxOnce_pinnedView (sqrt : K → K) (c : Cloth K) :
    (stateOf (relaxOnce sqrt c)).particles.map pinnedView = c.particles.map pinnedView := by
  unfold relaxOnce
  have h := relaxSprings_pinnedView sqrt c.springs c.particles
  cases hr : relaxSprings sqrt c.springs c.particles with
  | error ps => rw [hr] at h; exact h
  | ok ps =>
    rw [hr] at h
    dsimp only [stateOf]
    rw [collisionPass_pinnedView]
    exact h

theorem satisfyConstraints_pinnedView (sqrt : K → K) (n : Nat) (c : Cloth K) :
    (stateOf (c.satisfyConstraints sqrt n)).particles.map pinnedView
      = c.particles.map pinnedView := by
  induction n generalizing c with
  | zero => rfl
  | succ k ih =>
    unfold Cloth.satisfyConstraints
    have h := relaxOnce_pinnedView sqrt c
    cases hr : relaxOnce sqrt c with
    | error c1 => rw [hr] at h; exact h
    | ok c1 =>
      rw [hr] at h
      dsimp only
      rw [ih]
      exact h

end PinnedFrame

/-! ## C1 -/

/-- C1: for every cloth state, every `dt` and every iteration count `n`, with or without
an attached `ObjectManager` (any list of spheres and cubes), `applyForces(dt)` followed
by `satisfyConstraints(n)` leaves every pinned particle pinned, at the same index, with
`pos` and `prev` exactly as before, whether or not the run raised on a dangling spring
index. -/
theorem pinned_particles_unchanged_by_step {K : Type} [LinearOrderedField K] (sqrt : K → K)
    (dt : K) (n : Nat) (c : Cloth K) (i : Nat) (p : Particle K)
    (hi : c.particles[i]? = some p) (hp : p.pinned = true) :
    ∃ q, (stateOf ((c.applyForces sqrt dt).satisfyConstraints sqrt n)).particles[i]? = some q ∧
      q.pinned = true ∧ q.pos = p.pos ∧ q.prev = p.prev := by
  have h : (stateOf ((c.applyForces sqrt dt).satisfyConstraints sqrt n)).particles.map pinnedView
      = c.particles.map pinnedView := by
    rw [satisfyConstraints_pinnedView, applyForces_pinnedView]
  obtain ⟨q, hq, hk⟩ := getElem?_of_map_eq pinnedView h hi
  refine ⟨q, hq, ?_⟩
  have hqp : q.pinned = true := by rw [pinned_eq_of_pinnedView hk, hp]
  simp only [pinnedView, hqp, hp, if_true, Prod.mk.injEq, Option.some.injEq, true_and] at hk
  exact ⟨hqp, hk.2.1, hk.2.2.1⟩

/-- C1 at a sample state: a pinned particle at the origin joined by a spring to a free
particle, with a sphere attached, one frame at `dt = 1/60` with 5 iterations. -/
theorem pinned_particles_unchanged_by_step_witness :
    (sampleSphereCloth ℝ).particles[0]? = some (Particle.new 0 0 0 true) ∧
      (Particle.new (0 : ℝ) 0 0 true).pinned = true ∧
      ∃ q, (stateOf (((sampleSphereCloth ℝ).applyForces Real.sqrt (1 / 60)).satisfyConstraints
          Real.sqrt 5)).particles[0]? = some q ∧
        q.pinned = true ∧ q.pos = (Particle.new (0 : ℝ) 0 0 true).pos ∧
        q.prev = (Particle.new (0 : ℝ) 0 0 true).prev :=
  ⟨rfl, rfl, pinned_particles_unchanged_by_step Real.sqrt (1 / 60) 5 (sampleSphereCloth ℝ) 0
    (Particle.new 0 0 0 true) rfl rfl⟩

/-! ## C2, C3: reset -/

theorem restView_of_pinnedView {K : Type} {l l1 : List (Particle K)}
    (h : l1.map pinnedView = l.map pinnedView) : l1.map restView = l.map restView := by
  have e : ∀ m : List (Particle K),
      m.map restView = (m.map pinnedView).map (fun v => (v.1, v.2.1)) := by
    intro m
    rw [List.map_map]
    rfl
  rw [e l1, e l, h]

section Reset

variable {K : Type} [LinearOrderedField K]

theorem deformOther_pinnedView (sqrt : K → K) (idx : Nat) (target force : Vec3 K) (i : Nat)
    (other : Particle K) :
    pinnedView (deformOther sqrt idx target force i other) = pinnedView other := by
  unfold deformOther
  dsimp only
  split
  · rfl
  · cases hp : other.pinned with
    | true => simp
    | false =>
      simp only [Bool.false_eq_true, if_false]
      split
      · exact pinnedView_eq_of_not_pinned hp rfl rfl
      · simp [pinnedView, hp]

theorem deformCloth_pinnedView (sqrt : K → K) (particleIndex : Option Nat) (force : Vec3 K)
    (c : Cloth K) :
    (stateOf (deformCloth sqrt particleIndex force c)).particles.map pinnedView
      = c.particles.map pinnedView := by
  unfold deformCloth
  cases particleIndex with
  | none => rfl
  | some i =>
    dsimp only
    cases hi : c.particles[i]? with
    | none => rfl
    | some particle =>
      dsimp only
      cases hp : particle.pinned with
      | true => simp [stateOf]
      | false =>
        simp only [Bool.false_eq_true, if_false, stateOf]
        rw [map_mapIdx_of_fixed pinnedView _ _ (deformOther_pinnedView sqrt i _ force)]
        apply map_modify_of_fixed
        intro q hq
        rw [hi] at hq
        cases hq
        exact pinnedView_eq_of_not_pinned hp hp rfl

theorem restView_resetParticle (p : Particle K) : restView (resetParticle p) = restView p := rfl

theorem Call.run_restView (sqrt : K → K) (call : Call K) (c : Cloth K) :
    (call.run sqrt c).particles.map restView = c.particles.map restView := by
  cases call with
  | applyForces dt => exact restView_of_pinnedView (applyForces_pinnedView sqrt dt c)
  | satisfyConstraints n => exact restView_of_pinnedView (satisfyConstraints_pinnedView sqrt n c)
  | addWind f => rfl
  | deformCloth i f => exact restView_of_pinnedView (deformCloth_pinnedView sqrt i f c)
  | reset => exact map_map_of_fixed restView resetParticle c.particles restView_resetParticle

theorem runCalls_restView (sqrt : K → K) (calls : List (Call K)) (c : Cloth K) :
    (runCalls sqrt calls c).particles.map restView = c.particles.map restView := by
  unfold runCalls
  induction calls generalizing c with
  | nil => rfl
  | cons call calls ih => rw [List.foldl_cons, ih, Call.run_restView]

end Reset

/-- C2: after any finite sequence of `applyForces`, `satisfyConstraints`, `addWind`,
`deformCloth` (and `reset`) calls on a cloth `c0`, followed by `reset()`, the particle
array has the same length and particle `i` has `pos = prev = originalPos`, where
`originalPos` is the one particle `i` had in `c0` (so the one assigned at construction
when `c0` is a freshly built cloth), `acc = (0,0,0)` and the pinned flag of `c0`; and
`windForce` is exactly `(0,0,0)`. -/
theorem reset_after_calls_restores_original {K : Type} [LinearOrderedField K] (sqrt : K → K)
    (calls : List (Call K)) (c0 : Cloth K) :
    ((runCalls sqrt calls c0).reset).particles
        = c0.particles.map (fun p =>
            { pos := p.originalPos, prev := p.originalPos, acc := ⟨0, 0, 0⟩,
              pinned := p.pinned, originalPos := p.originalPos }) ∧
      ((runCalls sqrt calls c0).reset).windForce = ⟨0, 0, 0⟩ := by
  refine ⟨?_, rfl⟩
  have e : ∀ m : List (Particle K),
      m.map resetParticle = (m.map restView).map (fun v =>
        ({ pos := v.2, prev := v.2, acc := ⟨0, 0, 0⟩, pinned := v.1, originalPos := v.2 } :
          Particle K)) := by
    intro m
    rw [List.map_map]
    rfl
  show (runCalls sqrt calls c0).particles.map resetParticle = _
  rw [e, runCalls_restView, List.map_map]
  rfl

/-- C3: `Cloth.reset` is idempotent: resetting twice gives the same cloth state as
resetting once, in every field (particles with `pos`, `prev`, `acc`, `pinned`,
`originalPos`; springs; `windForce`; and the rest). -/
theorem reset_idempotent {K : Type} [LinearOrderedField K] (c : Cloth K) :
    c.reset.reset = c.reset := by
  unfold Cloth.reset
  simp only [List.map_map]
  congr 1

/-! ## C4: sphere projection -/

theorem real_sqrt_scaled (t dx dy dz : ℝ) (ht : 0 ≤ t) :
    Real.sqrt (t * dx * (t * dx) + t * dy * (t * dy) + t * dz * (t * dz))
      = t * Real.sqrt (dx * dx + dy * dy + dz * dz) := by
  have h : t * dx * (t * dx) + t * dy * (t * dy) + t * dz * (t * dz)
      = t ^ 2 * (dx * dx + dy * dy + dz * dz) := by ring
  rw [h, Real.sqrt_mul (sq_nonneg t), Real.sqrt_sq ht]

theorem real_sum_sq_nonneg (dx dy dz : ℝ) : 0 ≤ dx * dx + dy * dy + dz * dz := by
  nlinarith [mul_self_nonneg dx, mul_self_nonneg dy, mul_self_nonneg dz]

theorem sphere_projection_dist (c p : Vec3 ℝ) (r : ℝ) (hr : 0 ≤ r)
    (hd : 0 < dist3 Real.sqrt p c) :
    dist3 Real.sqrt
      ⟨c.x + (p.x - c.x) / dist3 Real.sqrt p c * r, c.y + (p.y - c.y) / dist3 Real.sqrt p c * r,
        c.z + (p.z - c.z) / dist3 Real.sqrt p c * r⟩ c = r := by
  have hd0 : dist3 Real.sqrt p c ≠ 0 := ne_of_gt hd
  generalize hD : dist3 Real.sqrt p c = D at hd hd0 ⊢
  have hDdef : Real.sqrt ((p.x - c.x) * (p.x - c.x) + (p.y - c.y) * (p.y - c.y)
      + (p.z - c.z) * (p.z - c.z)) = D := hD
  unfold dist3 hypot3
  dsimp only
  have e : (c.x + (p.x - c.x) / D * r - c.x) * (c.x + (p.x - c.x) / D * r - c.x)
      + (c.y + (p.y - c.y) / D * r - c.y) * (c.y + (p.y - c.y) / D * r - c.y)
      + (c.z + (p.z - c.z) / D * r - c.z) * (c.z + (p.z - c.z) / D * r - c.z)
      = (r / D) * (p.x - c.x) * ((r / D) * (p.x - c.x))
        + (r / D) * (p.y - c.y) * ((r / D) * (p.y - c.y))
        + (r / D) * (p.z - c.z) * ((r / D) * (p.z - c.z)) := by
    field_simp
    ring
  rw [e, real_sqrt_scaled _ _ _ _ (div_nonneg hr (le_of_lt hd)), hDdef]
  field_simp

theorem sphere_resolve_pos (s : Sphere ℝ) (p prev : Vec3 ℝ)
    (h0 : 0 < dist3 Real.sqrt p s.position) (h1 : dist3 Real.sqrt p s.position < s.radius) :
    (s.resolveCollision Real.sqrt p prev).1
      = ⟨s.position.x + (p.x - s.position.x) / dist3 Real.sqrt p s.position * s.radius,
         s.position.y + (p.y - s.position.y) / dist3 Real.sqrt p s.position * s.radius,
         s.position.z + (p.z - s.position.z) / dist3 Real.sqrt p s.position * s.radius⟩ := by
  have hc : Real.sqrt ((p.x - s.position.x) * (p.x - s.position.x)
      + (p.y - s.position.y) * (p.y - s.position.y)
      + (p.z - s.position.z) * (p.z - s.position.z)) < s.radius ∧
      Real.sqrt ((p.x - s.position.x) * (p.x - s.position.x)
      + (p.y - s.position.y) * (p.y - s.position.y)
      + (p.z - s.position.z) * (p.z - s.position.z)) > 0 := ⟨h1, h0⟩
  unfold Sphere.resolveCollision
  dsimp only
  rw [if_pos hc]
  split <;> rfl

/-- C4: for every sphere with radius `r > 0` and every particle position `p` with
`0 < |p − center| < r`, `Sphere.resolveCollision` moves the particle to
`center + r·(p − center)/|p − center|`; over the reals its distance to the center is
then exactly `r`, and therefore not below `r − ε` for any `ε ≥ 0`. -/
theorem sphere_resolve_projects_to_surface (s : Sphere ℝ) (p prev : Vec3 ℝ)
    (hr : 0 < s.radius) (h0 : 0 < dist3 Real.sqrt p s.position)
    (h1 : dist3 Real.sqrt p s.position < s.radius) :
    (s.resolveCollision Real.sqrt p prev).1
        = ⟨s.position.x + s.radius * (p.x - s.position.x) / dist3 Real.sqrt p s.position,
           s.position.y + s.radius * (p.y - s.position.y) / dist3 Real.sqrt p s.position,
           s.position.z + s.radius * (p.z - s.position.z) / dist3 Real.sqrt p s.position⟩ ∧
      dist3 Real.sqrt (s.resolveCollision Real.sqrt p prev).1 s.position = s.radius ∧
      ∀ ε : ℝ, 0 ≤ ε →
        ¬ dist3 Real.sqrt (s.resolveCollision Real.sqrt p prev).1 s.position < s.radius - ε := by
  have hpos := sphere_resolve_pos s p prev h0 h1
  have hdist : dist3 Real.sqrt (s.resolveCollision Real.sqrt p prev).1 s.position = s.radius := by
    rw [hpos]
    exact sphere_projection_dist s.position p s.radius (le_of_lt hr) h0
  refine ⟨?_, hdist, ?_⟩
  · rw [hpos]
    have hd0 : dist3 Real.sqrt p s.position ≠ 0 := ne_of_gt h0
    congr 1 <;> ring
  · intro ε hε
    rw [hdist]
    linarith

/-- C4 at a sample input: the point `(1, 0, 0)` inside the sphere of radius 2 centred at
the origin ends at distance 2 from the centre. -/
theorem sphere_resolve_projects_to_surface_witness :
    0 < (sampleSphere ℝ).radius ∧
      0 < dist3 Real.sqrt ⟨1, 0, 0⟩ (sampleSphere ℝ).position ∧
      dist3 Real.sqrt ⟨1, 0, 0⟩ (sampleSphere ℝ).position < (sampleSphere ℝ).radius ∧
      dist3 Real.sqrt ((sampleSphere ℝ).resolveCollision Real.sqrt ⟨1, 0, 0⟩ ⟨1, 0, 0⟩).1
        (sampleSphere ℝ).position = (sampleSphere ℝ).radius :=
  ⟨by norm_num [sampleSphere, Sphere.new], by norm_num [sampleSphere, Sphere.new, dist3, hypot3],
    by norm_num [sampleSphere, Sphere.new, dist3, hypot3],
    (sphere_resolve_projects_to_surface (sampleSphere ℝ) ⟨1, 0, 0⟩ ⟨1, 0, 0⟩
      (by norm_num [sampleSphere, Sphere.new])
      (by norm_num [sampleSphere, Sphere.new, dist3, hypot3])
      (by norm_num [sampleSphere, Sphere.new, dist3, hypot3])).2.1⟩

/-! ## C5, C6: axis selection of the cube -/

theorem Vec3.get_set_of_ne {K : Type} (v : Vec3 K) (k j : Axis) (a : K) (h : j ≠ k) :
    (v.set k a).get j = v.get j := by
  cases k <;> cases j <;> first | rfl | exact absurd rfl h

theorem Vec3.get_set_self {K : Type} (v : Vec3 K) (k : Axis) (a : K) :
    (v.set k a).get k = a := by
  cases k <;> rfl

section CubeAxis

variable {K : Type} [LinearOrderedField K]

/-- The comparison chain of `Cube.resolveCollision`, read on the penetration depths. -/
theorem cube_resolve_chain (c : Cube K) (p prev : Vec3 K) (h : c.checkCollision p = true) :
    c.resolveCollision p prev =
      if c.depth p .X < c.depth p .Y ∧ c.depth p .X < c.depth p .Z then c.clampAxis .X p prev
      else if c.depth p .Y < c.depth p .Z then c.clampAxis .Y p prev
      else c.clampAxis .Z p prev := by
  unfold Cube.resolveCollision
  simp only [h, Bool.not_true, Bool.false_eq_true, if_false]
  rfl

theorem cube_depth_nonneg (c : Cube K) (p : Vec3 K) (h : c.checkCollision p = true) (k : Axis) :
    0 ≤ c.depth p k := by
  simp only [Cube.checkCollision, Bool.and_eq_true, decide_eq_true_eq, ge_iff_le] at h
  obtain ⟨⟨⟨⟨⟨h1, h2⟩, h3⟩, h4⟩, h5⟩, h6⟩ := h
  cases k
  · show 0 ≤ c.halfSize - |p.x - c.position.x|
    have := abs_le.mpr (⟨by linarith, by linarith⟩ : -c.halfSize ≤ p.x - c.position.x ∧
      p.x - c.position.x ≤ c.halfSize)
    linarith
  · show 0 ≤ c.halfSize - |p.y - c.position.y|
    have := abs_le.mpr (⟨by linarith, by linarith⟩ : -c.halfSize ≤ p.y - c.position.y ∧
      p.y - c.position.y ≤ c.halfSize)
    linarith
  · show 0 ≤ c.halfSize - |p.z - c.position.z|
    have := abs_le.mpr (⟨by linarith, by linarith⟩ : -c.halfSize ≤ p.z - c.position.z ∧
      p.z - c.position.z ≤ c.halfSize)
    linarith

/-- Clamping along `k` moves the position on `k` exactly when the depth on `k` is not 0. -/
theorem clampAxis_moves (c : Cube K) (k : Axis) (p prev : Vec3 K) (hk : c.depth p k ≠ 0) :
    (c.clampAxis k p prev).1.get k ≠ p.get k := by
  unfold Cube.clampAxis
  dsimp only
  rw [Vec3.get_set_self]
  unfold Cube.depth at hk
  intro he
  apply hk
  split at he
  · rename_i hpos
    rw [abs_of_pos hpos]
    linarith
  · rename_i hneg
    rw [abs_of_nonpos (le_of_not_gt hneg)]
    linarith

theorem clampAxis_frame (c : Cube K) (k j : Axis) (p prev : Vec3 K) (h : j ≠ k) :
    (c.clampAxis k p prev).1.get j = p.get j ∧ (c.clampAxis k p prev).2.get j = prev.get j :=
  ⟨Vec3.get_set_of_ne _ _ _ _ h, Vec3.get_set_of_ne _ _ _ _ h⟩

theorem cube_resolve_selects (c : Cube K) (p prev : Vec3 K) (h : c.checkCollision p = true) :
    ∃ k, (∀ j, c.depth p k ≤ c.depth p j) ∧ c.resolveCollision p prev = c.clampAxis k p prev := by
  rw [cube_resolve_chain c p prev h]
  by_cases h1 : c.depth p .X < c.depth p .Y ∧ c.depth p .X < c.depth p .Z
  · refine ⟨.X, ?_, by rw [if_pos h1]⟩
    intro j
    cases j
    · exact le_refl _
    · exact le_of_lt h1.1
    · exact le_of_lt h1.2
  · rw [if_neg h1]
    by_cases h2 : c.depth p .Y < c.depth p .Z
    · refine ⟨.Y, ?_, by rw [if_pos h2]⟩
      intro j
      cases j
      · by_contra hlt
        exact h1 ⟨lt_of_not_ge hlt, lt_trans (lt_of_not_ge hlt) h2⟩
      · exact le_refl _
      · exact le_of_lt h2
    · refine ⟨.Z, ?_, by rw [if_neg h2]⟩
      have hzy : c.depth p .Z ≤ c.depth p .Y := le_of_not_gt h2
      intro j
      cases j
      · by_contra hlt
        exact h1 ⟨lt_of_lt_of_le (lt_of_not_ge hlt) hzy, lt_of_not_ge hlt⟩
      · exact hzy
      · exact le_refl _

end CubeAxis

/-- C5: for every cube and every particle position contained in it,
`Cube.resolveCollision` writes exactly one axis `k` of `pos` and `prev` (it clamps `pos`
on `k` to the face and rewrites `prev` on `k`; the components of `pos` and `prev` on the
two other axes are unchanged, and `pos` on `k` really moves unless the depth there is 0),
and `k` has the least penetration depth `halfSize − |offset|` of the three axes. In
particular, with depths `(1, 2, 3)` on `(X, Y, Z)` the axis is `X`: the `X` component of
`pos` moves and the `Y` and `Z` components of `pos` and `prev` are unchanged. -/
theorem cube_resolve_least_penetration {K : Type} [LinearOrderedField K] (c : Cube K)
    (p prev : Vec3 K) (h : c.checkCollision p = true) :
    (∃ k, (∀ j, c.depth p k ≤ c.depth p j) ∧
        c.resolveCollision p prev = c.clampAxis k p prev ∧
        (∀ j, j ≠ k → (c.resolveCollision p prev).1.get j = p.get j ∧
          (c.resolveCollision p prev).2.get j = prev.get j) ∧
        (c.depth p k ≠ 0 → (c.resolveCollision p prev).1.get k ≠ p.get k)) ∧
      (c.depth p .X = 1 → c.depth p .Y = 2 → c.depth p .Z = 3 →
        c.resolveCollision p prev = c.clampAxis .X p prev ∧
        (c.resolveCollision p prev).1.x ≠ p.x ∧
        (c.resolveCollision p prev).1.y = p.y ∧ (c.resolveCollision p prev).1.z = p.z ∧
        (c.resolveCollision p prev).2.y = prev.y ∧ (c.resolveCollision p prev).2.z = prev.z) := by
  constructor
  · obtain ⟨k, hk, he⟩ := cube_resolve_selects c p prev h
    refine ⟨k, hk, he, ?_, ?_⟩
    · intro j hj
      rw [he]
      exact clampAxis_frame c k j p prev hj
    · intro h0
      rw [he]
      exact clampAxis_moves c k p prev h0
  · intro hx hy hz
    have he : c.resolveCollision p prev = c.clampAxis .X p prev := by
      rw [cube_resolve_chain c p prev h, hx, hy, hz, if_pos]
      constructor <;> norm_num
    refine ⟨he, ?_, ?_⟩
    · rw [he]
      exact clampAxis_moves c .X p prev (by rw [hx]; norm_num)
    · rw [he]
      exact ⟨rfl, rfl, rfl, rfl⟩

/-- C5 at a sample input: in the cube of half size 4 centred at the origin the position
`(3, 2, 1)` has depths `(1, 2, 3)` and is clamped on `X`. -/
theorem cube_resolve_least_penetration_witness :
    (sampleCube ℚ).checkCollision ⟨3, 2, 1⟩ = true ∧
      (sampleCube ℚ).depth ⟨3, 2, 1⟩ .X = 1 ∧ (sampleCube ℚ).depth ⟨3, 2, 1⟩ .Y = 2 ∧
      (sampleCube ℚ).depth ⟨3, 2, 1⟩ .Z = 3 ∧
      (sampleCube ℚ).resolveCollision ⟨3, 2, 1⟩ ⟨3, 2, 1⟩
        = (sampleCube ℚ).clampAxis .X ⟨3, 2, 1⟩ ⟨3, 2, 1⟩ :=
  have hc : (sampleCube ℚ).checkCollision ⟨3, 2, 1⟩ = true := by
    norm_num [sampleCube, Cube.new, Cube.checkCollision]
  have hx : (sampleCube ℚ).depth ⟨3, 2, 1⟩ .X = 1 := by
    norm_num [sampleCube, Cube.new, Cube.depth, Vec3.get, abs_of_pos]
  have hy : (sampleCube ℚ).depth ⟨3, 2, 1⟩ .Y = 2 := by
    norm_num [sampleCube, Cube.new, Cube.depth, Vec3.get, abs_of_pos]
  have hz : (sampleCube ℚ).depth ⟨3, 2, 1⟩ .Z = 3 := by
    norm_num [sampleCube, Cube.new, Cube.depth, Vec3.get, abs_of_pos]
  ⟨hc, hx, hy, hz,
    ((cube_resolve_least_penetration (sampleCube ℚ) ⟨3, 2, 1⟩ ⟨3, 2, 1⟩ hc).2 hx hy hz).1⟩

/-- C6 (as stated, refuted): in the cube of half size 1 centred at the origin, the
position `(1/2, 1/2, 0)` has `distX = distY ≤ distZ`, yet the `Y` axis is clamped and `X`
is left alone; and `(0, 1/2, 1/2)` has `distY = distZ < distX`, yet the `Z` axis is
clamped and `Y` is left alone. -/
theorem cube_tie_break_not_first_axis :
    ((Cube.new (⟨0, 0, 0⟩ : Vec3 ℚ) 2).checkCollision ⟨1/2, 1/2, 0⟩ = true ∧
      (Cube.new (⟨0, 0, 0⟩ : Vec3 ℚ) 2).depth ⟨1/2, 1/2, 0⟩ .X
        = (Cube.new (⟨0, 0, 0⟩ : Vec3 ℚ) 2).depth ⟨1/2, 1/2, 0⟩ .Y ∧
      (Cube.new (⟨0, 0, 0⟩ : Vec3 ℚ) 2).depth ⟨1/2, 1/2, 0⟩ .Y
        ≤ (Cube.new (⟨0, 0, 0⟩ : Vec3 ℚ) 2).depth ⟨1/2, 1/2, 0⟩ .Z ∧
      (Cube.new (⟨0, 0, 0⟩ : Vec3 ℚ) 2).resolveCollision ⟨1/2, 1/2, 0⟩ ⟨1/2, 1/2, 0⟩
        ≠ (Cube.new (⟨0, 0, 0⟩ : Vec3 ℚ) 2).clampAxis .X ⟨1/2, 1/2, 0⟩ ⟨1/2, 1/2, 0⟩ ∧
      ((Cube.new (⟨0, 0, 0⟩ : Vec3 ℚ) 2).resolveCollision ⟨1/2, 1/2, 0⟩ ⟨1/2, 1/2, 0⟩).1.x = 1/2 ∧
      ((Cube.new (⟨0, 0, 0⟩ : Vec3 ℚ) 2).resolveCollision ⟨1/2, 1/2, 0⟩ ⟨1/2, 1/2, 0⟩).1.y = 1 ∧
      ((Cube.new (⟨0, 0, 0⟩ : Vec3 ℚ) 2).resolveCollision ⟨1/2, 1/2, 0⟩ ⟨1/2, 1/2, 0⟩).1.z = 0) ∧
    ((Cube.new (⟨0, 0, 0⟩ : Vec3 ℚ) 2).checkCollision ⟨0, 1/2, 1/2⟩ = true ∧
      (Cube.new (⟨0, 0, 0⟩ : Vec3 ℚ) 2).depth ⟨0, 1/2, 1/2⟩ .Y
        = (Cube.new (⟨0, 0, 0⟩ : Vec3 ℚ) 2).depth ⟨0, 1/2, 1/2⟩ .Z ∧
      (Cube.new (⟨0, 0, 0⟩ : Vec3 ℚ) 2).depth ⟨0, 1/2, 1/2⟩ .Z
        < (Cube.new (⟨0, 0, 0⟩ : Vec3 ℚ) 2).depth ⟨0, 1/2, 1/2⟩ .X ∧
      (Cube.new (⟨0, 0, 0⟩ : Vec3 ℚ) 2).resolveCollision ⟨0, 1/2, 1/2⟩ ⟨0, 1/2, 1/2⟩
        ≠ (Cube.new (⟨0, 0, 0⟩ : Vec3 ℚ) 2).clampAxis .Y ⟨0, 1/2, 1/2⟩ ⟨0, 1/2, 1/2⟩ ∧
      ((Cube.new (⟨0, 0, 0⟩ : Vec3 ℚ) 2).resolveCollision ⟨0, 1/2, 1/2⟩ ⟨0, 1/2, 1/2⟩).1.x = 0 ∧
      ((Cube.new (⟨0, 0, 0⟩ : Vec3 ℚ) 2).resolveCollision ⟨0, 1/2, 1/2⟩ ⟨0, 1/2, 1/2⟩).1.y = 1/2 ∧
      ((Cube.new (⟨0, 0, 0⟩ : Vec3 ℚ) 2).resolveCollision ⟨0, 1/2, 1/2⟩ ⟨0, 1/2, 1/2⟩).1.z = 1) := by
  have hc1 : (Cube.new (⟨0, 0, 0⟩ : Vec3 ℚ) 2).checkCollision ⟨1/2, 1/2, 0⟩ = true := by
    norm_num [Cube.checkCollision, Cube.new]
  have hc2 : (Cube.new (⟨0, 0, 0⟩ : Vec3 ℚ) 2).checkCollision ⟨0, 1/2, 1/2⟩ = true := by
    norm_num [Cube.checkCollision, Cube.new]
  refine ⟨⟨hc1, ?_, ?_, ?_, ?_, ?_, ?_⟩, ⟨hc2, ?_, ?_, ?_, ?_, ?_, ?_⟩⟩ <;>
    first
    | rw [cube_resolve_chain _ _ _ hc1]
      norm_num [Cube.depth, Cube.clampAxis, Cube.new, Vec3.get, Vec3.set, abs_of_pos]
    | rw [cube_resolve_chain _ _ _ hc2]
      norm_num [Cube.depth, Cube.clampAxis, Cube.new, Vec3.get, Vec3.set, abs_of_pos]
    | norm_num [Cube.depth, Cube.new, Vec3.get, abs_of_pos]

/-- C6 (amended): the comparisons of `Cube.resolveCollision` are strict, so a tie for
the least penetration depth goes to the later axis in the order X, Y, Z. For a
contained position: `X` is clamped when `distX` is strictly below both others; if
`distX = distY < distZ` the `Y` axis is clamped; if `distY = distZ ≤ distX`, or
`distX = distZ ≤ distY`, the `Z` axis is clamped (also when all three are equal). -/
theorem cube_tie_break_later_axis {K : Type} [LinearOrderedField K] (c : Cube K)
    (p prev : Vec3 K) (h : c.checkCollision p = true) :
    (c.depth p .X < c.depth p .Y → c.depth p .X < c.depth p .Z →
        c.resolveCollision p prev = c.clampAxis .X p prev) ∧
      (c.depth p .X = c.depth p .Y → c.depth p .Y < c.depth p .Z →
        c.resolveCollision p prev = c.clampAxis .Y p prev) ∧
      (c.depth p .Y = c.depth p .Z → c.depth p .Z ≤ c.depth p .X →
        c.resolveCollision p prev = c.clampAxis .Z p prev) ∧
      (c.depth p .X = c.depth p .Z → c.depth p .Z ≤ c.depth p .Y →
        c.resolveCollision p prev = c.clampAxis .Z p prev) := by
  rw [cube_resolve_chain c p prev h]
  refine ⟨?_, ?_, ?_, ?_⟩
  · intro h1 h2
    rw [if_pos ⟨h1, h2⟩]
  · intro h1 h2
    rw [if_neg (fun hh => absurd hh.1 (by rw [h1]; exact lt_irrefl _)), if_pos h2]
  · intro h1 h2
    rw [if_neg (fun hh => absurd hh.2 (not_lt_of_ge h2)),
      if_neg (by rw [h1]; exact lt_irrefl _)]
  · intro h1 h2
    rw [if_neg (fun hh => absurd hh.2 (by rw [h1]; exact lt_irrefl _)),
      if_neg (not_lt_of_ge h2)]

/-- C6 (amended) at a sample input: in the cube of half size 1 centred at the origin the
position `(1/2, 1/2, 0)` ties on `X` and `Y` and is clamped on `Y`. -/
theorem cube_tie_break_later_axis_witness :
    (unitCube ℚ).checkCollision ⟨1/2, 1/2, 0⟩ = true ∧
      (unitCube ℚ).depth ⟨1/2, 1/2, 0⟩ .X = (unitCube ℚ).depth ⟨1/2, 1/2, 0⟩ .Y ∧
      (unitCube ℚ).depth ⟨1/2, 1/2, 0⟩ .Y < (unitCube ℚ).depth ⟨1/2, 1/2, 0⟩ .Z ∧
      (unitCube ℚ).resolveCollision ⟨1/2, 1/2, 0⟩ ⟨1/2, 1/2, 0⟩
        = (unitCube ℚ).clampAxis .Y ⟨1/2, 1/2, 0⟩ ⟨1/2, 1/2, 0⟩ :=
  have hc : (unitCube ℚ).checkCollision ⟨1/2, 1/2, 0⟩ = true := by
    norm_num [unitCube, Cube.new, Cube.checkCollision]
  have h1 : (unitCube ℚ).depth ⟨1/2, 1/2, 0⟩ .X = (unitCube ℚ).depth ⟨1/2, 1/2, 0⟩ .Y := by
    norm_num [unitCube, Cube.new, Cube.depth, Vec3.get, abs_of_pos]
  have h2 : (unitCube ℚ).depth ⟨1/2, 1/2, 0⟩ .Y < (unitCube ℚ).depth ⟨1/2, 1/2, 0⟩ .Z := by
    norm_num [unitCube, Cube.new, Cube.depth, Vec3.get, abs_of_pos]
  ⟨hc, h1, h2, (cube_tie_break_later_axis (unitCube ℚ) ⟨1/2, 1/2, 0⟩ ⟨1/2, 1/2, 0⟩ hc).2.1 h1 h2⟩

/-! ## C7: a single spring -/

theorem real_sqrt_sum_sq_nonneg (dx dy dz : ℝ) : 0 ≤ hypot3 Real.sqrt dx dy dz :=
  Real.sqrt_nonneg _

/-- The analytic core: scaling the offset `d` by `1 − 0.8·diff` brings its length to
`0.2·dist + 0.8·rest`, so the error shrinks by the factor `0.2`. -/
theorem spring_correction_error (dx dy dz rest ex ey ez : ℝ) (hrest : 0 ≤ rest)
    (hD : hypot3 Real.sqrt dx dy dz ≠ 0)
    (hx : ex = (1 - 0.8 * ((hypot3 Real.sqrt dx dy dz - rest) / hypot3 Real.sqrt dx dy dz)) * dx)
    (hy : ey = (1 - 0.8 * ((hypot3 Real.sqrt dx dy dz - rest) / hypot3 Real.sqrt dx dy dz)) * dy)
    (hz : ez = (1 - 0.8 * ((hypot3 Real.sqrt dx dy dz - rest) / hypot3 Real.sqrt dx dy dz)) * dz) :
    |hypot3 Real.sqrt ex ey ez - rest| ≤ |hypot3 Real.sqrt dx dy dz - rest| := by
  have hpos : 0 < hypot3 Real.sqrt dx dy dz :=
    lt_of_le_of_ne (real_sqrt_sum_sq_nonneg dx dy dz) (Ne.symm hD)
  generalize hDdef : hypot3 Real.sqrt dx dy dz = D at hx hy hz hD hpos ⊢
  have ht : (1 - 0.8 * ((D - rest) / D)) = (0.2 * D + 0.8 * rest) / D := by
    field_simp
    ring
  have ht0 : 0 ≤ (0.2 * D + 0.8 * rest) / D := by
    apply div_nonneg _ (le_of_lt hpos)
    nlinarith
  rw [ht] at hx hy hz
  have hE : hypot3 Real.sqrt ex ey ez = 0.2 * D + 0.8 * rest := by
    unfold hypot3
    rw [hx, hy, hz, real_sqrt_scaled _ _ _ _ ht0]
    have : Real.sqrt (dx * dx + dy * dy + dz * dz) = D := hDdef
    rw [this]
    field_simp
  rw [hE]
  have e : 0.2 * D + 0.8 * rest - rest = 0.2 * (D - rest) := by ring
  rw [e, abs_mul]
  have h02 : |(0.2 : ℝ)| = 0.2 := abs_of_pos (by norm_num)
  rw [h02]
  nlinarith [abs_nonneg (D - rest)]

theorem getElem?_modify_self {α : Type} (f : α → α) (n : Nat) (l : List α) (a : α)
    (h : l[n]? = some a) : (l.modify f n)[n]? = some (f a) := by
  rw [List.getElem?_modify, h]
  simp

theorem getElem?_modify_of_ne {α : Type} (f : α → α) (n m : Nat) (l : List α) (h : n ≠ m) :
    (l.modify f n)[m]? = l[m]? := by
  rw [List.getElem?_modify]
  cases l[m]? with
  | none => rfl
  | some a => simp [h]

/-- One pass over one spring with both endpoints in range completes, keeps the length of
the particle array and does not increase the length error of the spring. -/
theorem springStep_error_le (ps : List (Particle ℝ)) (s : Spring ℝ) (A B : Particle ℝ)
    (hA : ps[s.a]? = some A) (hB : ps[s.b]? = some B) (hrest : 0 ≤ s.rest) :
    ∃ ps1, springStep Real.sqrt ps s = some ps1 ∧ ps1.length = ps.length ∧
      springError Real.sqrt ps1 s ≤ springError Real.sqrt ps s := by
  have herr0 : springError Real.sqrt ps s = |dist3 Real.sqrt B.pos A.pos - s.rest| := by
    unfold springError
    rw [hA, hB]
  unfold springStep
  rw [hA, hB]
  dsimp only
  by_cases hD : hypot3 Real.sqrt (B.pos.x - A.pos.x) (B.pos.y - A.pos.y) (B.pos.z - A.pos.z) = 0
  · rw [if_pos hD]
    exact ⟨ps, rfl, rfl, le_refl _⟩
  · rw [if_neg hD]
    have hab : s.a ≠ s.b := by
      intro hab
      rw [hab, hB] at hA
      cases hA
      apply hD
      simp [hypot3]
    cases hpA : A.pinned <;> cases hpB : B.pinned
    · simp only [Bool.not_false, Bool.and_self, if_true]
      refine ⟨_, rfl, by simp, ?_⟩
      rw [herr0]
      unfold springError
      rw [getElem?_modify_of_ne _ _ _ _ (Ne.symm hab), getElem?_modify_self _ _ _ _ hA,
        getElem?_modify_self _ _ _ B (by rw [getElem?_modify_of_ne _ _ _ _ hab]; exact hB)]
      dsimp only [dist3]
      apply spring_correction_error _ _ _ _ _ _ _ hrest hD <;> ring
    · simp only [Bool.not_false, Bool.not_true, Bool.and_false, Bool.false_eq_true, if_false,
        if_true]
      refine ⟨_, rfl, by simp, ?_⟩
      rw [herr0]
      unfold springError
      rw [getElem?_modify_self _ _ _ _ hA, getElem?_modify_of_ne _ _ _ _ hab, hB]
      dsimp only [dist3]
      apply spring_correction_error _ _ _ _ _ _ _ hrest hD <;> ring
    · simp only [Bool.not_false, Bool.not_true, Bool.false_and, Bool.false_eq_true, if_false,
        if_true]
      refine ⟨_, rfl, by simp, ?_⟩
      rw [herr0]
      unfold springError
      rw [getElem?_modify_self _ _ _ _ hB, getElem?_modify_of_ne _ _ _ _ (Ne.symm hab), hA]
      dsimp only [dist3]
      apply spring_correction_error _ _ _ _ _ _ _ hrest hD <;> ring
    · simp only [Bool.not_true, Bool.and_self, Bool.false_eq_true, if_false]
      exact ⟨ps, rfl, rfl, by rw [herr0]⟩

theorem relaxOnce_single_spring (c : Cloth ℝ) (s : Spring ℝ) (hs : c.springs = [s])
    (hom : c.objectManager = none) (ha : s.a < c.particles.length)
    (hb : s.b < c.particles.length) (hrest : 0 ≤ s.rest) :
    ∃ c1, relaxOnce Real.sqrt c = .ok c1 ∧ c1.springs = [s] ∧ c1.objectManager = none ∧
      c1.particles.length = c.particles.length ∧
      springError Real.sqrt c1.particles s ≤ springError Real.sqrt c.particles s := by
  obtain ⟨ps1, h1, hlen, herr⟩ := springStep_error_le c.particles s
    (c.particles.get ⟨s.a, ha⟩) (c.particles.get ⟨s.b, hb⟩)
    (by simp [List.getElem?_eq_getElem ha]) (by simp [List.getElem?_eq_getElem hb]) hrest
  refine ⟨{ c with particles := ps1 }, ?_, hs, hom, hlen, herr⟩
  unfold relaxOnce
  rw [hs, hom]
  simp only [relaxSprings, h1, collisionPass]

/-- C7: for a cloth reduced to a single spring with rest length `≥ 0` and endpoints in
the particle array, with no `ObjectManager` attached, `satisfyConstraints` completes for
every iteration count and each further iteration gives, over the reals,
`|distance' − rest| ≤ |distance − rest|`: the error after `n + 1` iterations is at most
the error after `n`. (This holds for any pinning of the endpoints; when both are pinned
the spring is simply left alone.) -/
theorem single_spring_error_nonincreasing (c : Cloth ℝ) (s : Spring ℝ) (hs : c.springs = [s])
    (hom : c.objectManager = none) (ha : s.a < c.particles.length)
    (hb : s.b < c.particles.length) (hrest : 0 ≤ s.rest) (n : Nat) :
    ∃ c1 c2, c.satisfyConstraints Real.sqrt n = .ok c1 ∧
      c.satisfyConstraints Real.sqrt (n + 1) = .ok c2 ∧
      springError Real.sqrt c2.particles s ≤ springError Real.sqrt c1.particles s := by
  induction n generalizing c with
  | zero =>
    obtain ⟨c1, h1, _, _, _, herr⟩ := relaxOnce_single_spring c s hs hom ha hb hrest
    refine ⟨c, c1, rfl, ?_, herr⟩
    simp only [Cloth.satisfyConstraints, h1]
  | succ k ih =>
    obtain ⟨c1, h1, hs1, hom1, hlen, _⟩ := relaxOnce_single_spring c s hs hom ha hb hrest
    obtain ⟨d1, d2, e1, e2, herr⟩ := ih c1 hs1 hom1 (by rw [hlen]; exact ha) (by rw [hlen]; exact hb)
    refine ⟨d1, d2, ?_, ?_, herr⟩
    · rw [← e1]
      simp only [Cloth.satisfyConstraints, h1]
    · rw [← e2]
      conv_lhs => unfold Cloth.satisfyConstraints
      simp only [h1]

/-- C7 at a sample state: the spring of `sampleSpringCloth`, iterations 3 and 4. -/
theorem single_spring_error_nonincreasing_witness :
    (sampleSpringCloth ℝ).springs = [⟨0, 1, 1⟩] ∧ (sampleSpringCloth ℝ).objectManager = none ∧
      0 < (sampleSpringCloth ℝ).particles.length ∧ 1 < (sampleSpringCloth ℝ).particles.length ∧
      (0 : ℝ) ≤ 1 ∧
      ∃ c1 c2, (sampleSpringCloth ℝ).satisfyConstraints Real.sqrt 3 = .ok c1 ∧
        (sampleSpringCloth ℝ).satisfyConstraints Real.sqrt (3 + 1) = .ok c2 ∧
        springError Real.sqrt c2.particles ⟨0, 1, 1⟩
          ≤ springError Real.sqrt c1.particles ⟨0, 1, 1⟩ :=
  ⟨rfl, rfl, by decide, by decide, zero_le_one,
    single_spring_error_nonincreasing (sampleSpringCloth ℝ) ⟨0, 1, 1⟩ rfl rfl (by decide)
      (by decide) zero_le_one 3⟩

/-! ## C8: the ground plane -/

theorem hypot3_vertical (y : ℝ) : hypot3 Real.sqrt 0 y 0 = |y| := by
  unfold hypot3
  simp only [mul_zero, zero_add, add_zero]
  exact Real.sqrt_mul_self_eq_abs y

/-- C8 (as stated, refuted), two runs of one full step with `dt = 1/60` from states
whose particles are all free and at height `≥ −2`. First, without rigid bodies: two
particles at heights `−2` and `−1` joined by a spring of rest length 3; the relaxation
pushes the lower one to height `−187565129/62500000 < −2`. Second, without springs: one
particle at height `−2` inside a cube of half size 2 centred at height `−1`; the cube
moves it to its bottom face at height `−3`. -/
theorem full_step_can_end_below_ground :
    (0 : ℝ) ≤ 1 / 60 ∧
    ((∀ p ∈ [Particle.new (0 : ℝ) (-2) 0 false, Particle.new 0 (-1) 0 false],
          p.pinned = false → -2 ≤ p.pos.y) ∧
      ∃ c1, ((⟨0, 0, 1, 1, [Particle.new 0 (-2) 0 false, Particle.new 0 (-1) 0 false],
            [⟨0, 1, 3⟩], ⟨0, 0, 0⟩, none⟩ : Cloth ℝ).applyForces Real.sqrt
              (1 / 60)).satisfyConstraints Real.sqrt 5 = Except.ok c1 ∧
        c1.particles.map (fun p => (p.pinned, p.pos.y))
          = [(false, -(187565129 / 62500000)), (false, -(210367 / 125000000))] ∧
        (-(187565129 / 62500000) : ℝ) < -2) ∧
    ((∀ p ∈ [Particle.new (0 : ℝ) (-2) 0 false], p.pinned = false → -2 ≤ p.pos.y) ∧
      ∃ c1, ((⟨0, 0, 1, 1, [Particle.new 0 (-2) 0 false], [], ⟨0, 0, 0⟩,
            some ⟨[.cube (Cube.new ⟨0, -1, 0⟩ 4)]⟩⟩ : Cloth ℝ).applyForces Real.sqrt
              (1 / 60)).satisfyConstraints Real.sqrt 5 = Except.ok c1 ∧
        c1.particles.map (fun p => (p.pinned, p.pos.y)) = [(false, -3)]) := by
  refine ⟨by norm_num, ⟨?_, ?_⟩, ⟨?_, ?_⟩⟩
  · norm_num [Particle.new]
  · norm_num [Cloth.applyForces, Cloth.satisfyConstraints, relaxOnce, relaxSprings,
      collisionPass, accumulateForce, integrateParticle, springStep, Particle.new,
      hypot3_vertical, List.modify, List.modifyTailIdx, List.modifyHead, abs_of_pos, abs_of_neg]
  · norm_num [Particle.new]
  · norm_num [Cloth.applyForces, Cloth.satisfyConstraints, relaxOnce, relaxSprings,
      collisionPass, accumulateForce, integrateParticle, ObjectManager.checkCollisions,
      collideWith, GeometricObject.visible, GeometricObject.checkCollision,
      GeometricObject.resolveCollision, Cube.checkCollision, Cube.resolveCollision, Cube.new,
      Particle.new]

theorem integrateParticle_ground {K : Type} [LinearOrderedField K] (sqrt : K → K) (dt2 : K)
    (p : Particle K) (hp : p.pinned = false) :
    -2 ≤ (integrateParticle sqrt none dt2 p).pos.y := by
  unfold integrateParticle
  simp only [hp, Bool.false_eq_true, if_false]
  split
  · exact le_refl _
  · rename_i h
    exact le_of_not_gt h

/-- C8 (amended): the ground clamp belongs to `applyForces` only. For every cloth state
and every `dt`, with no rigid bodies attached, every non-pinned particle is at height
`≥ −2` when `applyForces(dt)` returns. (Nothing is promised after `satisfyConstraints`,
which has no ground clamp, nor when rigid bodies are attached.) -/
theorem applyForces_keeps_above_ground {K : Type} [LinearOrderedField K] (sqrt : K → K)
    (dt : K) (c : Cloth K) (hom : c.objectManager = none) (q : Particle K)
    (hq : q ∈ (c.applyForces sqrt dt).particles) (hfree : q.pinned = false) :
    -2 ≤ q.pos.y := by
  unfold Cloth.applyForces at hq
  simp only [List.mem_map, exists_exists_and_eq_and] at hq
  obtain ⟨p, _, rfl⟩ := hq
  rw [hom] at hfree ⊢
  have h1 := integrateParticle_pinnedView sqrt none (dt * dt) (accumulateForce c.windForce p)
  have h2 : (accumulateForce c.windForce p).pinned = false := by
    rw [← pinned_eq_of_pinnedView h1]
    exact hfree
  exact integrateParticle_ground sqrt (dt * dt) _ h2

/-- C8 (amended) at a sample state: the free particle of `sampleSpringCloth`, which
starts on the plane, is clamped back to height `−2` by `applyForces(1/60)`. -/
theorem applyForces_keeps_above_ground_witness :
    (sampleSpringCloth ℝ).objectManager = none ∧
      (⟨⟨0, -2, 0⟩, ⟨0, -2, 0⟩, ⟨0, -9.81, 0⟩, false, ⟨0, -2, 0⟩⟩ : Particle ℝ)
        ∈ ((sampleSpringCloth ℝ).applyForces Real.sqrt (1 / 60)).particles ∧
      (⟨⟨0, -2, 0⟩, ⟨0, -2, 0⟩, ⟨0, -9.81, 0⟩, false, ⟨0, -2, 0⟩⟩ : Particle ℝ).pinned = false ∧
      -2 ≤ (⟨⟨0, -2, 0⟩, ⟨0, -2, 0⟩, ⟨0, -9.81, 0⟩, false, ⟨0, -2, 0⟩⟩ : Particle ℝ).pos.y :=
  have hq : (⟨⟨0, -2, 0⟩, ⟨0, -2, 0⟩, ⟨0, -9.81, 0⟩, false, ⟨0, -2, 0⟩⟩ : Particle ℝ)
      ∈ ((sampleSpringCloth ℝ).applyForces Real.sqrt (1 / 60)).particles := by
    norm_num [sampleSpringCloth, Cloth.applyForces, accumulateForce, integrateParticle,
      Particle.new]
  ⟨rfl, hq, rfl,
    applyForces_keeps_above_ground Real.sqrt (1 / 60) (sampleSpringCloth ℝ) rfl _ hq rfl⟩

/-! ## C9: collision is the last write of every iteration -/

section Completion

variable {K : Type} [LinearOrderedField K]

theorem springStep_some (sqrt : K → K) (ps : List (Particle K)) (s : Spring K)
    (ha : s.a < ps.length) (hb : s.b < ps.length) :
    ∃ ps1, springStep sqrt ps s = some ps1 ∧ ps1.length = ps.length := by
  unfold springStep
  rw [List.getElem?_eq_getElem ha, List.getElem?_eq_getElem hb]
  dsimp only
  split
  · exact ⟨ps, rfl, rfl⟩
  · split
    · exact ⟨_, rfl, by simp⟩
    · split
      · exact ⟨_, rfl, by simp⟩
      · split
        · exact ⟨_, rfl, by simp⟩
        · exact ⟨ps, rfl, rfl⟩

theorem relaxSprings_ok (sqrt : K → K) (ss : List (Spring K)) (ps : List (Particle K))
    (h : ∀ s ∈ ss, s.a < ps.length ∧ s.b < ps.length) :
    ∃ ps1, relaxSprings sqrt ss ps = .ok ps1 ∧ ps1.length = ps.length := by
  induction ss generalizing ps with
  | nil => exact ⟨ps, rfl, rfl⟩
  | cons s ss ih =>
    obtain ⟨ps1, h1, hlen⟩ := springStep_some sqrt ps s
      (h s (List.mem_cons_self _ _)).1 (h s (List.mem_cons_self _ _)).2
    obtain ⟨ps2, h2, hlen2⟩ := ih ps1 (fun t ht => by
      rw [hlen]
      exact h t (List.mem_cons_of_mem _ ht))
    refine ⟨ps2, ?_, by rw [hlen2, hlen]⟩
    simp only [relaxSprings, h1, h2]

theorem collisionPass_length (sqrt : K → K) (om : Option (ObjectManager K))
    (ps : List (Particle K)) : (collisionPass sqrt om ps).length = ps.length := by
  cases om with
  | none => rfl
  | some om => simp [collisionPass]

/-- With every spring endpoint in range one iteration completes; it keeps the springs,
the manager and the number of particles, and its particles are those of a collision
pass. -/
theorem relaxOnce_ok (sqrt : K → K) (c : Cloth K)
    (h : ∀ s ∈ c.springs, s.a < c.particles.length ∧ s.b < c.particles.length) :
    ∃ c1 ps, relaxOnce sqrt c = .ok c1 ∧ c1.springs = c.springs ∧
      c1.objectManager = c.objectManager ∧ c1.particles.length = c.particles.length ∧
      c1.particles = collisionPass sqrt c.objectManager ps := by
  obtain ⟨ps1, h1, hlen⟩ := relaxSprings_ok sqrt c.springs c.particles h
  refine ⟨{ c with particles := collisionPass sqrt c.objectManager ps1 }, ps1, ?_, rfl, rfl, ?_,
    rfl⟩
  · simp only [relaxOnce, h1]
  · show (collisionPass sqrt c.objectManager ps1).length = _
    rw [collisionPass_length, hlen]

end Completion

theorem real_sum_sq_eq_zero (dx dy dz : ℝ) (h : dx * dx + dy * dy + dz * dz = 0) :
    dx = 0 ∧ dy = 0 ∧ dz = 0 := by
  have hx : dx * dx = 0 := by nlinarith [mul_self_nonneg dx, mul_self_nonneg dy, mul_self_nonneg dz]
  have hy : dy * dy = 0 := by nlinarith [mul_self_nonneg dx, mul_self_nonneg dy, mul_self_nonneg dz]
  have hz : dz * dz = 0 := by nlinarith [mul_self_nonneg dx, mul_self_nonneg dy, mul_self_nonneg dz]
  exact ⟨mul_self_eq_zero.mp hx, mul_self_eq_zero.mp hy, mul_self_eq_zero.mp hz⟩

theorem dist3_eq_zero (p c : Vec3 ℝ) (h : dist3 Real.sqrt p c = 0) : p = c := by
  unfold dist3 hypot3 at h
  rw [Real.sqrt_eq_zero (real_sum_sq_nonneg _ _ _)] at h
  obtain ⟨hx, hy, hz⟩ := real_sum_sq_eq_zero _ _ _ h
  cases p
  cases c
  simp only [Vec3.mk.injEq]
  dsimp only at hx hy hz
  exact ⟨by linarith, by linarith, by linarith⟩

/-- After the collision check against one visible sphere, a particle that is not at the
centre is not inside the sphere. -/
theorem checkCollisions_sphere_outside (s : Sphere ℝ) (hv : s.visible = true)
    (hr : 0 < s.radius) (p : Particle ℝ)
    (hne : ((⟨[.sphere s]⟩ : ObjectManager ℝ).checkCollisions Real.sqrt p).pos ≠ s.position) :
    s.radius ≤ dist3 Real.sqrt
      ((⟨[.sphere s]⟩ : ObjectManager ℝ).checkCollisions Real.sqrt p).pos s.position := by
  have hq : (⟨[.sphere s]⟩ : ObjectManager ℝ).checkCollisions Real.sqrt p
      = collideWith Real.sqrt p (.sphere s) := rfl
  rw [hq] at hne ⊢
  by_cases hin : dist3 Real.sqrt p.pos s.position < s.radius
  · have hchk : (GeometricObject.sphere s).checkCollision Real.sqrt p.pos = true := by
      simp only [GeometricObject.checkCollision, Sphere.checkCollision, decide_eq_true_eq]
      exact hin
    have hcw : collideWith Real.sqrt p (.sphere s)
        = { p with pos := (s.resolveCollision Real.sqrt p.pos p.prev).1,
                   prev := (s.resolveCollision Real.sqrt p.pos p.prev).2 } := by
      unfold collideWith
      rw [hchk]
      simp only [GeometricObject.visible, hv, Bool.and_self, if_true,
        GeometricObject.resolveCollision]
    rw [hcw] at hne ⊢
    dsimp only at hne ⊢
    by_cases h0 : 0 < dist3 Real.sqrt p.pos s.position
    · rw [sphere_resolve_pos s p.pos p.prev h0 hin]
      exact le_of_eq (sphere_projection_dist s.position p.pos s.radius (le_of_lt hr) h0).symm
    · exfalso
      have hz : dist3 Real.sqrt p.pos s.position = 0 :=
        le_antisymm (le_of_not_gt h0) (Real.sqrt_nonneg _)
      have hsame : (s.resolveCollision Real.sqrt p.pos p.prev).1 = p.pos := by
        have hc : ¬ (Real.sqrt ((p.pos.x - s.position.x) * (p.pos.x - s.position.x)
            + (p.pos.y - s.position.y) * (p.pos.y - s.position.y)
            + (p.pos.z - s.position.z) * (p.pos.z - s.position.z)) < s.radius ∧
            Real.sqrt ((p.pos.x - s.position.x) * (p.pos.x - s.position.x)
            + (p.pos.y - s.position.y) * (p.pos.y - s.position.y)
            + (p.pos.z - s.position.z) * (p.pos.z - s.position.z)) > 0) := fun hh => h0 hh.2
        unfold Sphere.resolveCollision
        dsimp only
        rw [if_neg hc]
      rw [hsame] at hne
      exact hne (dist3_eq_zero _ _ hz)
  · have hchk : (GeometricObject.sphere s).checkCollision Real.sqrt p.pos = false := by
      simp only [GeometricObject.checkCollision, Sphere.checkCollision, decide_eq_false_iff_not]
      exact hin
    have hcw : collideWith Real.sqrt p (.sphere s) = p := by
      unfold collideWith
      rw [hchk]
      simp
    rw [hcw]
    exact le_of_not_gt hin

theorem collisionPass_sphere_outside (s : Sphere ℝ) (hv : s.visible = true) (hr : 0 < s.radius)
    (ps : List (Particle ℝ)) (q : Particle ℝ)
    (hq : q ∈ collisionPass Real.sqrt (some ⟨[.sphere s]⟩) ps) (hfree : q.pinned = false)
    (hne : q.pos ≠ s.position) : s.radius ≤ dist3 Real.sqrt q.pos s.position := by
  simp only [collisionPass, List.mem_map] at hq
  obtain ⟨p, _, rfl⟩ := hq
  by_cases hp : p.pinned = true
  · simp only [hp, Bool.not_true, Bool.false_eq_true, if_false] at hfree
    cases hfree
  · simp only [Bool.not_eq_true] at hp
    simp only [hp, Bool.not_false, if_true] at hne ⊢
    exact checkCollisions_sphere_outside s hv hr p hne

/-- C9: with an `ObjectManager` holding exactly one visible sphere of radius `r > 0`
(and every spring endpoint inside the particle array, so that the call completes),
`satisfyConstraints(n)` with `n ≥ 1` returns a state in which every non-pinned particle
whose position is not exactly the sphere centre is at distance `≥ r` from the centre
(over the reals): the collision pass is the last write of every iteration. -/
theorem satisfyConstraints_ends_outside_sphere (c : Cloth ℝ) (s : Sphere ℝ) (n : Nat)
    (hom : c.objectManager = some ⟨[.sphere s]⟩) (hv : s.visible = true) (hr : 0 < s.radius)
    (hn : 1 ≤ n)
    (hs : ∀ t ∈ c.springs, t.a < c.particles.length ∧ t.b < c.particles.length) :
    ∃ c1, c.satisfyConstraints Real.sqrt n = .ok c1 ∧
      ∀ q ∈ c1.particles, q.pinned = false → q.pos ≠ s.position →
        s.radius ≤ dist3 Real.sqrt q.pos s.position := by
  obtain ⟨k, rfl⟩ : ∃ k, n = k + 1 := ⟨n - 1, by omega⟩
  clear hn
  induction k generalizing c with
  | zero =>
    obtain ⟨c1, ps, h1, _, _, _, hps⟩ := relaxOnce_ok Real.sqrt c hs
    refine ⟨c1, by simp only [Cloth.satisfyConstraints, h1], ?_⟩
    intro q hq hfree hne
    rw [hps, hom] at hq
    exact collisionPass_sphere_outside s hv hr ps q hq hfree hne
  | succ k ih =>
    obtain ⟨c1, ps, h1, hs1, hom1, hlen, _⟩ := relaxOnce_ok Real.sqrt c hs
    obtain ⟨c2, h2, hP⟩ := ih c1 (by rw [hom1, hom]) (by rw [hs1, hlen]; exact hs)
    refine ⟨c2, ?_, hP⟩
    rw [← h2]
    conv_lhs => unfold Cloth.satisfyConstraints
    simp only [h1]

/-- C9 at a sample state: `sampleSphereCloth`, 5 iterations. -/
theorem satisfyConstraints_ends_outside_sphere_witness :
    (sampleSphereCloth ℝ).objectManager = some ⟨[.sphere (sampleSphere ℝ)]⟩ ∧
      (sampleSphere ℝ).visible = true ∧ 0 < (sampleSphere ℝ).radius ∧ 1 ≤ 5 ∧
      (∀ t ∈ (sampleSphereCloth ℝ).springs,
        t.a < (sampleSphereCloth ℝ).particles.length ∧
          t.b < (sampleSphereCloth ℝ).particles.length) ∧
      ∃ c1, (sampleSphereCloth ℝ).satisfyConstraints Real.sqrt 5 = .ok c1 ∧
        ∀ q ∈ c1.particles, q.pinned = false → q.pos ≠ (sampleSphere ℝ).position →
          (sampleSphere ℝ).radius ≤ dist3 Real.sqrt q.pos (sampleSphere ℝ).position :=
  have hs : ∀ t ∈ (sampleSphereCloth ℝ).springs,
      t.a < (sampleSphereCloth ℝ).particles.length ∧
        t.b < (sampleSphereCloth ℝ).particles.length := by
    intro t ht
    simp only [sampleSphereCloth, sampleSpringCloth, List.mem_singleton] at ht
    subst ht
    exact ⟨by decide, by decide⟩
  ⟨rfl, rfl, by norm_num [sampleSphere, Sphere.new], by decide, hs,
    satisfyConstraints_ends_outside_sphere (sampleSphereCloth ℝ) (sampleSphere ℝ) 5 rfl rfl
      (by norm_num [sampleSphere, Sphere.new]) (by decide) hs⟩

/-! ## C10: force accumulation -/

section Forces

variable {K : Type} [LinearOrderedField K]

theorem integrateParticle_acc (sqrt : K → K) (om : Option (ObjectManager K)) (dt2 : K)
    (p : Particle K) : (integrateParticle sqrt om dt2 p).acc = p.acc := by
  unfold integrateParticle
  dsimp only
  split
  · rfl
  · cases om with
    | none => dsimp only; split <;> rfl
    | some om =>
      dsimp only
      rw [checkCollisions_acc]
      split <;> rfl

theorem applyForces_acc (sqrt : K → K) (dt : K) (c : Cloth K) :
    (c.applyForces sqrt dt).particles.map (fun p => (p.pinned, p.acc))
      = c.particles.map (fun p => (p.pinned,
          if p.pinned then p.acc
          else (⟨c.windForce.x, -9.81 + c.windForce.y, c.windForce.z⟩ : Vec3 K))) := by
  unfold Cloth.applyForces
  simp only [List.map_map]
  apply List.map_congr_left
  intro p _
  simp only [Function.comp_apply, integrateParticle_acc]
  have h1 := integrateParticle_pinnedView sqrt c.objectManager (dt * dt)
    (accumulateForce c.windForce p)
  rw [pinned_eq_of_pinnedView h1]
  unfold accumulateForce
  cases hp : p.pinned with
  | true => simp [hp]
  | false => simp [hp]

end Forces

/-- C10: `applyForces(dt)` keeps the particle array in order, leaves the `acc` of every
pinned particle untouched and sets the `acc` of every non-pinned particle to
`(w.x, −9.81 + w.y, w.z)`, where `w` is `windForce` as it was when the call started. So
after `addWind([0,0,2])` on a cloth with zero wind, one `applyForces` gives every free
particle `acc = (0, −9.81, 2)`, in particular `acc.z = 2` exactly. -/
theorem applyForces_sets_acceleration {K : Type} [LinearOrderedField K] (sqrt : K → K) (dt : K)
    (c : Cloth K) :
    (c.applyForces sqrt dt).particles.map (fun p => (p.pinned, p.acc))
        = c.particles.map (fun p => (p.pinned,
            if p.pinned then p.acc
            else (⟨c.windForce.x, -9.81 + c.windForce.y, c.windForce.z⟩ : Vec3 K))) ∧
      (c.windForce = ⟨0, 0, 0⟩ →
        ∀ q ∈ ((c.addWind ⟨0, 0, 2⟩).applyForces sqrt dt).particles, q.pinned = false →
          q.acc = ⟨0, -9.81, 2⟩ ∧ q.acc.z = 2) := by
  refine ⟨applyForces_acc sqrt dt c, ?_⟩
  intro hw q hq hfree
  have h := applyForces_acc sqrt dt (c.addWind ⟨0, 0, 2⟩)
  have hmem : (q.pinned, q.acc) ∈
      ((c.addWind ⟨0, 0, 2⟩).applyForces sqrt dt).particles.map (fun p => (p.pinned, p.acc)) :=
    List.mem_map.mpr ⟨q, hq, rfl⟩
  rw [h] at hmem
  obtain ⟨p, _, hp⟩ := List.mem_map.mp hmem
  simp only [Prod.mk.injEq] at hp
  obtain ⟨hp1, hp2⟩ := hp
  rw [hp1, hfree] at hp2
  simp only [Bool.false_eq_true, if_false, Cloth.addWind, hw, zero_add, add_zero] at hp2
  rw [← hp2]
  exact ⟨rfl, rfl⟩

/-- C10 at a sample state: after `addWind([0,0,2])` and `applyForces(1/60)` the free
particle of `sampleSpringCloth` has `acc.z = 2`. -/
theorem applyForces_sets_acceleration_witness :
    (sampleSpringCloth ℝ).windForce = ⟨0, 0, 0⟩ ∧
      (⟨⟨0, -2, 1 / 1800⟩, ⟨0, -2, 0⟩, ⟨0, -9.81, 2⟩, false, ⟨0, -2, 0⟩⟩ : Particle ℝ)
        ∈ (((sampleSpringCloth ℝ).addWind ⟨0, 0, 2⟩).applyForces Real.sqrt (1 / 60)).particles ∧
      (⟨⟨0, -2, 1 / 1800⟩, ⟨0, -2, 0⟩, ⟨0, -9.81, 2⟩, false, ⟨0, -2, 0⟩⟩ : Particle ℝ).acc.z
        = 2 :=
  have hq : (⟨⟨0, -2, 1 / 1800⟩, ⟨0, -2, 0⟩, ⟨0, -9.81, 2⟩, false, ⟨0, -2, 0⟩⟩ : Particle ℝ)
      ∈ (((sampleSpringCloth ℝ).addWind ⟨0, 0, 2⟩).applyForces Real.sqrt (1 / 60)).particles := by
    norm_num [sampleSpringCloth, Cloth.applyForces, Cloth.addWind, accumulateForce,
      integrateParticle, Particle.new]
  ⟨rfl, hq,
    ((applyForces_sets_acceleration Real.sqrt (1 / 60) (sampleSpringCloth ℝ)).2 rfl _ hq rfl).2⟩

/-! ## C11, C12: wind -/

section Wind

variable {K : Type} [LinearOrderedField K]

/-- One relaxation iteration writes the particle array only. -/
theorem relaxOnce_frame (sqrt : K → K) (c : Cloth K) :
    ∃ ps, stateOf (relaxOnce sqrt c) = { c with particles := ps } := by
  unfold relaxOnce
  cases relaxSprings sqrt c.springs c.particles with
  | error ps => exact ⟨ps, rfl⟩
  | ok ps => exact ⟨collisionPass sqrt c.objectManager ps, rfl⟩

/-- `satisfyConstraints` writes the particle array only, whether it completes or not. -/
theorem satisfyConstraints_frame (sqrt : K → K) (n : Nat) (c : Cloth K) :
    ∃ ps, stateOf (c.satisfyConstraints sqrt n) = { c with particles := ps } := by
  induction n generalizing c with
  | zero => exact ⟨c.particles, rfl⟩
  | succ k ih =>
    obtain ⟨ps, h⟩ := relaxOnce_frame sqrt c
    unfold Cloth.satisfyConstraints
    cases hr : relaxOnce sqrt c with
    | error c1 =>
      rw [hr] at h
      exact ⟨ps, h⟩
    | ok c1 =>
      rw [hr] at h
      dsimp only
      obtain ⟨ps1, h1⟩ := ih c1
      have hc1 : c1 = { c with particles := ps } := h
      refine ⟨ps1, ?_⟩
      rw [h1, hc1]

theorem satisfyConstraints_windForce (sqrt : K → K) (n : Nat) (c : Cloth K) :
    (stateOf (c.satisfyConstraints sqrt n)).windForce = c.windForce := by
  obtain ⟨ps, h⟩ := satisfyConstraints_frame sqrt n c
  rw [h]

theorem satisfyConstraints_springs (sqrt : K → K) (n : Nat) (c : Cloth K) :
    (stateOf (c.satisfyConstraints sqrt n)).springs = c.springs := by
  obtain ⟨ps, h⟩ := satisfyConstraints_frame sqrt n c
  rw [h]

theorem renderStep_windForce (sqrt : K → K) (dt : K) (c : Cloth K) :
    (renderStep sqrt dt c).windForce
      = ⟨c.windForce.x * 0.95, c.windForce.y * 0.95, c.windForce.z * 0.95⟩ := by
  have h := satisfyConstraints_windForce sqrt 5 (c.applyForces sqrt dt)
  unfold renderStep
  cases hr : (c.applyForces sqrt dt).satisfyConstraints sqrt 5 with
  | error c1 =>
    rw [hr] at h
    exact h
  | ok c1 =>
    rw [hr] at h
    exact h

theorem runSteps_windForce (sqrt : K → K) (dts : List K) (c : Cloth K) :
    (runSteps sqrt dts c).windForce
      = ⟨0.95 ^ dts.length * c.windForce.x, 0.95 ^ dts.length * c.windForce.y,
          0.95 ^ dts.length * c.windForce.z⟩ := by
  unfold runSteps
  induction dts generalizing c with
  | nil => simp
  | cons dt dts ih =>
    rw [List.foldl_cons, ih, renderStep_windForce]
    simp only [List.length_cons, pow_succ, Vec3.mk.injEq]
    refine ⟨by ring, by ring, by ring⟩

end Wind

/-- C11: each call of `applyForces` multiplies every component of `windForce` by 0.95
once; `satisfyConstraints` leaves `windForce` unchanged (also when it raises); so after
`n` frames of the render loop `windForce = 0.95^n · w0`, and a wind of `(0,0,2)` is
`(0,0,1.9)` after one frame. -/
theorem wind_decays_geometrically {K : Type} [LinearOrderedField K] (sqrt : K → K)
    (c : Cloth K) (dt : K) (n : Nat) (dts : List K) :
    (c.applyForces sqrt dt).windForce
        = ⟨c.windForce.x * 0.95, c.windForce.y * 0.95, c.windForce.z * 0.95⟩ ∧
      (stateOf (c.satisfyConstraints sqrt n)).windForce = c.windForce ∧
      (runSteps sqrt dts c).windForce
        = ⟨0.95 ^ dts.length * c.windForce.x, 0.95 ^ dts.length * c.windForce.y,
            0.95 ^ dts.length * c.windForce.z⟩ ∧
      (c.windForce = ⟨0, 0, 2⟩ → (renderStep sqrt dt c).windForce = ⟨0, 0, 1.9⟩) := by
  refine ⟨rfl, satisfyConstraints_windForce sqrt n c, runSteps_windForce sqrt dts c, ?_⟩
  intro hw
  rw [renderStep_windForce, hw]
  simp only [Vec3.mk.injEq]
  refine ⟨by norm_num, by norm_num, by norm_num⟩

/-- C11 at a sample state: `sampleSpringCloth` after `addWind([0,0,2])`, one frame at
`dt = 1/60`. -/
theorem wind_decays_geometrically_witness :
    ((sampleSpringCloth ℝ).addWind ⟨0, 0, 2⟩).windForce = ⟨0, 0, 2⟩ ∧
      (renderStep Real.sqrt (1 / 60) ((sampleSpringCloth ℝ).addWind ⟨0, 0, 2⟩)).windForce
        = ⟨0, 0, 1.9⟩ :=
  have hw : ((sampleSpringCloth ℝ).addWind ⟨0, 0, 2⟩).windForce = ⟨0, 0, 2⟩ := by
    norm_num [sampleSpringCloth, Cloth.addWind]
  ⟨hw, (wind_decays_geometrically Real.sqrt ((sampleSpringCloth ℝ).addWind ⟨0, 0, 2⟩) (1 / 60) 5
    []).2.2.2 hw⟩

/-- C12: `addWind(f)` replaces `windForce` by `windForce + f` componentwise and changes
nothing else (no particle, no spring, no other field); hence `addWind(a)` followed by
`addWind(b)` gives the same state as `addWind(a + b)` and as `addWind(b)` followed by
`addWind(a)`. -/
theorem addWind_accumulates {K : Type} [LinearOrderedField K] (c : Cloth K) (f a b : Vec3 K) :
    c.addWind f = { c with windForce :=
        ⟨c.windForce.x + f.x, c.windForce.y + f.y, c.windForce.z + f.z⟩ } ∧
      (c.addWind f).particles = c.particles ∧ (c.addWind f).springs = c.springs ∧
      (c.addWind a).addWind b = c.addWind ⟨a.x + b.x, a.y + b.y, a.z + b.z⟩ ∧
      (c.addWind a).addWind b = (c.addWind b).addWind a := by
  refine ⟨rfl, rfl, rfl, ?_, ?_⟩
  · unfold Cloth.addWind
    simp only [add_assoc]
  · unfold Cloth.addWind
    simp only [add_right_comm]

/-! ## C15, C16: no-op calls and the collision dispatch -/

/-- C15: `Sphere.resolveCollision` leaves `pos` and `prev` unchanged whenever the
distance of the particle to the centre is `≥ radius` or exactly `0`, and
`Cube.resolveCollision` leaves them unchanged whenever `Cube.checkCollision` is false
for the particle position. -/
theorem resolveCollision_noop_outside {K : Type} [LinearOrderedField K] (sqrt : K → K)
    (s : Sphere K) (c : Cube K) (p prev : Vec3 K) :
    ((s.radius ≤ dist3 sqrt p s.position ∨ dist3 sqrt p s.position = 0) →
        s.resolveCollision sqrt p prev = (p, prev)) ∧
      (c.checkCollision p = false → c.resolveCollision p prev = (p, prev)) := by
  constructor
  · intro h
    have hc : ¬ (sqrt ((p.x - s.position.x) * (p.x - s.position.x)
        + (p.y - s.position.y) * (p.y - s.position.y)
        + (p.z - s.position.z) * (p.z - s.position.z)) < s.radius ∧
        sqrt ((p.x - s.position.x) * (p.x - s.position.x)
        + (p.y - s.position.y) * (p.y - s.position.y)
        + (p.z - s.position.z) * (p.z - s.position.z)) > 0) := by
      intro hh
      cases h with
      | inl h1 => exact absurd hh.1 (not_lt_of_ge h1)
      | inr h0 => exact absurd hh.2 (by rw [show sqrt _ = 0 from h0]; exact lt_irrefl _)
    unfold Sphere.resolveCollision
    dsimp only
    rw [if_neg hc]
  · intro h
    unfold Cube.resolveCollision
    rw [h]
    rfl

/-- C15 at sample inputs: the point `(3, 0, 0)` outside the sphere of radius 2 and
outside the cube of half size 1, both centred at the origin. -/
theorem resolveCollision_noop_outside_witness :
    (sampleSphere ℝ).radius ≤ dist3 Real.sqrt ⟨3, 0, 0⟩ (sampleSphere ℝ).position ∧
      (unitCube ℝ).checkCollision ⟨3, 0, 0⟩ = false ∧
      (sampleSphere ℝ).resolveCollision Real.sqrt ⟨3, 0, 0⟩ ⟨3, 0, 0⟩ = (⟨3, 0, 0⟩, ⟨3, 0, 0⟩) ∧
      (unitCube ℝ).resolveCollision ⟨3, 0, 0⟩ ⟨3, 0, 0⟩ = (⟨3, 0, 0⟩, ⟨3, 0, 0⟩) :=
  have h1 : (sampleSphere ℝ).radius ≤ dist3 Real.sqrt ⟨3, 0, 0⟩ (sampleSphere ℝ).position := by
    have e : dist3 Real.sqrt ⟨3, 0, 0⟩ (sampleSphere ℝ).position = 3 := by
      have h9 : (3 : ℝ) * 3 = 3 ^ 2 := by norm_num
      simp only [dist3, hypot3, sampleSphere, Sphere.new, sub_zero, mul_zero, add_zero, h9]
      exact Real.sqrt_sq (by norm_num)
    rw [e]
    norm_num [sampleSphere, Sphere.new]
  have h2 : (unitCube ℝ).checkCollision ⟨3, 0, 0⟩ = false := by
    norm_num [unitCube, Cube.new, Cube.checkCollision]
  ⟨h1, h2,
    (resolveCollision_noop_outside Real.sqrt (sampleSphere ℝ) (unitCube ℝ) ⟨3, 0, 0⟩
      ⟨3, 0, 0⟩).1 (Or.inl h1),
    (resolveCollision_noop_outside Real.sqrt (sampleSphere ℝ) (unitCube ℝ) ⟨3, 0, 0⟩
      ⟨3, 0, 0⟩).2 h2⟩

section Dispatch

variable {K : Type} [LinearOrderedField K]

theorem collideWith_invisible (sqrt : K → K) (p : Particle K) (obj : GeometricObject K)
    (h : obj.visible = false) : collideWith sqrt p obj = p := by
  unfold collideWith
  rw [h]
  simp

theorem foldl_collideWith_filter (sqrt : K → K) (objs : List (GeometricObject K))
    (p : Particle K) :
    (objs.filter GeometricObject.visible).foldl (collideWith sqrt) p
      = objs.foldl (collideWith sqrt) p := by
  induction objs generalizing p with
  | nil => rfl
  | cons o os ih =>
    cases ho : o.visible with
    | true =>
      rw [List.filter_cons_of_pos ho, List.foldl_cons, List.foldl_cons, ih]
    | false =>
      rw [List.filter_cons_of_neg (by rw [ho]; exact Bool.false_ne_true), List.foldl_cons, ih,
        collideWith_invisible sqrt p o ho]

theorem collideWith_eq_spec (sqrt : K → K) (q : Particle K) (obj : GeometricObject K) :
    collideWith sqrt q obj =
      if obj.visible = true ∧ obj.checkCollision sqrt q.pos = true then
        { q with pos := (obj.resolveCollision sqrt q.pos q.prev).1,
                 prev := (obj.resolveCollision sqrt q.pos q.prev).2 }
      else q := by
  unfold collideWith
  simp only [Bool.and_eq_true]

end Dispatch

/-- C16: `ObjectManager.checkCollisions(particle)` is the left fold over the collection,
in collection order, of: if the body is visible and its `checkCollision` holds for the
particle's current (possibly already corrected) position then apply its
`resolveCollision`, else leave the particle unchanged. So the first body acts first and
the others act on its result; a body with `visible = false` changes no particle and can
be dropped from the collection; and an empty collection makes the call a no-op. -/
theorem checkCollisions_is_left_fold {K : Type} [LinearOrderedField K] (sqrt : K → K)
    (objs : List (GeometricObject K)) (obj : GeometricObject K) (p : Particle K) :
    (⟨objs⟩ : ObjectManager K).checkCollisions sqrt p
        = (⟨objs⟩ : ObjectManager K).checkCollisionsSpec sqrt p ∧
      (⟨obj :: objs⟩ : ObjectManager K).checkCollisions sqrt p
        = (⟨objs⟩ : ObjectManager K).checkCollisions sqrt
            ((⟨[obj]⟩ : ObjectManager K).checkCollisions sqrt p) ∧
      (obj.visible = false → (⟨[obj]⟩ : ObjectManager K).checkCollisions sqrt p = p) ∧
      (⟨objs.filter GeometricObject.visible⟩ : ObjectManager K).checkCollisions sqrt p
        = (⟨objs⟩ : ObjectManager K).checkCollisions sqrt p ∧
      (⟨[]⟩ : ObjectManager K).checkCollisions sqrt p = p := by
  refine ⟨?_, rfl, ?_, foldl_collideWith_filter sqrt objs p, rfl⟩
  · unfold ObjectManager.checkCollisions ObjectManager.checkCollisionsSpec
    congr 1
    funext q o
    exact collideWith_eq_spec sqrt q o
  · intro h
    exact collideWith_invisible sqrt p obj h

/-- C16 at a sample input: a hidden copy of `sampleSphere` leaves a particle at
`(1, 0, 0)`, which is inside it, where it is. -/
theorem checkCollisions_is_left_fold_witness :
    (GeometricObject.sphere { sampleSphere ℝ with visible := false }).visible = false ∧
      (⟨[.sphere { sampleSphere ℝ with visible := false }]⟩ : ObjectManager ℝ).checkCollisions
        Real.sqrt (Particle.new 1 0 0 false) = Particle.new 1 0 0 false :=
  ⟨rfl, (checkCollisions_is_left_fold Real.sqrt []
    (.sphere { sampleSphere ℝ with visible := false }) (Particle.new 1 0 0 false)).2.2.1 rfl⟩

/-! ## C17: free fall of the bodies -/

theorem setMotion_position {K : Type} (p v : Vec3 K) (obj : GeometricObject K) :
    (obj.setMotion p v).position = p := by
  cases obj <;> rfl

theorem setMotion_velocity {K : Type} (p v : Vec3 K) (obj : GeometricObject K) :
    (obj.setMotion p v).velocity = v := by
  cases obj <;> rfl

section BodyMotion

variable {K : Type} [LinearOrderedField K]

theorem updateBody_eq_spec (dt : K) (obj : GeometricObject K) :
    updateBody dt obj = obj.setMotion (bodyMotionSpec dt obj.position obj.velocity).1
      (bodyMotionSpec dt obj.position obj.velocity).2 := by
  unfold updateBody bodyMotionSpec
  simp only [zero_mul, add_zero]
  have hy : obj.velocity.y + -9.81 * dt = obj.velocity.y - 9.81 * dt := by ring
  rw [hy]
  split
  · simp only [Vec3.mk.injEq]
    congr 2 <;> ring
  · rfl

theorem bodyMotionSpec_above_ground (dt : K) (p v : Vec3 K) :
    -1.8 ≤ (bodyMotionSpec dt p v).1.y := by
  unfold bodyMotionSpec
  dsimp only
  split
  · exact le_refl _
  · rename_i h
    exact le_of_not_gt h

end BodyMotion

/-- C17: `ObjectManager.updatePhysics(dt)` maps every body (visible or not), with
velocity `v` and position `p`, to `v1 = v + (0, −9.81·dt, 0)` and `p1 = p + v1·dt`; if
`p1.y < −1.8` it then sets `p1.y = −1.8`, `v1.y := −0.3·v1.y`, `v1.x := 0.99·v1.x` and
`v1.z := 0.99·v1.z`; nothing else of the body changes. Consequently every body has
`position.y ≥ −1.8` after the call. -/
theorem updatePhysics_free_fall {K : Type} [LinearOrderedField K] (dt : K)
    (om : ObjectManager K) :
    (om.updatePhysics dt).objects = om.objects.map (fun obj =>
        obj.setMotion (bodyMotionSpec dt obj.position obj.velocity).1
          (bodyMotionSpec dt obj.position obj.velocity).2) ∧
      (om.updatePhysics dt).objects.map (fun obj => (obj.position, obj.velocity))
        = om.objects.map (fun obj => bodyMotionSpec dt obj.position obj.velocity) ∧
      ∀ obj ∈ (om.updatePhysics dt).objects, -1.8 ≤ obj.position.y := by
  have h1 : (om.updatePhysics dt).objects = om.objects.map (fun obj =>
      obj.setMotion (bodyMotionSpec dt obj.position obj.velocity).1
        (bodyMotionSpec dt obj.position obj.velocity).2) := by
    unfold ObjectManager.updatePhysics
    apply List.map_congr_left
    intro obj _
    exact updateBody_eq_spec dt obj
  refine ⟨h1, ?_, ?_⟩
  · rw [h1, List.map_map]
    apply List.map_congr_left
    intro obj _
    simp only [Function.comp_apply, setMotion_position, setMotion_velocity]
  · intro obj hobj
    rw [h1] at hobj
    obtain ⟨o, _, rfl⟩ := List.mem_map.mp hobj
    rw [setMotion_position]
    exact bodyMotionSpec_above_ground dt _ _

/-- C17 at a sample input: `sampleSphere` at rest at the origin, `dt = 1/10`. -/
theorem updatePhysics_free_fall_witness :
    GeometricObject.sphere
        { sampleSphere ℝ with position := ⟨0, -(981 / 10000), 0⟩, velocity := ⟨0, -(981 / 1000), 0⟩ }
        ∈ ((⟨[.sphere (sampleSphere ℝ)]⟩ : ObjectManager ℝ).updatePhysics (1 / 10)).objects ∧
      -1.8 ≤ (GeometricObject.sphere { sampleSphere ℝ with
        position := ⟨0, -(981 / 10000), 0⟩, velocity := ⟨0, -(981 / 1000), 0⟩ }).position.y :=
  have hm : GeometricObject.sphere
      { sampleSphere ℝ with position := ⟨0, -(981 / 10000), 0⟩, velocity := ⟨0, -(981 / 1000), 0⟩ }
      ∈ ((⟨[.sphere (sampleSphere ℝ)]⟩ : ObjectManager ℝ).updatePhysics (1 / 10)).objects := by
    norm_num [ObjectManager.updatePhysics, updateBody, GeometricObject.setMotion,
      GeometricObject.position, GeometricObject.velocity, sampleSphere, Sphere.new]
  ⟨hm, (updatePhysics_free_fall (1 / 10) (⟨[.sphere (sampleSphere ℝ)]⟩ : ObjectManager ℝ)).2.2
    _ hm⟩

/-! ## C18, C19, C20: `deformCloth` -/

section Deform

variable {K : Type} [LinearOrderedField K]

/-- Effect of `deformOther` on a particle that is not the dragged one. -/
theorem deformOther_of_ne (sqrt : K → K) (i : Nat) (target force : Vec3 K) (j : Nat)
    (p : Particle K) (hj : j ≠ i) :
    deformOther sqrt i target force j p =
      { p with pos :=
          if p.pinned = false ∧ dist3 sqrt p.pos target < 0.3 then
            ⟨p.pos.x + force.x * (0.3 * (1 - dist3 sqrt p.pos target / 0.3)),
              p.pos.y + force.y * (0.3 * (1 - dist3 sqrt p.pos target / 0.3)),
              p.pos.z + force.z * (0.3 * (1 - dist3 sqrt p.pos target / 0.3))⟩
          else p.pos } := by
  obtain ⟨pos, prev, acc, pinned, orig⟩ := p
  unfold deformOther dist3
  simp only [hj, if_false]
  cases pinned with
  | true => simp
  | false =>
    simp only [Bool.false_eq_true, if_false, true_and]
    split <;> rfl

end Deform

/-- C18: for a non-pinned target particle `i` and force `f`, `deformCloth(i, f)`
completes; it sets `pos_i := pos_i + f`, and for every other non-pinned particle `j`
whose distance `d` to the already displaced target position is `< 0.3` it sets
`pos_j := pos_j + f·0.3·(1 − d/0.3)`; every other position, every `prev`, `acc`,
`pinned` and `originalPos`, the number of particles, `windForce`, the springs and the
manager are unchanged. -/
theorem deformCloth_moves_target_and_neighbours {K : Type} [LinearOrderedField K]
    (sqrt : K → K) (c : Cloth K) (i : Nat) (f : Vec3 K) (t : Particle K)
    (hi : c.particles[i]? = some t) (hfree : t.pinned = false) :
    ∃ c1, deformCloth sqrt (some i) f c = .ok c1 ∧
      c1.windForce = c.windForce ∧ c1.springs = c.springs ∧
      c1.objectManager = c.objectManager ∧ c1.particles.length = c.particles.length ∧
      ∀ j p, c.particles[j]? = some p →
        ∃ q, c1.particles[j]? = some q ∧ q.prev = p.prev ∧ q.acc = p.acc ∧
          q.pinned = p.pinned ∧ q.originalPos = p.originalPos ∧
          q.pos =
            if j = i then ⟨p.pos.x + f.x, p.pos.y + f.y, p.pos.z + f.z⟩
            else if p.pinned = false ∧
                dist3 sqrt p.pos ⟨t.pos.x + f.x, t.pos.y + f.y, t.pos.z + f.z⟩ < 0.3 then
              ⟨p.pos.x + f.x * (0.3 * (1 - dist3 sqrt p.pos
                  ⟨t.pos.x + f.x, t.pos.y + f.y, t.pos.z + f.z⟩ / 0.3)),
                p.pos.y + f.y * (0.3 * (1 - dist3 sqrt p.pos
                  ⟨t.pos.x + f.x, t.pos.y + f.y, t.pos.z + f.z⟩ / 0.3)),
                p.pos.z + f.z * (0.3 * (1 - dist3 sqrt p.pos
                  ⟨t.pos.x + f.x, t.pos.y + f.y, t.pos.z + f.z⟩ / 0.3))⟩
            else p.pos := by
  refine ⟨{ c with particles :=
      (List.mapIdx (deformOther sqrt i ⟨t.pos.x + f.x, t.pos.y + f.y, t.pos.z + f.z⟩ f)
        (List.modify (fun q => { q with pos := ⟨t.pos.x + f.x, t.pos.y + f.y, t.pos.z + f.z⟩ })
          i c.particles)) },
    ?_, rfl, rfl, rfl, ?_, ?_⟩
  · unfold deformCloth
    simp only [hi, hfree, Bool.false_eq_true, if_false]
  · simp
  · intro j p hj
    rw [List.getElem?_mapIdx, List.getElem?_modify, hj]
    by_cases hji : j = i
    · subst hji
      rw [hj] at hi
      cases hi
      simp [deformOther]
    · have hij : ¬ i = j := fun h => hji h.symm
      simp only [hij, if_false, Option.map_some', hji]
      refine ⟨_, rfl, ?_⟩
      rw [deformOther_of_ne sqrt i _ f j p hji]
      exact ⟨rfl, rfl, rfl, rfl, rfl⟩

/-- C18 at a sample state: dragging the free particle of `sampleSpringCloth` by
`(0, 0, 1)`. -/
theorem deformCloth_moves_target_and_neighbours_witness :
    (sampleSpringCloth ℝ).particles[1]? = some (Particle.new (0 : ℝ) (-2) 0 false) ∧
      (Particle.new (0 : ℝ) (-2) 0 false).pinned = false ∧
      ∃ c1, deformCloth Real.sqrt (some 1) ⟨0, 0, 1⟩ (sampleSpringCloth ℝ) = .ok c1 ∧
        c1.windForce = (sampleSpringCloth ℝ).windForce ∧
        c1.particles.length = (sampleSpringCloth ℝ).particles.length :=
  match deformCloth_moves_target_and_neighbours Real.sqrt (sampleSpringCloth ℝ) 1 ⟨0, 0, 1⟩
    (Particle.new 0 (-2) 0 false) rfl rfl with
  | ⟨c1, h1, h2, _, _, h5, _⟩ => ⟨rfl, rfl, c1, h1, h2, h5⟩

/-- C19: for every target index (`null`, dangling, pinned or not) and every force,
`deformCloth` leaves every pinned particle pinned, at the same index, with `pos` and
`prev` unchanged. -/
theorem deformCloth_keeps_pinned {K : Type} [LinearOrderedField K] (sqrt : K → K)
    (particleIndex : Option Nat) (f : Vec3 K) (c : Cloth K) (j : Nat) (p : Particle K)
    (hj : c.particles[j]? = some p) (hp : p.pinned = true) :
    ∃ q, (stateOf (deformCloth sqrt particleIndex f c)).particles[j]? = some q ∧
      q.pinned = true ∧ q.pos = p.pos ∧ q.prev = p.prev := by
  obtain ⟨q, hq, hk⟩ := getElem?_of_map_eq pinnedView
    (deformCloth_pinnedView sqrt particleIndex f c) hj
  refine ⟨q, hq, ?_⟩
  have hqp : q.pinned = true := by rw [pinned_eq_of_pinnedView hk, hp]
  simp only [pinnedView, hqp, hp, if_true, Prod.mk.injEq, Option.some.injEq, true_and] at hk
  exact ⟨hqp, hk.2.1, hk.2.2.1⟩

/-- C19 at a sample state: dragging the free particle of `samplePinnedDragCloth`, whose
pinned neighbour is within the influence radius. -/
theorem deformCloth_keeps_pinned_witness :
    (samplePinnedDragCloth ℝ).particles[0]? = some (Particle.new 0 0 0 true) ∧
      (Particle.new (0 : ℝ) 0 0 true).pinned = true ∧
      ∃ q, (stateOf (deformCloth Real.sqrt (some 1) ⟨0, 0, 1⟩
          (samplePinnedDragCloth ℝ))).particles[0]? = some q ∧
        q.pinned = true ∧ q.pos = (Particle.new (0 : ℝ) 0 0 true).pos ∧
        q.prev = (Particle.new (0 : ℝ) 0 0 true).prev :=
  ⟨rfl, rfl, deformCloth_keeps_pinned Real.sqrt (some 1) ⟨0, 0, 1⟩ (samplePinnedDragCloth ℝ) 0
    (Particle.new 0 0 0 true) rfl rfl⟩

/-- C20 (as stated, refuted): in `samplePinnedDragCloth` the target (index 0) is pinned
and the free particle (index 1) lies at distance `0.1 < 0.3` from it, so its
falloff-weighted fraction of the force `(0, 0, 1)` would be `0.3·(1 − 0.1/0.3) = 0.2`;
yet `deformCloth(0, (0,0,1))` returns the state unchanged and the free particle keeps
`pos.z = 0`. -/
theorem deformCloth_pinned_target_moves_nothing :
    (samplePinnedDragCloth ℝ).particles[0]? = some (Particle.new 0 0 0 true) ∧
      (Particle.new (0 : ℝ) 0 0 true).pinned = true ∧
      (samplePinnedDragCloth ℝ).particles[1]? = some (Particle.new (0 : ℝ) (-0.1) 0 false) ∧
      (Particle.new (0 : ℝ) (-0.1) 0 false).pinned = false ∧
      dist3 Real.sqrt (Particle.new (0 : ℝ) (-0.1) 0 false).pos
        (Particle.new (0 : ℝ) 0 0 true).pos = 0.1 ∧
      (0.1 : ℝ) < 0.3 ∧ (1 : ℝ) * (0.3 * (1 - 0.1 / 0.3)) = 0.2 ∧
      deformCloth Real.sqrt (some 0) ⟨0, 0, 1⟩ (samplePinnedDragCloth ℝ)
        = .ok (samplePinnedDragCloth ℝ) ∧
      (stateOf (deformCloth Real.sqrt (some 0) ⟨0, 0, 1⟩
        (samplePinnedDragCloth ℝ))).particles[1]? = some (Particle.new (0 : ℝ) (-0.1) 0 false) ∧
      (Particle.new (0 : ℝ) (-0.1) 0 false).pos.z ≠ 0 + 0.2 := by
  refine ⟨rfl, rfl, rfl, rfl, ?_, by norm_num, by norm_num, rfl, rfl, ?_⟩
  · simp only [dist3, Particle.new, sub_self, sub_zero, hypot3_vertical]
    rw [abs_of_neg (by norm_num)]
    norm_num
  · norm_num [Particle.new]

/-- C20 (amended): when the target particle of `deformCloth` is pinned the call returns
at once (`if (particle.pinned) return`): neither the target nor any other particle is
moved, and the whole cloth state is unchanged. -/
theorem deformCloth_pinned_target_is_noop {K : Type} [LinearOrderedField K] (sqrt : K → K)
    (c : Cloth K) (i : Nat) (f : Vec3 K) (t : Particle K) (hi : c.particles[i]? = some t)
    (hp : t.pinned = true) : deformCloth sqrt (some i) f c = .ok c := by
  unfold deformCloth
  simp only [hi, hp, if_true]

/-- C20 (amended) at a sample state: index 0 of `samplePinnedDragCloth`. -/
theorem deformCloth_pinned_target_is_noop_witness :
    (samplePinnedDragCloth ℝ).particles[0]? = some (Particle.new 0 0 0 true) ∧
      (Particle.new (0 : ℝ) 0 0 true).pinned = true ∧
      deformCloth Real.sqrt (some 0) ⟨0, 0, 1⟩ (samplePinnedDragCloth ℝ)
        = .ok (samplePinnedDragCloth ℝ) :=
  ⟨rfl, rfl, deformCloth_pinned_target_is_noop Real.sqrt (samplePinnedDragCloth ℝ) 0 ⟨0, 0, 1⟩
    (Particle.new 0 0 0 true) rfl rfl⟩

/-! ## C13, C14: the constructor -/

theorem flatMap_range_map_length {α : Type} (g : Nat → Nat → α) (n m : Nat) :
    ((List.range n).flatMap fun y => (List.range m).map (g y)).length = n * m := by
  induction n with
  | zero => simp
  | succ n ih =>
    rw [List.range_succ, List.flatMap_append, List.length_append, ih]
    simp [Nat.succ_mul]

theorem flatMap_range_map_getElem? {α : Type} (g : Nat → Nat → α) (n m y x : Nat) (hy : y < n)
    (hx : x < m) :
    ((List.range n).flatMap fun y => (List.range m).map (g y))[y * m + x]? = some (g y x) := by
  induction n with
  | zero => omega
  | succ n ih =>
    rw [List.range_succ, List.flatMap_append]
    by_cases hyn : y < n
    · rw [List.getElem?_append_left, ih hyn]
      rw [flatMap_range_map_length]
      calc y * m + x < y * m + m := by omega
        _ = (y + 1) * m := by ring
        _ ≤ n * m := Nat.mul_le_mul_right m hyn
    · have hyeq : y = n := by omega
      subst hyeq
      rw [List.getElem?_append_right (by rw [flatMap_range_map_length]; omega),
        flatMap_range_map_length]
      simp [List.getElem?_range hx]

section Grid

variable {K : Type} [LinearOrderedField K]

theorem gridParticles_length (width height : K) (cols rows : Nat) :
    (gridParticles width height cols rows).length = (cols + 1) * (rows + 1) := by
  unfold gridParticles
  rw [flatMap_range_map_length (fun y x => gridParticle width height cols rows x y), Nat.mul_comm]

theorem gridParticles_getElem? (width height : K) (cols rows x y : Nat) (hx : x ≤ cols)
    (hy : y ≤ rows) :
    (gridParticles width height cols rows)[gridIdx cols x y]?
      = some (gridParticle width height cols rows x y) := by
  unfold gridParticles gridIdx
  exact flatMap_range_map_getElem? (fun y x => gridParticle width height cols rows x y)
    (rows + 1) (cols + 1) y x (by omega) (by omega)
end Grid


/-- C13: for all `width`, `height` and all `cols ≥ 1`, `rows ≥ 1`,
`new Cloth(width, height, cols, rows)` has exactly `(cols+1)·(rows+1)` particles, and
the particle at index `row·(cols+1)+col` (`col ≤ cols`, `row ≤ rows`) has
`pos = prev = originalPos = ((col/cols − 0.5)·width, (0.5 − row/rows)·height, 0)`,
`acc = (0,0,0)`, and is pinned if and only if `row = 0` and `col mod 5 = 0`. (The bounds
on `cols` and `rows` keep the divisions of the source meaningful.) -/
theorem constructor_builds_particle_grid {K : Type} [LinearOrderedField K] (sqrt : K → K)
    (width height : K) (cols rows : Nat) (_hc : 1 ≤ cols) (_hr : 1 ≤ rows) :
    (Cloth.new sqrt width height cols rows).particles.length = (cols + 1) * (rows + 1) ∧
      ∀ col row, col ≤ cols → row ≤ rows →
        ∃ p, (Cloth.new sqrt width height cols rows).particles[row * (cols + 1) + col]? = some p ∧
          p.pos = ⟨((col : K) / (cols : K) - 0.5) * width,
            (0.5 - (row : K) / (rows : K)) * height, 0⟩ ∧
          p.prev = p.pos ∧ p.originalPos = p.pos ∧ p.acc = ⟨0, 0, 0⟩ ∧
          (p.pinned = true ↔ row = 0 ∧ col % 5 = 0) := by
  refine ⟨gridParticles_length width height cols rows, ?_⟩
  intro col row hcol hrow
  refine ⟨gridParticle width height cols rows col row,
    gridParticles_getElem? width height cols rows col row hcol hrow, rfl, rfl, rfl, rfl, ?_⟩
  simp [gridParticle, Particle.new]

/-- C13 at a sample input: the cloth of the page, `new Cloth(2, 2, 30, 20)`, has
`31·21` particles. -/
theorem constructor_builds_particle_grid_witness :
    1 ≤ 30 ∧ 1 ≤ 20 ∧
      (Cloth.new Real.sqrt 2 2 30 20).particles.length = (30 + 1) * (20 + 1) :=
  ⟨by decide, by decide,
    (constructor_builds_particle_grid Real.sqrt 2 2 30 20 (by decide) (by decide)).1⟩

theorem grid_dist (w h : ℝ) (cols rows x1 y1 x2 y2 : Nat) :
    dist3 Real.sqrt (gridParticle w h cols rows x2 y2).pos (gridParticle w h cols rows x1 y1).pos
      = Real.sqrt ((((x2 : ℝ) - x1) * (w / cols)) ^ 2 + (((y1 : ℝ) - y2) * (h / rows)) ^ 2) := by
  unfold dist3 hypot3 gridParticle Particle.new
  dsimp only
  congr 1
  ring

theorem spring_between (w h : ℝ) (cols rows x1 y1 x2 y2 : Nat) (h1 : x1 ≤ cols) (h2 : y1 ≤ rows)
    (h3 : x2 ≤ cols) (h4 : y2 ≤ rows) (s : Spring ℝ) (ha : s.a = gridIdx cols x1 y1)
    (hb : s.b = gridIdx cols x2 y2)
    (hrest : s.rest
      = Real.sqrt ((((x2 : ℝ) - x1) * (w / cols)) ^ 2 + (((y1 : ℝ) - y2) * (h / rows)) ^ 2)) :
    ∃ A B, (gridParticles w h cols rows)[s.a]? = some A ∧
      (gridParticles w h cols rows)[s.b]? = some B ∧ s.rest = dist3 Real.sqrt B.pos A.pos := by
  refine ⟨gridParticle w h cols rows x1 y1, gridParticle w h cols rows x2 y2, ?_, ?_, ?_⟩
  · rw [ha]; exact gridParticles_getElem? w h cols rows x1 y1 h1 h2
  · rw [hb]; exact gridParticles_getElem? w h cols rows x2 y2 h3 h4
  · rw [hrest, grid_dist]

theorem structural_rest (w h : ℝ) (cols rows : Nat) (hw : 0 < w) (hh : 0 < h) (s : Spring ℝ)
    (hs : s ∈ structuralSprings w h cols rows) :
    ∃ A B, (gridParticles w h cols rows)[s.a]? = some A ∧
      (gridParticles w h cols rows)[s.b]? = some B ∧ s.rest = dist3 Real.sqrt B.pos A.pos := by
  have hwc : 0 ≤ w / cols := div_nonneg (le_of_lt hw) (Nat.cast_nonneg _)
  have hhr : 0 ≤ h / rows := div_nonneg (le_of_lt hh) (Nat.cast_nonneg _)
  simp only [structuralSprings, List.mem_flatMap, List.mem_range, List.mem_append] at hs
  obtain ⟨y, hy, x, hx, hs⟩ := hs
  rcases hs with hs | hs
  · split at hs
    · rename_i hxc
      simp only [List.mem_singleton] at hs
      subst hs
      apply spring_between w h cols rows x y (x + 1) y (by omega) (by omega) (by omega) (by omega)
        _ rfl rfl
      dsimp only
      push_cast
      rw [show ((x : ℝ) + 1 - x) * (w / cols) = w / cols by ring,
        show ((y : ℝ) - y) * (h / rows) = 0 by ring,
        show (w / (cols : ℝ)) ^ 2 + 0 ^ 2 = (w / cols) ^ 2 by ring, Real.sqrt_sq hwc]
    · simp at hs
  · split at hs
    · rename_i hyr
      simp only [List.mem_singleton] at hs
      subst hs
      apply spring_between w h cols rows x y x (y + 1) (by omega) (by omega) (by omega) (by omega)
        _ rfl rfl
      dsimp only
      push_cast
      rw [show ((x : ℝ) - x) * (w / cols) = 0 by ring,
        show ((y : ℝ) - (y + 1)) * (h / rows) = -(h / rows) by ring,
        show (0 : ℝ) ^ 2 + (-(h / (rows : ℝ))) ^ 2 = (h / rows) ^ 2 by ring, Real.sqrt_sq hhr]
    · simp at hs

theorem shear_rest (w h : ℝ) (cols rows : Nat) (s : Spring ℝ)
    (hs : s ∈ shearSprings Real.sqrt w h cols rows) :
    ∃ A B, (gridParticles w h cols rows)[s.a]? = some A ∧
      (gridParticles w h cols rows)[s.b]? = some B ∧ s.rest = dist3 Real.sqrt B.pos A.pos := by
  simp only [shearSprings, List.mem_flatMap, List.mem_range, List.mem_cons, List.mem_singleton,
    List.not_mem_nil, or_false] at hs
  obtain ⟨y, hy, x, hx, hs⟩ := hs
  rcases hs with hs | hs
  · subst hs
    apply spring_between w h cols rows x y (x + 1) (y + 1) (by omega) (by omega) (by omega)
      (by omega) _ rfl rfl
    dsimp only
    push_cast
    congr 1
    ring
  · subst hs
    apply spring_between w h cols rows (x + 1) y x (y + 1) (by omega) (by omega) (by omega)
      (by omega) _ rfl rfl
    dsimp only
    push_cast
    congr 1
    ring

theorem bendingX_rest (w h : ℝ) (cols rows : Nat) (hw : 0 < w) (s : Spring ℝ)
    (hs : s ∈ bendingSpringsX w cols rows) :
    ∃ A B, (gridParticles w h cols rows)[s.a]? = some A ∧
      (gridParticles w h cols rows)[s.b]? = some B ∧ s.rest = dist3 Real.sqrt B.pos A.pos := by
  have hwc : 0 ≤ 2 * w / cols := div_nonneg (by linarith) (Nat.cast_nonneg _)
  simp only [bendingSpringsX, List.mem_flatMap, List.mem_range, List.mem_map] at hs
  obtain ⟨y, hy, x, hx, hs⟩ := hs
  subst hs
  apply spring_between w h cols rows x y (x + 2) y (by omega) (by omega) (by omega) (by omega)
    _ rfl rfl
  dsimp only
  push_cast
  rw [show (((x : ℝ) + 2 - x) * (w / cols)) ^ 2 + (((y : ℝ) - y) * (h / rows)) ^ 2
    = (2 * w / cols) ^ 2 by ring, Real.sqrt_sq hwc]

theorem bendingY_rest (w h : ℝ) (cols rows : Nat) (hh : 0 < h) (s : Spring ℝ)
    (hs : s ∈ bendingSpringsY h cols rows) :
    ∃ A B, (gridParticles w h cols rows)[s.a]? = some A ∧
      (gridParticles w h cols rows)[s.b]? = some B ∧ s.rest = dist3 Real.sqrt B.pos A.pos := by
  have hhr : 0 ≤ 2 * h / rows := div_nonneg (by linarith) (Nat.cast_nonneg _)
  simp only [bendingSpringsY, List.mem_flatMap, List.mem_range, List.mem_map] at hs
  obtain ⟨y, hy, x, hx, hs⟩ := hs
  subst hs
  apply spring_between w h cols rows x y x (y + 2) (by omega) (by omega) (by omega) (by omega)
    _ rfl rfl
  dsimp only
  push_cast
  rw [show (((x : ℝ) - x) * (w / cols)) ^ 2 + (((y : ℝ) - (y + 2)) * (h / rows)) ^ 2
    = (2 * h / rows) ^ 2 by ring, Real.sqrt_sq hhr]


/-- C14: for all `width > 0`, `height > 0`, `cols ≥ 1`, `rows ≥ 1`, every spring built
by the `Cloth` constructor (structural, shear and bending) joins two particles of the
array and has `rest` equal to the Euclidean distance, over the reals, between the
positions these two particles have at construction; and `applyForces`,
`satisfyConstraints` (also when it raises), `reset` and `addWind` leave the list of
springs, hence every `a`, `b` and `rest`, unchanged. -/
theorem constructor_springs_at_rest (w h : ℝ) (cols rows : Nat) (hw : 0 < w) (hh : 0 < h)
    (_hc : 1 ≤ cols) (_hr : 1 ≤ rows) :
    (∀ s ∈ (Cloth.new Real.sqrt w h cols rows).springs,
        ∃ A B, (Cloth.new Real.sqrt w h cols rows).particles[s.a]? = some A ∧
          (Cloth.new Real.sqrt w h cols rows).particles[s.b]? = some B ∧
          s.rest = dist3 Real.sqrt B.pos A.pos) ∧
      ∀ (c : Cloth ℝ) (dt : ℝ) (n : Nat) (f : Vec3 ℝ),
        (c.applyForces Real.sqrt dt).springs = c.springs ∧
        (stateOf (c.satisfyConstraints Real.sqrt n)).springs = c.springs ∧
        c.reset.springs = c.springs ∧ (c.addWind f).springs = c.springs := by
  constructor
  · intro s hs
    simp only [Cloth.new, List.mem_append] at hs
    rcases hs with ((hs | hs) | hs) | hs
    · exact structural_rest w h cols rows hw hh s hs
    · exact shear_rest w h cols rows s hs
    · exact bendingX_rest w h cols rows hw s hs
    · exact bendingY_rest w h cols rows hh s hs
  · intro c dt n f
    exact ⟨rfl, satisfyConstraints_springs Real.sqrt n c, rfl, rfl⟩

/-- C14 at a sample input: the first structural spring of `new Cloth(2, 2, 1, 1)`. -/
theorem constructor_springs_at_rest_witness :
    (0 : ℝ) < 2 ∧ 1 ≤ 1 ∧
      (⟨0, 1, 2⟩ : Spring ℝ) ∈ (Cloth.new Real.sqrt 2 2 1 1).springs ∧
      ∃ A B, (Cloth.new Real.sqrt 2 2 1 1).particles[(⟨0, 1, 2⟩ : Spring ℝ).a]? = some A ∧
        (Cloth.new Real.sqrt 2 2 1 1).particles[(⟨0, 1, 2⟩ : Spring ℝ).b]? = some B ∧
        (⟨0, 1, 2⟩ : Spring ℝ).rest = dist3 Real.sqrt B.pos A.pos :=
  have hs : (⟨0, 1, 2⟩ : Spring ℝ) ∈ (Cloth.new Real.sqrt 2 2 1 1).springs := by
    simp [Cloth.new, structuralSprings, List.range_succ, gridIdx]
  ⟨by norm_num, by decide, hs,
    (constructor_springs_at_rest 2 2 1 1 (by norm_num) (by norm_num) (by decide)
      (by decide)).1 _ hs⟩

/-! ## C21, C22: grid lookups -/

theorem grid_index_bound (C R x y : Int) (hx0 : 0 ≤ x) (hx : x ≤ C) (hy0 : 0 ≤ y) (hy : y ≤ R) :
    0 ≤ y * (C + 1) + x ∧ y * (C + 1) + x < (C + 1) * (R + 1) := by
  constructor
  · nlinarith
  · nlinarith

/-- C21: `getParticleIndex(x, y)` returns `null` if and only if `x < 0` or `x > cols`
or `y < 0` or `y > rows`; otherwise it returns `y·(cols+1)+x`, which satisfies
`0 ≤ result < (cols+1)·(rows+1)`, and in a cloth built by the constructor this is the
index of a particle of the array. It is a total function: it never throws. -/
theorem getParticleIndex_bounds {K : Type} [LinearOrderedField K] (c : Cloth K) (x y : Int) :
    (c.getParticleIndex x y = none ↔
        x < 0 ∨ x > (c.cols : Int) ∨ y < 0 ∨ y > (c.rows : Int)) ∧
      (¬ (x < 0 ∨ x > (c.cols : Int) ∨ y < 0 ∨ y > (c.rows : Int)) →
        c.getParticleIndex x y = some (y * ((c.cols : Int) + 1) + x) ∧
        0 ≤ y * ((c.cols : Int) + 1) + x ∧
        y * ((c.cols : Int) + 1) + x < ((c.cols : Int) + 1) * ((c.rows : Int) + 1)) ∧
      ∀ (sqrt : K → K) (width height : K) (cols rows col row : Nat), col ≤ cols → row ≤ rows →
        (Cloth.new sqrt width height cols rows).getParticleIndex col row
          = some ((gridIdx cols col row : Nat) : Int) ∧
        ∃ p, (Cloth.new sqrt width height cols rows).particles[gridIdx cols col row]? = some p := by
  refine ⟨?_, ?_, ?_⟩
  · unfold Cloth.getParticleIndex
    split
    · rename_i h
      exact ⟨fun _ => h, fun _ => rfl⟩
    · rename_i h
      exact ⟨fun hh => (by cases hh), fun hh => absurd hh h⟩
  · intro h
    have h' := h
    simp only [not_or, not_lt, gt_iff_lt] at h'
    obtain ⟨hx0, hx, hy0, hy⟩ := h'
    refine ⟨?_, grid_index_bound _ _ x y hx0 hx hy0 hy⟩
    unfold Cloth.getParticleIndex
    rw [if_neg h]
  · intro sqrt width height cols rows col row hcol hrow
    constructor
    · unfold Cloth.getParticleIndex
      have h : ¬ ((col : Int) < 0 ∨ (col : Int) > ((Cloth.new sqrt width height cols rows).cols : Int)
          ∨ (row : Int) < 0 ∨ (row : Int) > ((Cloth.new sqrt width height cols rows).rows : Int)) := by
        simp only [Cloth.new, not_or, not_lt, gt_iff_lt]
        exact ⟨by omega, by omega, by omega, by omega⟩
      rw [if_neg h]
      simp only [Cloth.new, gridIdx]
      push_cast
      rfl
    · exact ⟨_, gridParticles_getElem? width height cols rows col row hcol hrow⟩

/-- C21 at a sample input: column 1, row 1 of `new Cloth(2, 2, 1, 1)` is index 3. -/
theorem getParticleIndex_bounds_witness :
    ¬ ((1 : Int) < 0 ∨ (1 : Int) > ((Cloth.new Real.sqrt 2 2 1 1).cols : Int) ∨ (1 : Int) < 0 ∨
        (1 : Int) > ((Cloth.new Real.sqrt 2 2 1 1).rows : Int)) ∧
      (Cloth.new Real.sqrt 2 2 1 1).getParticleIndex 1 1
        = some (1 * (((Cloth.new Real.sqrt 2 2 1 1).cols : Int) + 1) + 1) :=
  have h : ¬ ((1 : Int) < 0 ∨ (1 : Int) > ((Cloth.new Real.sqrt 2 2 1 1).cols : Int) ∨
      (1 : Int) < 0 ∨ (1 : Int) > ((Cloth.new Real.sqrt 2 2 1 1).rows : Int)) := by
    simp [Cloth.new]
  ⟨h, ((getParticleIndex_bounds (Cloth.new Real.sqrt 2 2 1 1) 1 1).2.1 h).1⟩

/-- C22 (as stated, refuted): `new Cloth(2, 2, 1, 1)` has 4 particles, indices 0 to 3;
for the out-of-range index 4 `getGridCoords` returns the pair `{x: 0, y: 2}` and for
`−1` the pair `{x: −1, y: −1}`, not a not-found result. -/
theorem getGridCoords_out_of_range_returns_pair :
    (Cloth.new Real.sqrt 2 2 1 1).particles.length = 4 ∧
      (Cloth.new Real.sqrt 2 2 1 1).getGridCoords 4 = some ⟨0, 2⟩ ∧
      (Cloth.new Real.sqrt 2 2 1 1).getGridCoords 4 ≠ none ∧
      (Cloth.new Real.sqrt 2 2 1 1).getGridCoords (-1) = some ⟨-1, -1⟩ ∧
      (Cloth.new Real.sqrt 2 2 1 1).getGridCoords (-1) ≠ none := by
  refine ⟨?_, rfl, ?_, rfl, ?_⟩
  · simp [Cloth.new, gridParticles_length]
  · simp [Cloth.getGridCoords]
  · simp [Cloth.getGridCoords]

/-- C22 (amended): `getGridCoords(index)` has no range check and never returns a
not-found result: for every integer index it returns the pair
`(index % (cols+1), floor(index / (cols+1)))`. For `0 ≤ index < (cols+1)·(rows+1)` the
pair is a grid position and `getParticleIndex` maps it back to `index`; for an index at
or above `(cols+1)·(rows+1)` the pair has `y > rows`, and for a negative index it has
`y < 0` (`getParticleIndex` answers `null` on both). -/
theorem getGridCoords_always_returns_pair {K : Type} [LinearOrderedField K] (c : Cloth K) (index : Int) :
    c.getGridCoords index
        = some ⟨Int.tmod index ((c.cols : Int) + 1), Int.fdiv index ((c.cols : Int) + 1)⟩ ∧
      c.getGridCoords index ≠ none ∧
      (0 ≤ index → index < ((c.cols : Int) + 1) * ((c.rows : Int) + 1) →
        ∃ g, c.getGridCoords index = some g ∧ 0 ≤ g.x ∧ g.x ≤ (c.cols : Int) ∧ 0 ≤ g.y ∧
          g.y ≤ (c.rows : Int) ∧ c.getParticleIndex g.x g.y = some index) ∧
      (((c.cols : Int) + 1) * ((c.rows : Int) + 1) ≤ index →
        ∃ g, c.getGridCoords index = some g ∧ (c.rows : Int) < g.y ∧
          c.getParticleIndex g.x g.y = none) ∧
      (index < 0 →
        ∃ g, c.getGridCoords index = some g ∧ g.y < 0 ∧ c.getParticleIndex g.x g.y = none) := by
  have hm : (0 : Int) < (c.cols : Int) + 1 := by omega
  refine ⟨rfl, by simp [Cloth.getGridCoords], ?_, ?_, ?_⟩
  · intro h0 h1
    refine ⟨_, rfl, ?_⟩
    dsimp only
    rw [Int.tmod_eq_emod h0 (le_of_lt hm), Int.fdiv_eq_ediv _ (le_of_lt hm)]
    have hx0 := Int.emod_nonneg index (ne_of_gt hm)
    have hx1 := Int.emod_lt_of_pos index hm
    have hy0 : 0 ≤ index / ((c.cols : Int) + 1) := Int.ediv_nonneg h0 (le_of_lt hm)
    have hy1 : index / ((c.cols : Int) + 1) < (c.rows : Int) + 1 :=
      Int.ediv_lt_of_lt_mul hm (by rw [mul_comm]; exact h1)
    refine ⟨hx0, by omega, hy0, by omega, ?_⟩
    unfold Cloth.getParticleIndex
    rw [if_neg (by
      simp only [not_or, not_lt, gt_iff_lt]
      exact ⟨hx0, by omega, hy0, by omega⟩)]
    congr 1
    have := Int.emod_add_ediv index ((c.cols : Int) + 1)
    linarith
  · intro h
    refine ⟨_, rfl, ?_⟩
    dsimp only
    rw [Int.fdiv_eq_ediv _ (le_of_lt hm)]
    have hy : (c.rows : Int) + 1 ≤ index / ((c.cols : Int) + 1) :=
      Int.le_ediv_of_mul_le hm (by rw [mul_comm]; exact h)
    refine ⟨by omega, ?_⟩
    unfold Cloth.getParticleIndex
    rw [if_pos (Or.inr (Or.inr (Or.inr (by omega))))]
  · intro h
    refine ⟨_, rfl, ?_⟩
    dsimp only
    rw [Int.fdiv_eq_ediv _ (le_of_lt hm)]
    have hy : index / ((c.cols : Int) + 1) < 0 := Int.ediv_neg' h hm
    refine ⟨hy, ?_⟩
    unfold Cloth.getParticleIndex
    rw [if_pos (Or.inr (Or.inr (Or.inl hy)))]

/-- C22 (amended) at a sample input: index 3 of `new Cloth(2, 2, 1, 1)`. -/
theorem getGridCoords_always_returns_pair_witness :
    (0 : Int) ≤ 3 ∧
      (3 : Int) < (((Cloth.new Real.sqrt 2 2 1 1).cols : Int) + 1)
        * (((Cloth.new Real.sqrt 2 2 1 1).rows : Int) + 1) ∧
      ∃ g, (Cloth.new Real.sqrt 2 2 1 1).getGridCoords 3 = some g ∧ 0 ≤ g.x ∧
        g.x ≤ ((Cloth.new Real.sqrt 2 2 1 1).cols : Int) ∧ 0 ≤ g.y ∧
        g.y ≤ ((Cloth.new Real.sqrt 2 2 1 1).rows : Int) ∧
        (Cloth.new Real.sqrt 2 2 1 1).getParticleIndex g.x g.y = some 3 :=
  have h1 : (3 : Int) < (((Cloth.new Real.sqrt 2 2 1 1).cols : Int) + 1)
      * (((Cloth.new Real.sqrt 2 2 1 1).rows : Int) + 1) := by
    simp [Cloth.new]
  ⟨by decide, h1,
    (getGridCoords_always_returns_pair (Cloth.new Real.sqrt 2 2 1 1) 3).2.2.1 (by decide) h1⟩

/-! ## C23: the constructors do not validate -/

/-- C23 (as stated, refuted): `new Sphere([0,0,0], −1)` is a sphere of radius `−1`;
`new Cube([0,0,0], 0)` and `new Cube([0,0,0], −2)` are cubes of half size `0` and `−1`;
`new Cloth(−2, 0, 1, 1)` is a cloth of 4 particles and `new Cloth(2, 2, 0, 0)` a cloth
of 1 particle. None of the calls fails. -/
theorem constructors_accept_nonpositive_arguments :
    ((Sphere.new (⟨0, 0, 0⟩ : Vec3 ℝ) (-1)).radius = -1 ∧
        ¬ 0 < (Sphere.new (⟨0, 0, 0⟩ : Vec3 ℝ) (-1)).radius) ∧
      ((Cube.new (⟨0, 0, 0⟩ : Vec3 ℝ) 0).halfSize = 0 ∧
        ¬ 0 < (Cube.new (⟨0, 0, 0⟩ : Vec3 ℝ) 0).halfSize) ∧
      ((Cube.new (⟨0, 0, 0⟩ : Vec3 ℝ) (-2)).halfSize = -1 ∧
        ¬ 0 < (Cube.new (⟨0, 0, 0⟩ : Vec3 ℝ) (-2)).halfSize) ∧
      (Cloth.new Real.sqrt (-2) 0 1 1).particles.length = 4 ∧
      (Cloth.new Real.sqrt 2 2 0 0).particles.length = 1 := by
  refine ⟨⟨rfl, ?_⟩, ⟨?_, ?_⟩, ⟨?_, ?_⟩, ?_, ?_⟩
  · norm_num [Sphere.new]
  · norm_num [Cube.new]
  · norm_num [Cube.new]
  · norm_num [Cube.new]
  · norm_num [Cube.new]
  · simp [Cloth.new, gridParticles_length]
  · simp [Cloth.new, gridParticles_length]

theorem mem_range_loopCount {K : Type} [LinearOrderedField K] [FloorRing K] (n : K) (i : Nat) :
    i ∈ List.range (loopCount n) ↔ (i : K) ≤ n := by
  rw [List.mem_range, loopCount, Int.lt_toNat, Int.lt_add_one_iff, Int.le_floor]
  simp

theorem loopCount_of_neg {K : Type} [LinearOrderedField K] [FloorRing K] (n : K) (h : n < 0) :
    loopCount n = 0 := by
  have h1 : Int.floor n < 0 := Int.floor_lt.mpr (by simpa using h)
  unfold loopCount
  omega

theorem loopCount_of_nonneg {K : Type} [LinearOrderedField K] [FloorRing K] (n : K)
    (h : 0 ≤ n) : loopCount n = (Int.floor n).toNat + 1 := by
  have h1 : 0 ≤ Int.floor n := Int.floor_nonneg.mpr h
  unfold loopCount
  omega

theorem loopCount_natCast {K : Type} [LinearOrderedField K] [FloorRing K] (n : Nat) :
    loopCount (n : K) = n + 1 := by
  unfold loopCount
  rw [Int.floor_natCast]
  omega

theorem gridParticlesNum_length {K : Type} [LinearOrderedField K] [FloorRing K]
    (width height cols rows : K) :
    (gridParticlesNum width height cols rows).length = loopCount cols * loopCount rows := by
  unfold gridParticlesNum
  rw [flatMap_range_map_length (fun y x => gridParticleNum width height cols rows x y),
    Nat.mul_comm]

theorem gridParticlesNum_natCast {K : Type} [LinearOrderedField K] [FloorRing K]
    (width height : K) (cols rows : Nat) :
    gridParticlesNum width height (cols : K) (rows : K) = gridParticles width height cols rows := by
  unfold gridParticlesNum gridParticles
  rw [loopCount_natCast, loopCount_natCast]
  rfl

theorem gridParticlesNum_of_neg {K : Type} [LinearOrderedField K] [FloorRing K]
    (width height cols rows : K) (h : cols < 0 ∨ rows < 0) :
    gridParticlesNum width height cols rows = [] := by
  apply List.length_eq_zero.mp
  rw [gridParticlesNum_length]
  rcases h with h | h
  · rw [loopCount_of_neg cols h, Nat.zero_mul]
  · rw [loopCount_of_neg rows h, Nat.mul_zero]

/-- C23 (amended): the constructors validate nothing and never fail. For every position
and all numbers `radius`, `size`, `new Sphere(position, radius)` is a visible sphere at
rest with that radius and `new Cube(position, size)` a visible cube at rest with
`halfSize = size / 2`; so a constructed sphere has `radius > 0` exactly when the caller
passed `radius > 0`, and a cube `halfSize > 0` exactly when `size > 0`. For all numbers
`width`, `height` and all finite numbers `colsNum`, `rowsNum` passed as `cols` and `rows`,
of any sign and whole or not, the particle loops of `new Cloth` run once for each pair of
whole numbers `x`, `y ≥ 0` with `x ≤ colsNum` and `y ≤ rowsNum`: they build
`(⌊colsNum⌋+1)·(⌊rowsNum⌋+1)` particles when both counts are `≥ 0` (zero included) and
no particle when one of them is negative. For whole-number counts `cols, rows ≥ 0` these
are the `(cols+1)·(rows+1)` particles of the cloth, which stores `width`, `height`,
`cols` and `rows` as passed. -/
theorem constructors_do_not_validate {K : Type} [LinearOrderedField K] [FloorRing K]
    (sqrt : K → K) (position : Vec3 K) (radius size width height : K) (cols rows : Nat)
    (colsNum rowsNum : K) :
    Sphere.new position radius = ⟨position, ⟨0, 0, 0⟩, true, radius⟩ ∧
      (0 < (Sphere.new position radius).radius ↔ 0 < radius) ∧
      Cube.new position size = ⟨position, ⟨0, 0, 0⟩, true, size, size / 2⟩ ∧
      (0 < (Cube.new position size).halfSize ↔ 0 < size) ∧
      (Cloth.new sqrt width height cols rows).particles.length = (cols + 1) * (rows + 1) ∧
      (Cloth.new sqrt width height cols rows).width = width ∧
      (Cloth.new sqrt width height cols rows).height = height ∧
      (Cloth.new sqrt width height cols rows).cols = cols ∧
      (Cloth.new sqrt width height cols rows).rows = rows ∧
      (∀ x : Nat, x < loopCount colsNum ↔ (x : K) ≤ colsNum) ∧
      (∀ y : Nat, y < loopCount rowsNum ↔ (y : K) ≤ rowsNum) ∧
      (gridParticlesNum width height colsNum rowsNum).length
        = loopCount colsNum * loopCount rowsNum ∧
      (0 ≤ colsNum → 0 ≤ rowsNum →
        (gridParticlesNum width height colsNum rowsNum).length
          = ((Int.floor colsNum).toNat + 1) * ((Int.floor rowsNum).toNat + 1)) ∧
      (colsNum < 0 ∨ rowsNum < 0 → gridParticlesNum width height colsNum rowsNum = []) ∧
      gridParticlesNum width height (cols : K) (rows : K)
        = (Cloth.new sqrt width height cols rows).particles := by
  refine ⟨rfl, Iff.rfl, rfl, ?_, gridParticles_length width height cols rows, rfl, rfl, rfl, rfl,
    ?_, ?_, gridParticlesNum_length width height colsNum rowsNum, ?_,
    gridParticlesNum_of_neg width height colsNum rowsNum,
    gridParticlesNum_natCast width height cols rows⟩
  · show 0 < size / 2 ↔ 0 < size
    constructor
    · intro h
      linarith [half_pos h, add_halves size]
    · intro h
      exact half_pos h
  · intro x
    rw [← List.mem_range]
    exact mem_range_loopCount colsNum x
  · intro y
    rw [← List.mem_range]
    exact mem_range_loopCount rowsNum y
  · intro hc hr
    rw [gridParticlesNum_length, loopCount_of_nonneg colsNum hc, loopCount_of_nonneg rowsNum hr]

/-- C23 (amended), at the calls `new Cloth(2, 2, −2, −2)` and `new Cloth(2, 2, 1.5, 0.5)`:
the first builds no particle, the second the two particles of `x = 0, 1` and `y = 0`. -/
theorem constructors_do_not_validate_witness :
    (-2 : ℝ) < 0 ∧ gridParticlesNum (2 : ℝ) 2 (-2) (-2) = [] ∧
      (0 : ℝ) ≤ 1.5 ∧ (0 : ℝ) ≤ 0.5 ∧ (gridParticlesNum (2 : ℝ) 2 1.5 0.5).length = 2 := by
  have h1 : Int.floor (1.5 : ℝ) = 1 := by
    rw [Int.floor_eq_iff]
    norm_num
  have h2 : Int.floor (0.5 : ℝ) = 0 := by
    rw [Int.floor_eq_iff]
    norm_num
  have hw := (constructors_do_not_validate Real.sqrt (⟨0, 0, 0⟩ : Vec3 ℝ) (-1) (-2) 2 2 2 2
    1.5 0.5).2.2.2.2.2.2.2.2.2.2.2.2.1 (by norm_num) (by norm_num)
  rw [h1, h2] at hw
  exact ⟨by norm_num,
    (constructors_do_not_validate Real.sqrt (⟨0, 0, 0⟩ : Vec3 ℝ) (-1) (-2) 2 2 2 2
      (-2) (-2)).2.2.2.2.2.2.2.2.2.2.2.2.2.1 (Or.inl (by norm_num)),
    by norm_num, by norm_num, hw⟩

/-! ## C24, C25: Verlet integration and the ground plane -/

section Verlet

variable {K : Type} [LinearOrderedField K]

/-- The particle at index `i` after `applyForces`. -/
theorem applyForces_getElem? (sqrt : K → K) (dt : K) (c : Cloth K) (i : Nat) :
    (c.applyForces sqrt dt).particles[i]?
      = (c.particles[i]?).map (fun p =>
          integrateParticle sqrt c.objectManager (dt * dt) (accumulateForce c.windForce p)) := by
  unfold Cloth.applyForces
  simp only [List.getElem?_map, Option.map_map]
  rfl

theorem integrate_free_above (sqrt : K → K) (dt : K) (w : Vec3 K) (p : Particle K)
    (hfree : p.pinned = false)
    (hy : -2 ≤ p.pos.y + 0.99 * (p.pos.y - p.prev.y) + (-9.81 + w.y) * dt ^ 2) :
    integrateParticle sqrt none (dt * dt) (accumulateForce w p) =
      { p with
        pos := ⟨p.pos.x + 0.99 * (p.pos.x - p.prev.x) + w.x * dt ^ 2,
          p.pos.y + 0.99 * (p.pos.y - p.prev.y) + (-9.81 + w.y) * dt ^ 2,
          p.pos.z + 0.99 * (p.pos.z - p.prev.z) + w.z * dt ^ 2⟩
        prev := p.pos
        acc := ⟨w.x, -9.81 + w.y, w.z⟩ } := by
  obtain ⟨pos, prev, acc, pinned, orig⟩ := p
  dsimp only at hfree hy
  subst hfree
  have e : pos.y + ((pos.y - prev.y) * (1 - 0.01) + (-9.81 + w.y) * (dt * dt))
      = pos.y + 0.99 * (pos.y - prev.y) + (-9.81 + w.y) * dt ^ 2 := by ring
  simp only [integrateParticle, accumulateForce, Bool.false_eq_true, if_false, zero_add, e,
    not_lt.mpr hy]
  congr 1
  congr 1 <;> ring

theorem integrate_free_below (sqrt : K → K) (dt : K) (w : Vec3 K) (p : Particle K)
    (hfree : p.pinned = false)
    (hy : p.pos.y + 0.99 * (p.pos.y - p.prev.y) + (-9.81 + w.y) * dt ^ 2 < -2) :
    integrateParticle sqrt none (dt * dt) (accumulateForce w p) =
      { p with
        pos := ⟨p.pos.x + 0.99 * (p.pos.x - p.prev.x) + w.x * dt ^ 2, -2,
          p.pos.z + 0.99 * (p.pos.z - p.prev.z) + w.z * dt ^ 2⟩
        prev := ⟨p.pos.x, -2 + (-2 - p.pos.y) * 0.3, p.pos.z⟩
        acc := ⟨w.x, -9.81 + w.y, w.z⟩ } := by
  obtain ⟨pos, prev, acc, pinned, orig⟩ := p
  dsimp only at hfree hy
  subst hfree
  have e : pos.y + ((pos.y - prev.y) * (1 - 0.01) + (-9.81 + w.y) * (dt * dt))
      = pos.y + 0.99 * (pos.y - prev.y) + (-9.81 + w.y) * dt ^ 2 := by ring
  simp only [integrateParticle, accumulateForce, Bool.false_eq_true, if_false, zero_add, e, hy,
    if_true]
  congr 1
  congr 1 <;> ring

end Verlet

/-- C24: with no `ObjectManager` attached, for every non-pinned particle whose
integrated height stays `≥ −2`, `applyForces(dt)` gives
`pos' = pos + 0.99·(pos − prev) + (gravity + wind)·dt²` and `prev' = pos` (the position
before the update), where `gravity = (0, −9.81, 0)` and `wind` is `windForce` at the
start of the call. -/
theorem applyForces_verlet_update {K : Type} [LinearOrderedField K] (sqrt : K → K) (dt : K)
    (c : Cloth K) (i : Nat) (p : Particle K) (hom : c.objectManager = none)
    (hi : c.particles[i]? = some p) (hfree : p.pinned = false)
    (hy : -2 ≤ p.pos.y + 0.99 * (p.pos.y - p.prev.y) + (-9.81 + c.windForce.y) * dt ^ 2) :
    ∃ q, (c.applyForces sqrt dt).particles[i]? = some q ∧
      q.pos = ⟨p.pos.x + 0.99 * (p.pos.x - p.prev.x) + (0 + c.windForce.x) * dt ^ 2,
        p.pos.y + 0.99 * (p.pos.y - p.prev.y) + (-9.81 + c.windForce.y) * dt ^ 2,
        p.pos.z + 0.99 * (p.pos.z - p.prev.z) + (0 + c.windForce.z) * dt ^ 2⟩ ∧
      q.prev = p.pos := by
  refine ⟨integrateParticle sqrt none (dt * dt) (accumulateForce c.windForce p), ?_, ?_, ?_⟩
  · rw [applyForces_getElem?, hi, hom, Option.map_some']
  · rw [integrate_free_above sqrt dt c.windForce p hfree hy]
    simp only [zero_add]
  · rw [integrate_free_above sqrt dt c.windForce p hfree hy]

/-- C24 at a sample state: the free particle of `samplePinnedDragCloth`, `dt = 1/60`. -/
theorem applyForces_verlet_update_witness :
    (samplePinnedDragCloth ℝ).objectManager = none ∧
      (samplePinnedDragCloth ℝ).particles[1]? = some (Particle.new (0 : ℝ) (-0.1) 0 false) ∧
      (Particle.new (0 : ℝ) (-0.1) 0 false).pinned = false ∧
      ∃ q, ((samplePinnedDragCloth ℝ).applyForces Real.sqrt (1 / 60)).particles[1]? = some q ∧
        q.prev = (Particle.new (0 : ℝ) (-0.1) 0 false).pos :=
  match applyForces_verlet_update Real.sqrt (1 / 60) (samplePinnedDragCloth ℝ) 1
    (Particle.new (0 : ℝ) (-0.1) 0 false) rfl rfl rfl
    (by norm_num [samplePinnedDragCloth, Particle.new]) with
  | ⟨q, h1, _, h3⟩ => ⟨rfl, rfl, rfl, q, h1, h3⟩

/-- C25: with no `ObjectManager` attached, when the integrated height of a non-pinned
particle falls below `−2`, `applyForces` leaves it with `pos.y = −2` and
`prev.y = −2 + (−2 − y0)·0.3`, where `y0` is its `pos.y` before the step (the other
components are integrated as usual); its implicit vertical velocity `pos.y − prev.y` is
then `0.3·(y0 + 2)`, which is `≥ 0` whenever `y0 ≥ −2`. And after `applyForces` without
bodies every non-pinned particle has `pos.y ≥ −2`. -/
theorem applyForces_ground_bounce {K : Type} [LinearOrderedField K] (sqrt : K → K) (dt : K)
    (c : Cloth K) (hom : c.objectManager = none) :
    (∀ (i : Nat) (p : Particle K), c.particles[i]? = some p → p.pinned = false →
        p.pos.y + 0.99 * (p.pos.y - p.prev.y) + (-9.81 + c.windForce.y) * dt ^ 2 < -2 →
        ∃ q, (c.applyForces sqrt dt).particles[i]? = some q ∧
          q.pos.y = -2 ∧ q.prev.y = -2 + (-2 - p.pos.y) * 0.3 ∧
          q.pos.y - q.prev.y = 0.3 * (p.pos.y + 2) ∧
          (-2 ≤ p.pos.y → 0 ≤ q.pos.y - q.prev.y) ∧
          q.pos.x = p.pos.x + 0.99 * (p.pos.x - p.prev.x) + c.windForce.x * dt ^ 2 ∧
          q.pos.z = p.pos.z + 0.99 * (p.pos.z - p.prev.z) + c.windForce.z * dt ^ 2 ∧
          q.prev.x = p.pos.x ∧ q.prev.z = p.pos.z) ∧
      ∀ q ∈ (c.applyForces sqrt dt).particles, q.pinned = false → -2 ≤ q.pos.y := by
  constructor
  · intro i p hi hfree hy
    refine ⟨integrateParticle sqrt none (dt * dt) (accumulateForce c.windForce p), ?_, ?_⟩
    · rw [applyForces_getElem?, hi, hom, Option.map_some']
    · rw [integrate_free_below sqrt dt c.windForce p hfree hy]
      refine ⟨rfl, rfl, ?_, ?_, rfl, rfl, rfl, rfl⟩
      · dsimp only
        ring
      · intro h0
        dsimp only
        have : (0 : K) ≤ 0.3 * (p.pos.y + 2) := mul_nonneg (by norm_num) (by linarith)
        linarith
  · intro q hq hfree
    unfold Cloth.applyForces at hq
    simp only [List.mem_map, exists_exists_and_eq_and] at hq
    obtain ⟨p, _, rfl⟩ := hq
    rw [hom] at hfree ⊢
    have h1 := integrateParticle_pinnedView sqrt none (dt * dt) (accumulateForce c.windForce p)
    have h2 : (accumulateForce c.windForce p).pinned = false := by
      rw [← pinned_eq_of_pinnedView h1]
      exact hfree
    exact integrateParticle_ground sqrt (dt * dt) _ h2

/-- C25 at a sample state: the free particle of `sampleSpringCloth` starts on the plane
and is clamped back to it by `applyForces(1/60)`. -/
theorem applyForces_ground_bounce_witness :
    (sampleSpringCloth ℝ).objectManager = none ∧
      (sampleSpringCloth ℝ).particles[1]? = some (Particle.new (0 : ℝ) (-2) 0 false) ∧
      ∃ q : Particle ℝ,
        ((sampleSpringCloth ℝ).applyForces Real.sqrt (1 / 60)).particles[1]? = some q ∧
          q.pos.y = -2 :=
  match (applyForces_ground_bounce Real.sqrt (1 / 60) (sampleSpringCloth ℝ) rfl).1 1
    (Particle.new (0 : ℝ) (-2) 0 false) rfl rfl
    (by norm_num [sampleSpringCloth, Particle.new]) with
  | ⟨q, h1, h2, _⟩ => ⟨rfl, rfl, q, h1, h2⟩

/-! ## C26: one spring of the relaxation pass -/

theorem map_nonPosView_modify {K : Type} (g : Particle K → Vec3 K) (n : Nat) (l : List (Particle K)) :
    (l.modify (fun q => { q with pos := g q }) n).map nonPosView = l.map nonPosView :=
  map_modify_of_fixed nonPosView _ n l (fun _ _ => rfl)

section SpringPass

variable {K : Type} [LinearOrderedField K]

theorem springStep_nonPosView (sqrt : K → K) (ps ps1 : List (Particle K)) (s : Spring K)
    (h : springStep sqrt ps s = some ps1) : ps1.map nonPosView = ps.map nonPosView := by
  unfold springStep at h
  split at h
  · dsimp only at h
    split at h
    · cases h; rfl
    · split at h
      · cases h
        rw [map_nonPosView_modify, map_nonPosView_modify]
      · split at h
        · cases h
          rw [map_nonPosView_modify]
        · split at h
          · cases h
            rw [map_nonPosView_modify]
          · cases h; rfl
  · cases h

theorem relaxSprings_nonPosView (sqrt : K → K) (ss : List (Spring K)) (ps : List (Particle K)) :
    (stateOf (relaxSprings sqrt ss ps)).map nonPosView = ps.map nonPosView := by
  induction ss generalizing ps with
  | nil => rfl
  | cons s ss ih =>
    unfold relaxSprings
    cases h : springStep sqrt ps s with
    | none => rfl
    | some ps1 =>
      dsimp only
      rw [ih, springStep_nonPosView sqrt ps ps1 s h]

end SpringPass

/-- Over the reals a spring of non-zero length joins two different particles. -/
theorem spring_endpoints_ne (ps : List (Particle ℝ)) (s : Spring ℝ) (A B : Particle ℝ)
    (hA : ps[s.a]? = some A) (hB : ps[s.b]? = some B)
    (hD : dist3 Real.sqrt B.pos A.pos ≠ 0) : s.a ≠ s.b := by
  intro hab
  rw [hab, hB] at hA
  cases hA
  apply hD
  simp [dist3, hypot3]

/-- C26: processing one spring `(A, B, rest)` of `satisfyConstraints` over the reals,
with `d = B.pos − A.pos`, `dist = |d|` and `diff = (dist − rest)/dist`: if `dist = 0` or
both endpoints are pinned nothing changes; if both are free `A.pos += 0.4·diff·d` and
`B.pos −= 0.4·diff·d`; if only `A` is free `A.pos += 0.8·diff·d`; if only `B` is free
`B.pos −= 0.8·diff·d`; no other particle is touched. The spring pass changes no `prev`
(nor `acc`, `pinned`, `originalPos`) and keeps the number of particles, and
`satisfyConstraints(0)` is a no-op. -/
theorem springStep_corrections (ps : List (Particle ℝ)) (s : Spring ℝ) (A B : Particle ℝ)
    (hA : ps[s.a]? = some A) (hB : ps[s.b]? = some B) :
    ((dist3 Real.sqrt B.pos A.pos = 0 ∨ (A.pinned = true ∧ B.pinned = true)) →
        springStep Real.sqrt ps s = some ps) ∧
      (dist3 Real.sqrt B.pos A.pos ≠ 0 → A.pinned = false → B.pinned = false →
        ∃ ps1, springStep Real.sqrt ps s = some ps1 ∧
          ps1[s.a]? = some { A with pos :=
            (A.pos.add (Vec3.smul (0.4 * springDiff Real.sqrt A B s.rest) (B.pos.sub A.pos))) } ∧
          ps1[s.b]? = some { B with pos :=
            (B.pos.sub (Vec3.smul (0.4 * springDiff Real.sqrt A B s.rest) (B.pos.sub A.pos))) } ∧
          ∀ j, j ≠ s.a → j ≠ s.b → ps1[j]? = ps[j]?) ∧
      (dist3 Real.sqrt B.pos A.pos ≠ 0 → A.pinned = false → B.pinned = true →
        ∃ ps1, springStep Real.sqrt ps s = some ps1 ∧
          ps1[s.a]? = some { A with pos :=
            (A.pos.add (Vec3.smul (0.8 * springDiff Real.sqrt A B s.rest) (B.pos.sub A.pos))) } ∧
          ∀ j, j ≠ s.a → ps1[j]? = ps[j]?) ∧
      (dist3 Real.sqrt B.pos A.pos ≠ 0 → A.pinned = true → B.pinned = false →
        ∃ ps1, springStep Real.sqrt ps s = some ps1 ∧
          ps1[s.b]? = some { B with pos :=
            (B.pos.sub (Vec3.smul (0.8 * springDiff Real.sqrt A B s.rest) (B.pos.sub A.pos))) } ∧
          ∀ j, j ≠ s.b → ps1[j]? = ps[j]?) ∧
      (∀ ss : List (Spring ℝ),
        (stateOf (relaxSprings Real.sqrt ss ps)).map nonPosView = ps.map nonPosView) ∧
      ∀ c : Cloth ℝ, c.satisfyConstraints Real.sqrt 0 = .ok c := by
  have hstep : ∀ hD : dist3 Real.sqrt B.pos A.pos ≠ 0, springStep Real.sqrt ps s =
      (if !A.pinned && !B.pinned then
        some ((ps.modify (fun q => { q with pos :=
          ⟨q.pos.x + (B.pos.x - A.pos.x) * 0.5 * 0.8 * springDiff Real.sqrt A B s.rest,
            q.pos.y + (B.pos.y - A.pos.y) * 0.5 * 0.8 * springDiff Real.sqrt A B s.rest,
            q.pos.z + (B.pos.z - A.pos.z) * 0.5 * 0.8 * springDiff Real.sqrt A B s.rest⟩ }) s.a).modify
          (fun q => { q with pos :=
          ⟨q.pos.x - (B.pos.x - A.pos.x) * 0.5 * 0.8 * springDiff Real.sqrt A B s.rest,
            q.pos.y - (B.pos.y - A.pos.y) * 0.5 * 0.8 * springDiff Real.sqrt A B s.rest,
            q.pos.z - (B.pos.z - A.pos.z) * 0.5 * 0.8 * springDiff Real.sqrt A B s.rest⟩ }) s.b)
      else if !A.pinned then
        some (ps.modify (fun q => { q with pos :=
          ⟨q.pos.x + (B.pos.x - A.pos.x) * 0.8 * springDiff Real.sqrt A B s.rest,
            q.pos.y + (B.pos.y - A.pos.y) * 0.8 * springDiff Real.sqrt A B s.rest,
            q.pos.z + (B.pos.z - A.pos.z) * 0.8 * springDiff Real.sqrt A B s.rest⟩ }) s.a)
      else if !B.pinned then
        some (ps.modify (fun q => { q with pos :=
          ⟨q.pos.x - (B.pos.x - A.pos.x) * 0.8 * springDiff Real.sqrt A B s.rest,
            q.pos.y - (B.pos.y - A.pos.y) * 0.8 * springDiff Real.sqrt A B s.rest,
            q.pos.z - (B.pos.z - A.pos.z) * 0.8 * springDiff Real.sqrt A B s.rest⟩ }) s.b)
      else some ps) := by
    intro hD
    have hD1 : ¬ hypot3 Real.sqrt (B.pos.x - A.pos.x) (B.pos.y - A.pos.y) (B.pos.z - A.pos.z)
        = 0 := hD
    unfold springStep
    rw [hA, hB]
    dsimp only
    rw [if_neg hD1]
    rfl
  refine ⟨?_, ?_, ?_, ?_, fun ss => relaxSprings_nonPosView Real.sqrt ss ps, fun c => rfl⟩
  · intro h
    by_cases hD : dist3 Real.sqrt B.pos A.pos = 0
    · have hD1 : hypot3 Real.sqrt (B.pos.x - A.pos.x) (B.pos.y - A.pos.y) (B.pos.z - A.pos.z)
          = 0 := hD
      unfold springStep
      rw [hA, hB]
      dsimp only
      rw [if_pos hD1]
    · rcases h with h | ⟨h1, h2⟩
      · exact absurd h hD
      · rw [hstep hD, h1, h2]
        rfl
  · intro hD hfa hfb
    have hab := spring_endpoints_ne ps s A B hA hB hD
    refine ⟨_, by rw [hstep hD, hfa, hfb]; rfl, ?_, ?_, ?_⟩
    · rw [getElem?_modify_of_ne _ _ _ _ (Ne.symm hab), getElem?_modify_self _ _ _ _ hA]
      simp only [Vec3.add, Vec3.smul, Vec3.sub, Option.some.injEq]
      congr 2 <;> ring
    · rw [getElem?_modify_self _ _ _ B (by rw [getElem?_modify_of_ne _ _ _ _ hab]; exact hB)]
      simp only [Vec3.add, Vec3.smul, Vec3.sub, Option.some.injEq]
      congr 2 <;> ring
    · intro j hja hjb
      rw [getElem?_modify_of_ne _ _ _ _ (Ne.symm hjb), getElem?_modify_of_ne _ _ _ _ (Ne.symm hja)]
  · intro hD hfa hfb
    refine ⟨_, by rw [hstep hD, hfa, hfb]; rfl, ?_, ?_⟩
    · rw [getElem?_modify_self _ _ _ _ hA]
      simp only [Vec3.add, Vec3.smul, Vec3.sub, Option.some.injEq]
      congr 2 <;> ring
    · intro j hja
      rw [getElem?_modify_of_ne _ _ _ _ (Ne.symm hja)]
  · intro hD hfa hfb
    refine ⟨_, by rw [hstep hD, hfa, hfb]; rfl, ?_, ?_⟩
    · rw [getElem?_modify_self _ _ _ _ hB]
      simp only [Vec3.add, Vec3.smul, Vec3.sub, Option.some.injEq]
      congr 2 <;> ring
    · intro j hjb
      rw [getElem?_modify_of_ne _ _ _ _ (Ne.symm hjb)]

/-- C26 at a sample state: the spring of `sampleSpringCloth`, whose first endpoint is
pinned and whose second is free, at distance 2. -/
theorem springStep_corrections_witness :
    (sampleSpringCloth ℝ).particles[(⟨0, 1, 1⟩ : Spring ℝ).a]?
        = some (Particle.new (0 : ℝ) 0 0 true) ∧
      (sampleSpringCloth ℝ).particles[(⟨0, 1, 1⟩ : Spring ℝ).b]?
        = some (Particle.new (0 : ℝ) (-2) 0 false) ∧
      dist3 Real.sqrt (Particle.new (0 : ℝ) (-2) 0 false).pos (Particle.new (0 : ℝ) 0 0 true).pos
        ≠ 0 ∧
      ∃ ps1 : List (Particle ℝ),
        springStep Real.sqrt (sampleSpringCloth ℝ).particles ⟨0, 1, 1⟩ = some ps1 ∧
          ∀ j, j ≠ (⟨0, 1, 1⟩ : Spring ℝ).b → ps1[j]? = (sampleSpringCloth ℝ).particles[j]? :=
  have hD : dist3 Real.sqrt (Particle.new (0 : ℝ) (-2) 0 false).pos
      (Particle.new (0 : ℝ) 0 0 true).pos ≠ 0 := by
    simp only [dist3, Particle.new, sub_self, sub_zero, hypot3_vertical]
    norm_num
  match (springStep_corrections (sampleSpringCloth ℝ).particles ⟨0, 1, 1⟩
    (Particle.new 0 0 0 true) (Particle.new 0 (-2) 0 false) rfl rfl).2.2.2.1 hD rfl rfl with
  | ⟨ps1, h1, _, h3⟩ => ⟨rfl, rfl, hD, ps1, h1, h3⟩

/-! ## C27: the bounce off a sphere -/

theorem sphere_normal_unit (s : Sphere ℝ) (p : Vec3 ℝ) (h0 : 0 < dist3 Real.sqrt p s.position) :
    (s.normal Real.sqrt p).dot (s.normal Real.sqrt p) = 1 := by
  have hsq : dist3 Real.sqrt p s.position * dist3 Real.sqrt p s.position
      = (p.x - s.position.x) * (p.x - s.position.x) + (p.y - s.position.y) * (p.y - s.position.y)
        + (p.z - s.position.z) * (p.z - s.position.z) := by
    unfold dist3 hypot3
    exact Real.mul_self_sqrt (real_sum_sq_nonneg _ _ _)
  have hd0 : dist3 Real.sqrt p s.position ≠ 0 := ne_of_gt h0
  unfold Sphere.normal Vec3.dot
  dsimp only
  field_simp
  linarith

/-- The previous position written by `Sphere.resolveCollision` for a penetrating
particle, in terms of the projected position and the normal. -/
theorem sphere_resolve_prev (s : Sphere ℝ) (p prev : Vec3 ℝ)
    (h0 : 0 < dist3 Real.sqrt p s.position) (h1 : dist3 Real.sqrt p s.position < s.radius) :
    (s.resolveCollision Real.sqrt p prev).2 =
      if (((s.resolveCollision Real.sqrt p prev).1.sub prev).dot (s.normal Real.sqrt p)) < 0 then
        (s.resolveCollision Real.sqrt p prev).1.sub
          (((s.resolveCollision Real.sqrt p prev).1.sub prev).sub
            (Vec3.smul ((((s.resolveCollision Real.sqrt p prev).1.sub prev).dot
              (s.normal Real.sqrt p)) * (1 + 0.3)) (s.normal Real.sqrt p)))
      else prev := by
  rw [sphere_resolve_pos s p prev h0 h1]
  have hc : Real.sqrt ((p.x - s.position.x) * (p.x - s.position.x)
      + (p.y - s.position.y) * (p.y - s.position.y)
      + (p.z - s.position.z) * (p.z - s.position.z)) < s.radius ∧
      Real.sqrt ((p.x - s.position.x) * (p.x - s.position.x)
      + (p.y - s.position.y) * (p.y - s.position.y)
      + (p.z - s.position.z) * (p.z - s.position.z)) > 0 := ⟨h1, h0⟩
  unfold Sphere.resolveCollision
  dsimp only
  rw [if_pos hc]
  unfold Sphere.normal Vec3.dot Vec3.sub Vec3.smul dist3 hypot3
  dsimp only
  split
  · dsimp only
    simp only [Vec3.mk.injEq]
    refine ⟨by ring, by ring, by ring⟩
  · rfl

theorem bounce_algebra (q prev n : Vec3 ℝ) (hn : n.dot n = 1) :
    q.sub (q.sub ((q.sub prev).sub (Vec3.smul (((q.sub prev).dot n) * (1 + 0.3)) n)))
        = (q.sub prev).sub (Vec3.smul (1.3 * ((q.sub prev).dot n)) n) ∧
      ((q.sub prev).sub (Vec3.smul (1.3 * ((q.sub prev).dot n)) n)).dot n
        = -0.3 * ((q.sub prev).dot n) ∧
      ((q.sub prev).sub (Vec3.smul (1.3 * ((q.sub prev).dot n)) n)).sub
          (Vec3.smul (-0.3 * ((q.sub prev).dot n)) n)
        = (q.sub prev).sub (Vec3.smul ((q.sub prev).dot n) n) := by
  obtain ⟨qx, qy, qz⟩ := q
  obtain ⟨px, py, pz⟩ := prev
  obtain ⟨nx, ny, nz⟩ := n
  simp only [Vec3.dot, Vec3.sub, Vec3.smul, Vec3.mk.injEq] at hn ⊢
  refine ⟨⟨by ring, by ring, by ring⟩, ?_, ⟨by ring, by ring, by ring⟩⟩
  linear_combination (-1.3 * ((qx - px) * nx + (qy - py) * ny + (qz - pz) * nz)) * hn

/-- C27: in `Sphere.resolveCollision` with `0 < distance < radius`, over the reals,
let `n` be the unit normal from the centre to the particle, `q = center + radius·n` the
projected position, `v = q − prev` and `vn = v·n`. If `vn < 0` the new `prev'` satisfies
`q − prev' = v − 1.3·vn·n`, so the new implicit velocity has normal component
`−0.3·vn > 0` (out of the sphere) and the same tangential component `v − vn·n` as
before; if `vn ≥ 0`, `prev` is unchanged. -/
theorem sphere_resolve_bounce (s : Sphere ℝ) (p prev : Vec3 ℝ)
    (h0 : 0 < dist3 Real.sqrt p s.position) (h1 : dist3 Real.sqrt p s.position < s.radius) :
    (s.normal Real.sqrt p).dot (s.normal Real.sqrt p) = 1 ∧
      (s.resolveCollision Real.sqrt p prev).1
        = s.position.add (Vec3.smul s.radius (s.normal Real.sqrt p)) ∧
      ((((s.resolveCollision Real.sqrt p prev).1.sub prev).dot (s.normal Real.sqrt p)) < 0 →
        (s.resolveCollision Real.sqrt p prev).1.sub (s.resolveCollision Real.sqrt p prev).2
            = ((s.resolveCollision Real.sqrt p prev).1.sub prev).sub
                (Vec3.smul (1.3 * (((s.resolveCollision Real.sqrt p prev).1.sub prev).dot
                  (s.normal Real.sqrt p))) (s.normal Real.sqrt p)) ∧
          ((s.resolveCollision Real.sqrt p prev).1.sub
              (s.resolveCollision Real.sqrt p prev).2).dot (s.normal Real.sqrt p)
            = -0.3 * (((s.resolveCollision Real.sqrt p prev).1.sub prev).dot
                (s.normal Real.sqrt p)) ∧
          0 < ((s.resolveCollision Real.sqrt p prev).1.sub
              (s.resolveCollision Real.sqrt p prev).2).dot (s.normal Real.sqrt p) ∧
          ((s.resolveCollision Real.sqrt p prev).1.sub
              (s.resolveCollision Real.sqrt p prev).2).sub
              (Vec3.smul (((s.resolveCollision Real.sqrt p prev).1.sub
                (s.resolveCollision Real.sqrt p prev).2).dot (s.normal Real.sqrt p))
                (s.normal Real.sqrt p))
            = ((s.resolveCollision Real.sqrt p prev).1.sub prev).sub
                (Vec3.smul (((s.resolveCollision Real.sqrt p prev).1.sub prev).dot
                  (s.normal Real.sqrt p)) (s.normal Real.sqrt p))) ∧
      (0 ≤ (((s.resolveCollision Real.sqrt p prev).1.sub prev).dot (s.normal Real.sqrt p)) →
        (s.resolveCollision Real.sqrt p prev).2 = prev) := by
  have hn := sphere_normal_unit s p h0
  have hprev := sphere_resolve_prev s p prev h0 h1
  refine ⟨hn, ?_, ?_, ?_⟩
  · rw [sphere_resolve_pos s p prev h0 h1]
    simp only [Sphere.normal, Vec3.add, Vec3.smul, Vec3.mk.injEq]
    refine ⟨by ring, by ring, by ring⟩
  · intro hvn
    rw [if_pos hvn] at hprev
    obtain ⟨e1, e2, e3⟩ := bounce_algebra (s.resolveCollision Real.sqrt p prev).1 prev
      (s.normal Real.sqrt p) hn
    have e1' : (s.resolveCollision Real.sqrt p prev).1.sub (s.resolveCollision Real.sqrt p prev).2
        = ((s.resolveCollision Real.sqrt p prev).1.sub prev).sub
            (Vec3.smul (1.3 * (((s.resolveCollision Real.sqrt p prev).1.sub prev).dot
              (s.normal Real.sqrt p))) (s.normal Real.sqrt p)) := by
      rw [hprev]
      exact e1
    refine ⟨e1', ?_, ?_, ?_⟩
    · rw [e1', e2]
    · rw [e1', e2]
      nlinarith
    · rw [e1', e2]
      exact e3
  · intro hvn
    rw [if_neg (not_lt_of_ge hvn)] at hprev
    exact hprev

/-- C27 at a sample input: the point `(1, 0, 0)` inside the sphere of radius 2 centred
at the origin, at rest. -/
theorem sphere_resolve_bounce_witness :
    0 < dist3 Real.sqrt ⟨1, 0, 0⟩ (sampleSphere ℝ).position ∧
      dist3 Real.sqrt ⟨1, 0, 0⟩ (sampleSphere ℝ).position < (sampleSphere ℝ).radius ∧
      ((sampleSphere ℝ).normal Real.sqrt ⟨1, 0, 0⟩).dot
        ((sampleSphere ℝ).normal Real.sqrt ⟨1, 0, 0⟩) = 1 :=
  ⟨by norm_num [sampleSphere, Sphere.new, dist3, hypot3],
    by norm_num [sampleSphere, Sphere.new, dist3, hypot3],
    (sphere_resolve_bounce (sampleSphere ℝ) ⟨1, 0, 0⟩ ⟨1, 0, 0⟩
      (by norm_num [sampleSphere, Sphere.new, dist3, hypot3])
      (by norm_num [sampleSphere, Sphere.new, dist3, hypot3])).1⟩

/-! ## C28, C29: the face of the cube -/

section CubeFace

variable {K : Type} [LinearOrderedField K]

theorem cube_resolve_selectedAxis (c : Cube K) (p prev : Vec3 K) (h : c.checkCollision p = true) :
    c.resolveCollision p prev = c.clampAxis (c.selectedAxis p) p prev := by
  rw [cube_resolve_chain c p prev h]
  unfold Cube.selectedAxis
  split
  · rfl
  · split <;> rfl

theorem selectedAxis_least (c : Cube K) (p : Vec3 K) (j : Axis) :
    c.depth p (c.selectedAxis p) ≤ c.depth p j := by
  unfold Cube.selectedAxis
  by_cases h1 : c.depth p .X < c.depth p .Y ∧ c.depth p .X < c.depth p .Z
  · rw [if_pos h1]
    cases j
    · exact le_refl _
    · exact le_of_lt h1.1
    · exact le_of_lt h1.2
  · rw [if_neg h1]
    by_cases h2 : c.depth p .Y < c.depth p .Z
    · rw [if_pos h2]
      cases j
      · by_contra hlt
        exact h1 ⟨lt_of_not_ge hlt, lt_trans (lt_of_not_ge hlt) h2⟩
      · exact le_refl _
      · exact le_of_lt h2
    · rw [if_neg h2]
      have hzy : c.depth p .Z ≤ c.depth p .Y := le_of_not_gt h2
      cases j
      · by_contra hlt
        exact h1 ⟨lt_of_lt_of_le (lt_of_not_ge hlt) hzy, lt_of_not_ge hlt⟩
      · exact hzy
      · exact le_refl _

theorem checkCollision_iff (c : Cube K) (p : Vec3 K) :
    c.checkCollision p = true ↔
      ∀ j : Axis, c.position.get j - c.halfSize ≤ p.get j ∧ p.get j ≤ c.position.get j + c.halfSize := by
  simp only [Cube.checkCollision, Bool.and_eq_true, decide_eq_true_eq, ge_iff_le]
  constructor
  · rintro ⟨⟨⟨⟨⟨h1, h2⟩, h3⟩, h4⟩, h5⟩, h6⟩ j
    cases j
    · exact ⟨h1, h2⟩
    · exact ⟨h3, h4⟩
    · exact ⟨h5, h6⟩
  · intro h
    exact ⟨⟨⟨⟨⟨(h .X).1, (h .X).2⟩, (h .Y).1⟩, (h .Y).2⟩, (h .Z).1⟩, (h .Z).2⟩

theorem clampAxis_contained (c : Cube K) (k : Axis) (p prev : Vec3 K) (hh : 0 ≤ c.halfSize)
    (h : c.checkCollision p = true) : c.checkCollision (c.clampAxis k p prev).1 = true := by
  rw [checkCollision_iff] at h ⊢
  intro j
  by_cases hjk : j = k
  · subst hjk
    unfold Cube.clampAxis
    dsimp only
    rw [Vec3.get_set_self]
    split
    · constructor <;> linarith
    · constructor <;> linarith
  · rw [(clampAxis_frame c k j p prev hjk).1]
    exact h j

end CubeFace

/-- C28: for a contained particle, with `k` the axis selected by the comparison chain of
`Cube.resolveCollision` (an axis of least depth) and `o_k = pos_k − center_k`, the call
sets `pos_k := center_k + halfSize` if `o_k > 0` and `center_k − halfSize` otherwise
(including `o_k = 0`), and `prev_k := pos_k' − 0.3·(pos_k' − prev_k)`, so the implicit
velocity on that axis becomes `0.3·(pos_k' − prev_k)`: scaled by `0.3`, same sign; the
other two components of `pos` and of `prev` are unchanged. -/
theorem cube_clamp_on_selected_axis {K : Type} [LinearOrderedField K] (c : Cube K) (p prev : Vec3 K)
    (h : c.checkCollision p = true) :
    (∀ j, c.depth p (c.selectedAxis p) ≤ c.depth p j) ∧
      (0 < p.get (c.selectedAxis p) - c.position.get (c.selectedAxis p) →
        (c.resolveCollision p prev).1.get (c.selectedAxis p)
          = c.position.get (c.selectedAxis p) + c.halfSize) ∧
      (p.get (c.selectedAxis p) - c.position.get (c.selectedAxis p) ≤ 0 →
        (c.resolveCollision p prev).1.get (c.selectedAxis p)
          = c.position.get (c.selectedAxis p) - c.halfSize) ∧
      (c.resolveCollision p prev).2.get (c.selectedAxis p)
        = (c.resolveCollision p prev).1.get (c.selectedAxis p)
          - 0.3 * ((c.resolveCollision p prev).1.get (c.selectedAxis p)
            - prev.get (c.selectedAxis p)) ∧
      (c.resolveCollision p prev).1.get (c.selectedAxis p)
          - (c.resolveCollision p prev).2.get (c.selectedAxis p)
        = 0.3 * ((c.resolveCollision p prev).1.get (c.selectedAxis p)
            - prev.get (c.selectedAxis p)) ∧
      ∀ j, j ≠ c.selectedAxis p →
        (c.resolveCollision p prev).1.get j = p.get j ∧
        (c.resolveCollision p prev).2.get j = prev.get j := by
  rw [cube_resolve_selectedAxis c p prev h]
  refine ⟨selectedAxis_least c p, ?_, ?_, ?_, ?_, ?_⟩
  · intro hpos
    simp only [Cube.clampAxis, Vec3.get_set_self, gt_iff_lt, hpos, if_true]
  · intro hneg
    simp only [Cube.clampAxis, Vec3.get_set_self, gt_iff_lt, not_lt.mpr hneg, if_false]
    ring
  · simp only [Cube.clampAxis, Vec3.get_set_self]
    ring
  · simp only [Cube.clampAxis, Vec3.get_set_self]
    ring
  · intro j hj
    exact clampAxis_frame c _ j p prev hj

/-- C28 at a sample input: the position `(3, 2, 1)` in the cube of half size 4 centred
at the origin; the selected axis has the least depth. -/
theorem cube_clamp_on_selected_axis_witness :
    (sampleCube ℚ).checkCollision ⟨3, 2, 1⟩ = true ∧
      ∀ j, (sampleCube ℚ).depth ⟨3, 2, 1⟩ ((sampleCube ℚ).selectedAxis ⟨3, 2, 1⟩)
        ≤ (sampleCube ℚ).depth ⟨3, 2, 1⟩ j :=
  have hc : (sampleCube ℚ).checkCollision ⟨3, 2, 1⟩ = true := by
    norm_num [sampleCube, Cube.new, Cube.checkCollision]
  ⟨hc, (cube_clamp_on_selected_axis (sampleCube ℚ) ⟨3, 2, 1⟩ ⟨3, 2, 1⟩ hc).1⟩

/-- C29: for every cube with `halfSize ≥ 0` and every particle position contained in
it, the position produced by `Cube.resolveCollision` still satisfies
`Cube.checkCollision` (it lies on a face and the test is inclusive); so for a visible
cube the next collision check resolves the particle again. A sphere, over the reals,
does not: the projected position no longer satisfies `Sphere.checkCollision`. -/
theorem cube_resolution_stays_contained {K : Type} [LinearOrderedField K] (sqrt : K → K)
    (c : Cube K) (q : Particle K) (hh : 0 ≤ c.halfSize) (hv : c.visible = true)
    (h : c.checkCollision q.pos = true) :
    c.checkCollision (c.resolveCollision q.pos q.prev).1 = true ∧
      c.checkCollision (collideWith sqrt q (.cube c)).pos = true ∧
      collideWith sqrt (collideWith sqrt q (.cube c)) (.cube c)
        = { collideWith sqrt q (.cube c) with
            pos := (c.resolveCollision (collideWith sqrt q (.cube c)).pos
              (collideWith sqrt q (.cube c)).prev).1,
            prev := (c.resolveCollision (collideWith sqrt q (.cube c)).pos
              (collideWith sqrt q (.cube c)).prev).2 } ∧
      ∀ (s : Sphere ℝ) (p prev : Vec3 ℝ), 0 < dist3 Real.sqrt p s.position →
        dist3 Real.sqrt p s.position < s.radius →
        s.checkCollision Real.sqrt (s.resolveCollision Real.sqrt p prev).1 = false := by
  have h1 : c.checkCollision (c.resolveCollision q.pos q.prev).1 = true := by
    rw [cube_resolve_selectedAxis c q.pos q.prev h]
    exact clampAxis_contained c _ q.pos q.prev hh h
  have hcw : collideWith sqrt q (.cube c)
      = { q with pos := (c.resolveCollision q.pos q.prev).1,
                 prev := (c.resolveCollision q.pos q.prev).2 } := by
    simp only [collideWith, GeometricObject.visible, GeometricObject.checkCollision, hv, h,
      Bool.and_self, if_true, GeometricObject.resolveCollision]
  have h2 : c.checkCollision (collideWith sqrt q (.cube c)).pos = true := by
    rw [hcw]
    exact h1
  refine ⟨h1, h2, ?_, ?_⟩
  · generalize collideWith sqrt q (.cube c) = q1 at h2 ⊢
    simp only [collideWith, GeometricObject.visible, GeometricObject.checkCollision, hv, h2,
      Bool.and_self, if_true, GeometricObject.resolveCollision]
  · intro s p prev h0 hlt
    have hd : dist3 Real.sqrt (s.resolveCollision Real.sqrt p prev).1 s.position = s.radius := by
      rw [sphere_resolve_pos s p prev h0 hlt]
      exact sphere_projection_dist s.position p s.radius (le_of_lt (lt_trans h0 hlt)) h0
    have hn : ¬ dist3 Real.sqrt (s.resolveCollision Real.sqrt p prev).1 s.position < s.radius := by
      rw [hd]
      exact lt_irrefl _
    simp only [Sphere.checkCollision, decide_eq_false_iff_not]
    exact hn

/-- C29 at a sample input: a particle at `(3, 2, 1)` in the cube of half size 4 centred
at the origin. -/
theorem cube_resolution_stays_contained_witness :
    0 ≤ (sampleCube ℝ).halfSize ∧ (sampleCube ℝ).visible = true ∧
      (sampleCube ℝ).checkCollision (Particle.new (3 : ℝ) 2 1 false).pos = true ∧
      (sampleCube ℝ).checkCollision
        ((sampleCube ℝ).resolveCollision (Particle.new (3 : ℝ) 2 1 false).pos
          (Particle.new (3 : ℝ) 2 1 false).prev).1 = true :=
  have hh : 0 ≤ (sampleCube ℝ).halfSize := by norm_num [sampleCube, Cube.new]
  have hc : (sampleCube ℝ).checkCollision (Particle.new (3 : ℝ) 2 1 false).pos = true := by
    norm_num [sampleCube, Cube.new, Cube.checkCollision, Particle.new]
  ⟨hh, rfl, hc,
    (cube_resolution_stays_contained Real.sqrt (sampleCube ℝ) (Particle.new 3 2 1 false) hh rfl
      hc).1⟩

/-! ## C30: spring endpoints index the particle array -/

theorem gridIdx_lt (cols rows x y : Nat) (hx : x ≤ cols) (hy : y ≤ rows) :
    gridIdx cols x y < (cols + 1) * (rows + 1) := by
  unfold gridIdx
  have h1 : y * (cols + 1) ≤ rows * (cols + 1) := Nat.mul_le_mul_right _ hy
  have h2 : (cols + 1) * (rows + 1) = rows * (cols + 1) + (cols + 1) := by ring
  omega

theorem gridIdx_succ_row (cols x y : Nat) :
    gridIdx cols x (y + 1) = gridIdx cols x y + (cols + 1) := by
  unfold gridIdx
  ring

theorem gridIdx_succ_col (cols x y : Nat) : gridIdx cols (x + 1) y = gridIdx cols x y + 1 := by
  unfold gridIdx
  ring

section SpringRange

variable {K : Type} [LinearOrderedField K]

theorem structural_grid (w h : K) (cols rows : Nat) (s : Spring K)
    (hs : s ∈ structuralSprings w h cols rows) : GridSpring cols rows s := by
  simp only [structuralSprings, List.mem_flatMap, List.mem_range, List.mem_append] at hs
  obtain ⟨y, hy, x, hx, hs⟩ := hs
  rcases hs with hs | hs
  · split at hs
    · simp only [List.mem_singleton] at hs
      subst hs
      refine ⟨?_, gridIdx_lt cols rows x y (by omega) (by omega),
        gridIdx_lt cols rows (x + 1) y (by omega) (by omega)⟩
      dsimp only
      rw [gridIdx_succ_col]
      omega
    · simp at hs
  · split at hs
    · simp only [List.mem_singleton] at hs
      subst hs
      refine ⟨?_, gridIdx_lt cols rows x y (by omega) (by omega),
        gridIdx_lt cols rows x (y + 1) (by omega) (by omega)⟩
      dsimp only
      rw [gridIdx_succ_row]
      omega
    · simp at hs

theorem shear_grid (sqrt : K → K) (w h : K) (cols rows : Nat) (s : Spring K)
    (hs : s ∈ shearSprings sqrt w h cols rows) : GridSpring cols rows s := by
  simp only [shearSprings, List.mem_flatMap, List.mem_range, List.mem_cons, List.mem_singleton,
    List.not_mem_nil, or_false] at hs
  obtain ⟨y, hy, x, hx, hs⟩ := hs
  rcases hs with hs | hs
  · subst hs
    refine ⟨?_, gridIdx_lt cols rows x y (by omega) (by omega),
      gridIdx_lt cols rows (x + 1) (y + 1) (by omega) (by omega)⟩
    dsimp only
    rw [gridIdx_succ_row, gridIdx_succ_col]
    omega
  · subst hs
    refine ⟨?_, gridIdx_lt cols rows (x + 1) y (by omega) (by omega),
      gridIdx_lt cols rows x (y + 1) (by omega) (by omega)⟩
    dsimp only
    rw [gridIdx_succ_row, gridIdx_succ_col]
    omega

theorem bendingX_grid (w : K) (cols rows : Nat) (s : Spring K)
    (hs : s ∈ bendingSpringsX w cols rows) : GridSpring cols rows s := by
  simp only [bendingSpringsX, List.mem_flatMap, List.mem_range, List.mem_map] at hs
  obtain ⟨y, hy, x, hx, hs⟩ := hs
  subst hs
  refine ⟨?_, gridIdx_lt cols rows x y (by omega) (by omega),
    gridIdx_lt cols rows (x + 2) y (by omega) (by omega)⟩
  dsimp only
  rw [show x + 2 = (x + 1) + 1 by rfl, gridIdx_succ_col, gridIdx_succ_col]
  omega

theorem bendingY_grid (h : K) (cols rows : Nat) (s : Spring K)
    (hs : s ∈ bendingSpringsY h cols rows) : GridSpring cols rows s := by
  simp only [bendingSpringsY, List.mem_flatMap, List.mem_range, List.mem_map] at hs
  obtain ⟨y, hy, x, hx, hs⟩ := hs
  subst hs
  refine ⟨?_, gridIdx_lt cols rows x y (by omega) (by omega),
    gridIdx_lt cols rows x (y + 2) (by omega) (by omega)⟩
  dsimp only
  rw [show y + 2 = (y + 1) + 1 by rfl, gridIdx_succ_row, gridIdx_succ_row]
  omega

theorem satisfyConstraints_ok (sqrt : K → K) (n : Nat) (c : Cloth K)
    (h : ∀ s ∈ c.springs, s.a < c.particles.length ∧ s.b < c.particles.length) :
    ∃ c1, c.satisfyConstraints sqrt n = .ok c1 ∧ c1.springs = c.springs ∧
      c1.particles.length = c.particles.length := by
  induction n generalizing c with
  | zero => exact ⟨c, rfl, rfl, rfl⟩
  | succ k ih =>
    obtain ⟨c1, ps, h1, hs1, _, hlen, _⟩ := relaxOnce_ok sqrt c h
    obtain ⟨c2, h2, hs2, hlen2⟩ := ih c1 (by rw [hs1, hlen]; exact h)
    refine ⟨c2, ?_, by rw [hs2, hs1], by rw [hlen2, hlen]⟩
    rw [← h2]
    conv_lhs => unfold Cloth.satisfyConstraints
    simp only [h1]

end SpringRange

/-- C30: for all `cols ≥ 1` and `rows ≥ 1`, every spring built by the `Cloth`
constructor has two distinct endpoint indices `a ≠ b` that both lie in
`0 … (cols+1)·(rows+1) − 1`, so the lookups `particles[s.a]` and `particles[s.b]` of
`satisfyConstraints` find a particle, and `satisfyConstraints(n)` on the fresh cloth
completes for every `n`. -/
theorem constructor_springs_in_range {K : Type} [LinearOrderedField K] (sqrt : K → K) (width height : K)
    (cols rows : Nat) (_hc : 1 ≤ cols) (_hr : 1 ≤ rows) :
    (∀ s ∈ (Cloth.new sqrt width height cols rows).springs,
        s.a ≠ s.b ∧ s.a < (cols + 1) * (rows + 1) ∧ s.b < (cols + 1) * (rows + 1) ∧
        (∃ A, (Cloth.new sqrt width height cols rows).particles[s.a]? = some A) ∧
        ∃ B, (Cloth.new sqrt width height cols rows).particles[s.b]? = some B) ∧
      ∀ n, ∃ c1, (Cloth.new sqrt width height cols rows).satisfyConstraints sqrt n = .ok c1 := by
  have hlen : (Cloth.new sqrt width height cols rows).particles.length = (cols + 1) * (rows + 1) :=
    gridParticles_length width height cols rows
  have key : ∀ s ∈ (Cloth.new sqrt width height cols rows).springs, GridSpring cols rows s := by
    intro s hs
    simp only [Cloth.new, List.mem_append] at hs
    rcases hs with ((hs | hs) | hs) | hs
    · exact structural_grid width height cols rows s hs
    · exact shear_grid sqrt width height cols rows s hs
    · exact bendingX_grid width cols rows s hs
    · exact bendingY_grid height cols rows s hs
  constructor
  · intro s hs
    obtain ⟨hne, ha, hb⟩ := key s hs
    refine ⟨hne, ha, hb, ?_, ?_⟩
    · exact ⟨_, List.getElem?_eq_getElem (by rw [hlen]; exact ha)⟩
    · exact ⟨_, List.getElem?_eq_getElem (by rw [hlen]; exact hb)⟩
  · intro n
    obtain ⟨c1, h1, _⟩ := satisfyConstraints_ok sqrt n (Cloth.new sqrt width height cols rows)
      (fun s hs => by
        obtain ⟨_, ha, hb⟩ := key s hs
        rw [hlen]
        exact ⟨ha, hb⟩)
    exact ⟨c1, h1⟩

/-- C30 at a sample input: the cloth of the page, `new Cloth(2, 2, 30, 20)`, 5
iterations. -/
theorem constructor_springs_in_range_witness :
    1 ≤ 30 ∧ 1 ≤ 20 ∧
      ∃ c1, (Cloth.new Real.sqrt 2 2 30 20).satisfyConstraints Real.sqrt 5 = .ok c1 :=
  ⟨by decide, by decide,
    (constructor_springs_in_range Real.sqrt 2 2 30 20 (by decide) (by decide)).2 5⟩

end ClothSim
